import Mathlib

/-!
# Kinetic Ising model (`ising.cpp`): bucketed event catalog and KMC step

Shallow embedding of `src/ising.cpp`.

* C `int` values are modelled by `Int`.  Every integer the program computes
  from a valid state is an index below `N`, a bucket size at most `N`, an event
  type below 10 or a `rand()` output, so with `N = dim[0] * dim[1]`
  representable no wrap-around occurs and none is modelled.  C division and
  remainder are `Int.tdiv` and `Int.tmod`.
* A heap array `new int[n]` is modelled by a total function `Int → Int`
  together with its allocation size; every read and write goes through `rd` /
  `wr`, which fail (`none`) on an index outside `[0, n)`.  The fixed-size global
  tables `n_events[10]` and `rate[10]` are treated the same way with size
  `n_event_types`.
* `double` values are modelled by an arbitrary linearly ordered field `K`
  (exact arithmetic); `rand()` outputs and the `log` and `tanh` functions are
  inputs.  The rate table is a function `Int → K` passed alongside the state;
  statements over the reals instantiate `K` and `tanh` with `ℝ` and
  `Real.tanh`.
* The standard input of `read_spin` is a list of characters.
-/

namespace Ising

/-! ## Data model -/

/-- The constant `n_event_types` of the source. -/
def n_event_types : Int := 10

/-- The global integer state of the program: `dim[0]`, `dim[1]`, `N`, `spin`,
`n_events`, `event_pos`, `grid_event_type`, `grid_event_idx`. -/
structure Sys where
  dim0 : Int
  dim1 : Int
  N : Int
  spin : Int → Int
  n_events : Int → Int
  event_pos : Int → Int → Int
  grid_event_type : Int → Int
  grid_event_idx : Int → Int

/-- Bounds-checked read `a[i]` of an array of `size` cells. -/
def rd (size : Int) (a : Int → Int) (i : Int) : Option Int :=
  if 0 ≤ i ∧ i < size then some (a i) else none

/-- Bounds-checked write `a[i] = v` of an array of `size` cells. -/
def wr (size : Int) (a : Int → Int) (i v : Int) : Option (Int → Int) :=
  if 0 ≤ i ∧ i < size then some (Function.update a i v) else none

/-- Bounds-checked read `a[t][k]` of `n_event_types` rows of `size` cells. -/
def rd2 (size : Int) (a : Int → Int → Int) (t k : Int) : Option Int :=
  if 0 ≤ t ∧ t < n_event_types ∧ 0 ≤ k ∧ k < size then some (a t k) else none

/-- Bounds-checked write `a[t][k] = v` of `n_event_types` rows of `size` cells. -/
def wr2 (size : Int) (a : Int → Int → Int) (t k v : Int) : Option (Int → Int → Int) :=
  if 0 ≤ t ∧ t < n_event_types ∧ 0 ≤ k ∧ k < size then
    some (Function.update a t (Function.update (a t) k v))
  else none

/-- A counted loop `for (int i = 0; i < n; i++) body(i)` over a state, where the
body may fail. -/
def for_loop {σ : Type} (body : Int → σ → Option σ) : Nat → σ → Option σ
  | 0, s => some s
  | k + 1, s => (for_loop body k s).bind (body (k : Int))

/-! ## Index geometry and the classifier -/

/-- Source `idx2_to_idx1`: `dim[1] * i + j`. -/
def idx2_to_idx1 (s : Sys) (i j : Int) : Int :=
  s.dim1 * i + j

/-- Source `idx1_to_idx2`: `(idx / dim[1], idx % dim[1])` with C (truncating)
division; a zero divisor is a failure. -/
def idx1_to_idx2 (s : Sys) (idx : Int) : Option (Int × Int) :=
  if s.dim1 = 0 then none else some (Int.tdiv idx s.dim1, Int.tmod idx s.dim1)

/-- Row neighbour `i+1 < dim[0] ? i+1 : 0`. -/
def i_next (s : Sys) (i : Int) : Int := if i + 1 < s.dim0 then i + 1 else 0

/-- Row neighbour `i-1 >= 0 ? i-1 : dim[0]-1`. -/
def i_prev (s : Sys) (i : Int) : Int := if i - 1 ≥ 0 then i - 1 else s.dim0 - 1

/-- Column neighbour `j+1 < dim[1] ? j+1 : 0`. -/
def j_next (s : Sys) (j : Int) : Int := if j + 1 < s.dim1 then j + 1 else 0

/-- Column neighbour `j-1 >= 0 ? j-1 : dim[1]-1`. -/
def j_prev (s : Sys) (j : Int) : Int := if j - 1 ≥ 0 then j - 1 else s.dim1 - 1

/-- Source `get_event_type`: four neighbour reads, one self read,
`sum + self * 5`. -/
def get_event_type (s : Sys) (i j : Int) : Option Int := do
  let sum : Int := 0
  let a ← rd s.N s.spin (idx2_to_idx1 s (i_next s i) j)
  let sum := sum + a
  let b ← rd s.N s.spin (idx2_to_idx1 s (i_prev s i) j)
  let sum := sum + b
  let c ← rd s.N s.spin (idx2_to_idx1 s i (j_next s j))
  let sum := sum + c
  let d ← rd s.N s.spin (idx2_to_idx1 s i (j_prev s j))
  let sum := sum + d
  let self ← rd s.N s.spin (idx2_to_idx1 s i j)
  pure (sum + self * 5)

/-! ## Event catalog -/

/-- Source `remove_event`. -/
def remove_event (s : Sys) (idx : Int) : Option Sys := do
  let old_event_type ← rd s.N s.grid_event_type idx
  let old_event_idx ← rd s.N s.grid_event_idx idx
  let cnt ← rd n_event_types s.n_events old_event_type
  let old_array_end := cnt - 1
  let replaced_grid ← rd2 s.N s.event_pos old_event_type old_array_end
  let gei ← wr s.N s.grid_event_idx replaced_grid old_event_idx
  let ep ← wr2 s.N s.event_pos old_event_type old_event_idx replaced_grid
  let ne ← wr n_event_types s.n_events old_event_type (cnt - 1)
  pure { s with grid_event_idx := gei, event_pos := ep, n_events := ne }

/-- Source `insert_event`. -/
def insert_event (s : Sys) (event_type idx : Int) : Option Sys := do
  let array_end ← rd n_event_types s.n_events event_type
  let ep ← wr2 s.N s.event_pos event_type array_end idx
  let get ← wr s.N s.grid_event_type idx event_type
  let gei ← wr s.N s.grid_event_idx idx array_end
  let ne ← wr n_event_types s.n_events event_type (array_end + 1)
  pure { s with event_pos := ep, grid_event_type := get, grid_event_idx := gei, n_events := ne }

/-- Body of the inner loop of `init_events`: classify site `(i, j)` and insert
it. -/
def init_body (i j : Int) (s : Sys) : Option Sys := do
  let event_type ← get_event_type s i j
  insert_event s event_type (idx2_to_idx1 s i j)

/-- Source `init_events`: zero the ten counters, then insert every site in
row-major order under its current event type. -/
def init_events (s : Sys) : Option Sys := do
  let s0 ← for_loop
    (fun i s => (wr n_event_types s.n_events i 0).map (fun ne => { s with n_events := ne }))
    n_event_types.toNat s
  for_loop (fun i s => for_loop (init_body i) s.dim1.toNat s) s0.dim0.toNat s0

/-- Source `fix_events`. -/
def fix_events (s : Sys) (i j : Int) : Option Sys := do
  let idx1 := idx2_to_idx1 s i j
  let s1 ← remove_event s idx1
  let event_type ← get_event_type s1 i j
  insert_event s1 event_type idx1

/-! ## Kinetic step -/

/-- The accumulation `total_rate += rate[i] * n_events[i]` for `i = 0 .. 9`
(first loop of `kmc`). -/
def total_rate {K : Type} [LinearOrderedField K] (rate : Int → K) (n_events : Int → Int) : K :=
  (List.range n_event_types.toNat).foldl
    (fun acc i => acc + rate (i : Int) * ((n_events (i : Int) : Int) : K)) 0

/-- The selection loop of `kmc` with `k` iterations left, loop counter `i` and
accumulator `rate_asum`; when the loop runs out, `chosen_event_type` still has
its initial value `n_event_types - 1`. -/
def choose_loop {K : Type} [LinearOrderedField K] (rate : Int → K) (n_events : Int → Int)
    (p : K) : Nat → Int → K → Int
  | 0, _, _ => n_event_types - 1
  | k + 1, i, rate_asum =>
    let rate_asum := rate_asum + rate i * ((n_events i : Int) : K)
    if p ≤ rate_asum then i else choose_loop rate n_events p k (i + 1) rate_asum

/-- The value of `chosen_event_type` after the selection loop of `kmc`. -/
def chosen_event_type {K : Type} [LinearOrderedField K] (rate : Int → K)
    (n_events : Int → Int) (p : K) : Int :=
  choose_loop rate n_events p n_event_types.toNat 0 0

/-- The update part of `kmc` (source lines 140-149) for the selected site
`idx`: split the index, flip the spin, re-classify the site and its four
toroidal neighbours. -/
def kmc_update (s : Sys) (idx : Int) : Option Sys := do
  let (i, j) ← idx1_to_idx2 s idx
  let old ← rd s.N s.spin idx
  let sp ← wr s.N s.spin idx (1 - old)
  let s := { s with spin := sp }
  let s ← fix_events s i j
  let s ← fix_events s (i_next s i) j
  let s ← fix_events s (i_prev s i) j
  let s ← fix_events s i (j_next s j)
  fix_events s i (j_prev s j)

/-- The site selected by `kmc`: `event_pos[chosen][rand() % n_events[chosen]]`;
a zero modulus is a failure. -/
def kmc_select {K : Type} [LinearOrderedField K] (RAND_MAX : Int) (rate : Int → K)
    (s : Sys) (r1 r2 : Int) : Option Int := do
  let total := total_rate rate s.n_events
  let p : K := (r1 : K) / (RAND_MAX : K) * total
  let chosen := chosen_event_type rate s.n_events p
  let cnt ← rd n_event_types s.n_events chosen
  if cnt = 0 then none
  else
    let event_idx := Int.tmod r2 cnt
    rd2 s.N s.event_pos chosen event_idx

/-- Source `kmc`, with the three `rand()` outputs `r1 r2 r3` and the `log`
function as inputs.  Returns the new state and the waiting time. -/
def kmc {K : Type} [LinearOrderedField K] (RAND_MAX : Int) (log : K → K) (rate : Int → K)
    (s : Sys) (r1 r2 r3 : Int) : Option (Sys × K) := do
  let total := total_rate rate s.n_events
  let idx ← kmc_select RAND_MAX rate s r1 r2
  let s ← kmc_update s idx
  let u : K := (r3 : K) / (RAND_MAX : K)
  let t : K := -log u / total
  pure (s, t)

/-! ## Foreign-callable API -/

/-- Source `init_system`: fix the dimensions and `N`; the freshly allocated
arrays hold whatever the arguments `spin0 .. gei0` say. -/
def init_system (in_dim0 in_dim1 : Int) (spin0 ne0 : Int → Int) (ep0 : Int → Int → Int)
    (get0 gei0 : Int → Int) : Sys :=
  { dim0 := in_dim0, dim1 := in_dim1, N := in_dim0 * in_dim1, spin := spin0,
    n_events := ne0, event_pos := ep0, grid_event_type := get0, grid_event_idx := gei0 }

/-- The effect of `memcpy(dst, src, N * sizeof(int))`. -/
def memcpy (N : Int) (dst src : Int → Int) : Int → Int :=
  fun k => if 0 ≤ k ∧ k < N then src k else dst k

/-- The state after the `memcpy(spin, in_spin, N * sizeof(int))` of `set_spin`. -/
def loaded (s : Sys) (in_spin : Int → Int) : Sys :=
  { s with spin := memcpy s.N s.spin in_spin }

/-- Source `set_spin`: copy the input into `spin`, then `init_events`. -/
def set_spin (s : Sys) (in_spin : Int → Int) : Option Sys :=
  init_events (loaded s in_spin)

/-- Source `get_spin`: returns the (unchanged) state and the output buffer. -/
def get_spin (s : Sys) (out_spin : Int → Int) : Sys × (Int → Int) :=
  (s, memcpy s.N out_spin s.spin)

/-- Source `next_frame`, as a loop over an arbitrary step function (the source
uses `kmc`); `fuel` bounds the number of steps taken, and a failing step makes
the loop fail. -/
def next_frame {σ K : Type} [LinearOrderedField K] (step : σ → Option (σ × K)) :
    Nat → σ → K → K → Option (σ × K)
  | 0, s, t, time_per_frame =>
    if t < time_per_frame then none else some (s, t - time_per_frame)
  | fuel + 1, s, t, time_per_frame =>
    if t < time_per_frame then
      match step s with
      | none => none
      | some (s1, dt) => next_frame step fuel s1 (t + dt) time_per_frame
    else some (s, t - time_per_frame)

/-- The state and the accumulated time `t + dt_1 + ... + dt_k` after `k`
successive steps, each `t += dt` as in the loop body of `next_frame`. -/
def run_steps {σ K : Type} [LinearOrderedField K] (step : σ → Option (σ × K)) :
    Nat → σ → K → Option (σ × K)
  | 0, s, t => some (s, t)
  | k + 1, s, t =>
    match step s with
    | none => none
    | some (s1, dt) => run_steps step k s1 (t + dt)

/-- The step function of the source: `kmc` on the program state, drawing its
three `rand()` outputs from the stream `rand` at position `pos`. -/
def kmc_step {K : Type} [LinearOrderedField K] (RAND_MAX : Int) (log : K → K)
    (rate : Int → K) (rand : Nat → Int) (st : Sys × Nat) : Option ((Sys × Nat) × K) :=
  (kmc RAND_MAX log rate st.1 (rand st.2) (rand (st.2 + 1)) (rand (st.2 + 2))).map
    (fun r => ((r.1, st.2 + 3), r.2))

/-! ## Invariants -/

/-- Grid geometry as fixed by `init_system` with positive dimensions. -/
def Geometry (s : Sys) : Prop :=
  1 ≤ s.dim0 ∧ 1 ≤ s.dim1 ∧ s.N = s.dim0 * s.dim1

/-- Every spin of the grid is 0 or 1. -/
def SpinsBinary (s : Sys) : Prop :=
  ∀ x, 0 ≤ x → x < s.N → s.spin x = 0 ∨ s.spin x = 1

/-- Every bucket size is non-negative. -/
def CountsNonneg (s : Sys) : Prop :=
  ∀ t, 0 ≤ t → t < 10 → 0 ≤ s.n_events t

/-- Site `x` is filed: its reverse index names a live slot of one of the ten
buckets, and that slot holds `x`. -/
def Filed (s : Sys) (x : Int) : Prop :=
  0 ≤ s.grid_event_type x ∧ s.grid_event_type x < 10 ∧
  0 ≤ s.grid_event_idx x ∧ s.grid_event_idx x < s.n_events (s.grid_event_type x) ∧
  s.event_pos (s.grid_event_type x) (s.grid_event_idx x) = x

/-- The reverse index is valid: every live entry `event_pos[t][k]` is a site
whose reverse index is `(t, k)`. -/
def LiveValid (s : Sys) : Prop :=
  ∀ t k, 0 ≤ t → t < 10 → 0 ≤ k → k < s.n_events t →
    0 ≤ s.event_pos t k ∧ s.event_pos t k < s.N ∧
    s.grid_event_type (s.event_pos t k) = t ∧ s.grid_event_idx (s.event_pos t k) = k

/-- The three per-site conditions of catalog consistency, for every site
`(i, j)` of the grid: the recorded type is the classifier's value, the recorded
position is a live position of that bucket, and the bucket holds the site
there. -/
def SiteConsistent (s : Sys) : Prop :=
  ∀ i j, 0 ≤ i → i < s.dim0 → 0 ≤ j → j < s.dim1 →
    get_event_type s i j = some (s.grid_event_type (idx2_to_idx1 s i j)) ∧
    0 ≤ s.grid_event_idx (idx2_to_idx1 s i j) ∧
    s.grid_event_idx (idx2_to_idx1 s i j)
      < s.n_events (s.grid_event_type (idx2_to_idx1 s i j)) ∧
    s.event_pos (s.grid_event_type (idx2_to_idx1 s i j))
      (s.grid_event_idx (idx2_to_idx1 s i j)) = idx2_to_idx1 s i j

/-- Structural catalog invariant: sizes are non-negative, every site is filed,
and the reverse index is valid. -/
def Struct (s : Sys) : Prop :=
  CountsNonneg s ∧ (∀ x, 0 ≤ x → x < s.N → Filed s x) ∧ LiveValid s

/-- Structural invariant of the state between `remove_event(h)` and the
following `insert_event(_, h)`: site `h` is in no bucket. -/
def StructHole (s : Sys) (h : Int) : Prop :=
  CountsNonneg s ∧ (∀ x, 0 ≤ x → x < s.N → x ≠ h → Filed s x) ∧ LiveValid s ∧
  ∀ t k, 0 ≤ t → t < 10 → 0 ≤ k → k < s.n_events t → s.event_pos t k ≠ h

/-- The state `remove_event(idx)` produces when all its accesses are in
range. -/
def removed (s : Sys) (idx : Int) : Sys :=
  { s with
    grid_event_idx := Function.update s.grid_event_idx
      (s.event_pos (s.grid_event_type idx) (s.n_events (s.grid_event_type idx) - 1))
      (s.grid_event_idx idx),
    event_pos := Function.update s.event_pos (s.grid_event_type idx)
      (Function.update (s.event_pos (s.grid_event_type idx)) (s.grid_event_idx idx)
        (s.event_pos (s.grid_event_type idx) (s.n_events (s.grid_event_type idx) - 1))),
    n_events := Function.update s.n_events (s.grid_event_type idx)
      (s.n_events (s.grid_event_type idx) - 1) }

/-- The state `insert_event(event_type, idx)` produces when all its accesses
are in range. -/
def inserted (s : Sys) (event_type idx : Int) : Sys :=
  { s with
    event_pos := Function.update s.event_pos event_type
      (Function.update (s.event_pos event_type) (s.n_events event_type) idx),
    grid_event_type := Function.update s.grid_event_type idx event_type,
    grid_event_idx := Function.update s.grid_event_idx idx (s.n_events event_type),
    n_events := Function.update s.n_events event_type (s.n_events event_type + 1) }

/-- The value `get_event_type(i, j)` returns when its five reads are in range:
`sum + self * 5` with the four neighbour spins added to `sum = 0` in source
order. -/
def event_type_value (s : Sys) (i j : Int) : Int :=
  0 + s.spin (idx2_to_idx1 s (i_next s i) j) + s.spin (idx2_to_idx1 s (i_prev s i) j)
    + s.spin (idx2_to_idx1 s i (j_next s j)) + s.spin (idx2_to_idx1 s i (j_prev s j))
    + s.spin (idx2_to_idx1 s i j) * 5

/-- The state after the flip `spin[idx] = 1 - spin[idx]` of `kmc`. -/
def flipped (s : Sys) (idx : Int) : Sys :=
  { s with spin := Function.update s.spin idx (1 - s.spin idx) }

/-- The state `fix_events(i, j)` produces when all its accesses are in range. -/
def fixed (s : Sys) (i j : Int) : Sys :=
  inserted (removed s (idx2_to_idx1 s i j)) (event_type_value s i j) (idx2_to_idx1 s i j)

/-- Site `(i, j)` is recorded under the type the classifier computes for it. -/
def Classified (s : Sys) (i j : Int) : Prop :=
  s.grid_event_type (idx2_to_idx1 s i j) = event_type_value s i j

/-- The state the update part of `kmc` produces for the site `(i, j)` when all
accesses are in range: flip, then the five `fix_events` calls in source order. -/
def updated (s : Sys) (i j : Int) : Sys :=
  fixed (fixed (fixed (fixed (fixed (flipped s (idx2_to_idx1 s i j)) i j)
    (i_next s i) j) (i_prev s i) j) i (j_next s j)) i (j_prev s j)

/-! ## Concrete states -/

/-- A 1 x 3 grid with spins `1 0 0` whose three sites meet the three per-site
consistency conditions, but whose buckets 7 and 1 each carry one extra live
entry (site 1 at `event_pos[7][1]`, site 2's slot doubled by site 1 in bucket 1):
`n_events` sums to 4, not 3. -/
def ghostState : Sys :=
  { dim0 := 1, dim1 := 3, N := 3,
    spin := fun x => if x = 0 then 1 else 0,
    n_events := fun t => if t = 7 then 2 else if t = 1 then 2 else 0,
    event_pos := fun t k =>
      if t = 7 then (if k = 0 then 0 else 1) else if t = 1 then (if k = 0 then 2 else 1) else 0,
    grid_event_type := fun x => if x = 0 then 7 else 1,
    grid_event_idx := fun x => if x = 1 then 1 else 0 }

/-- A 2 x 2 grid with all spins 1 and the catalog `init_events` builds for it:
all four sites in bucket 9, in index order. -/
def allUp : Sys :=
  { dim0 := 2, dim1 := 2, N := 4,
    spin := fun _ => 1,
    n_events := fun t => if t = 9 then 4 else 0,
    event_pos := fun _ k => k,
    grid_event_type := fun _ => 9,
    grid_event_idx := fun x => x }

/-- The state `s` with its site count replaced by `m` (used to speak of the
catalog over the first `m` sites only). -/
def withN (s : Sys) (m : Int) : Sys :=
  { s with N := m }

/-- The state after the first loop of `init_events` has run `k` iterations. -/
def zeroed (s : Sys) (k : Int) : Sys :=
  { s with n_events := fun t => if 0 ≤ t ∧ t < k then 0 else s.n_events t }

/-- Loop invariant of `init_events` after the first `m` sites (in row-major
order) of the grid `base` have been inserted: spins and geometry are those of
`base`, the catalog restricted to the sites below `m` is structurally valid,
and every site below `m` is recorded under its classifier value. -/
def InitInv (base : Sys) (m : Int) (s : Sys) : Prop :=
  s.spin = base.spin ∧ s.dim0 = base.dim0 ∧ s.dim1 = base.dim1 ∧ s.N = base.N ∧
  Struct (withN s m) ∧
  ∀ a b, 0 ≤ a → a < base.dim0 → 0 ≤ b → b < base.dim1 → idx2_to_idx1 base a b < m →
    Classified s a b

/-- The sum of the ten bucket sizes. -/
def total_events (s : Sys) : Int :=
  ∑ t ∈ Finset.range 10, s.n_events (t : Int)

/-- Partition of the sites by the live bucket entries: every live entry is a
site, every site occurs at exactly one live position `(t, k)`, and the bucket
sizes sum to `N`. -/
def Partition (s : Sys) : Prop :=
  (∀ t k, 0 ≤ t → t < 10 → 0 ≤ k → k < s.n_events t →
    0 ≤ s.event_pos t k ∧ s.event_pos t k < s.N) ∧
  (∀ x, 0 ≤ x → x < s.N →
    ∃! p : Int × Int, (0 ≤ p.1 ∧ p.1 < 10 ∧ 0 ≤ p.2 ∧ p.2 < s.n_events p.1) ∧
      s.event_pos p.1 p.2 = x) ∧
  total_events s = s.N

/-- States reached from `init_events` on a grid with positive dimensions and
binary spins by any number of successful `kmc` updates. -/
inductive Reachable : Sys → Prop
  | init (s s' : Sys) : Geometry s → SpinsBinary s → init_events s = some s' → Reachable s'
  | step (s s' : Sys) (idx : Int) : Reachable s → kmc_update s idx = some s' → Reachable s'

/-- Neighbour count as the specification words it: the number, with
multiplicity, of the four toroidal neighbours `((i+1) mod dim0, j)`,
`((i-1) mod dim0, j)`, `(i, (j+1) mod dim1)`, `(i, (j-1) mod dim1)` that hold
spin 1. -/
def neighbor_sum_spec (s : Sys) (i j : Int) : Int :=
  (if s.spin (idx2_to_idx1 s ((i + 1) % s.dim0) j) = 1 then 1 else 0)
    + (if s.spin (idx2_to_idx1 s ((i - 1) % s.dim0) j) = 1 then 1 else 0)
    + (if s.spin (idx2_to_idx1 s i ((j + 1) % s.dim1)) = 1 then 1 else 0)
    + (if s.spin (idx2_to_idx1 s i ((j - 1) % s.dim1)) = 1 then 1 else 0)

/-- The prefix sum `rate[0]*n_events[0] + ... + rate[t]*n_events[t]` of the
specification. -/
def cum_rate {K : Type} [LinearOrderedField K] (rate : Int → K) (n_events : Int → Int)
    (t : Nat) : K :=
  ∑ i ∈ Finset.range (t + 1), rate (i : Int) * ((n_events (i : Int) : Int) : K)

/-- The rate table `set_param(0, 0, 1)` produces: every rate is one half. -/
def halfRates : Int → ℚ := fun _ => 1 / 2

/-- The value of `RAND_MAX` on the usual platforms. -/
def RAND_MAX_usual : Int := 2147483647

/-- The state after `init_system(2, 2)` (fresh arrays read as zero) and
`set_spin([1, 1, 1, 1])`. -/
def scenario : Option Sys :=
  set_spin (init_system 2 2 (fun _ => 0) (fun _ => 0) (fun _ _ => 0) (fun _ => 0) (fun _ => 0))
    (fun _ => 1)

/-- A `rand()` stream whose first three outputs are `RAND_MAX`, 0 and 1. -/
def sampleRand : Nat → Int := fun n => if n = 0 then RAND_MAX_usual else if n = 1 then 0 else 1

/-- A 1 x 1 grid with spin 1 whose single site is correctly filed in bucket 9
and whose reverse index is valid, but whose empty bucket 0 has size `-1`. -/
def negCountState : Sys :=
  { dim0 := 1, dim1 := 1, N := 1,
    spin := fun _ => 1,
    n_events := fun t => if t = 9 then 1 else if t = 0 then -1 else 0,
    event_pos := fun _ _ => 0,
    grid_event_type := fun _ => 9,
    grid_event_idx := fun _ => 0 }

/-! ## Rate table -/

/-- The energy term `betaE` that `init_event_rates` computes for event type `i`:
`sum = i % 5`, `self = i / 5` (C integer arithmetic), then
`-betaJ * (2 - 4 * self) * (2 * sum - 4) + betamuB * (2 - 4 * self)`. -/
def betaE {K : Type} [LinearOrderedField K] (betaJ betamuB : K) (i : Int) : K :=
  -betaJ * ((2 - 4 * Int.tdiv i 5 : Int) : K) * ((2 * Int.tmod i 5 - 4 : Int) : K)
    + betamuB * ((2 - 4 * Int.tdiv i 5 : Int) : K)

/-- The value `0.5 * freq * (1 - tanh(0.5 * betaE))` that `init_event_rates`
stores in `rate[i]`; the `tanh` function is an input. -/
def rate_value {K : Type} [LinearOrderedField K] (tanh : K → K) (betaJ betamuB freq : K)
    (i : Int) : K :=
  1 / 2 * freq * (1 - tanh (1 / 2 * betaE betaJ betamuB i))

/-- Source `init_event_rates`: the loop `for i = 0 .. 9` storing `rate[i]`, applied to
the previous contents `rate` of the table. -/
def init_event_rates {K : Type} [LinearOrderedField K] (tanh : K → K)
    (betaJ betamuB freq : K) (rate : Int → K) : Int → K :=
  (List.range n_event_types.toNat).foldl
    (fun (r : Int → K) (i : Nat) =>
      Function.update r (i : Int) (rate_value tanh betaJ betamuB freq (i : Int))) rate

/-- Source `set_param`: store the three parameters and recompute the rate table
(the table is the only state read afterwards). -/
def set_param {K : Type} [LinearOrderedField K] (tanh : K → K)
    (in_betaJ in_betamuB in_freq : K) (rate : Int → K) : Int → K :=
  init_event_rates tanh in_betaJ in_betamuB in_freq rate

/-- The expression `(double)rand() / (double)RAND_MAX` of `kmc` for a `rand()`
output `r`. -/
def unit_draw {K : Type} [LinearOrderedField K] (RAND_MAX r : Int) : K :=
  (r : K) / (RAND_MAX : K)

/-- The event type of the site with flat index `x`: `idx1_to_idx2` followed by
`get_event_type`. -/
def site_event_type (s : Sys) (x : Int) : Option Int :=
  (idx1_to_idx2 s x).bind (fun p => get_event_type s p.1 p.2)

/-- The naive per-site scan of the specification: the sum over all `N` sites
`x` of `rate[get_event_type(x)]` (a site whose classification fails contributes
nothing). -/
def naive_total_rate {K : Type} [LinearOrderedField K] (rate : Int → K) (s : Sys) : K :=
  ∑ x ∈ Finset.range s.N.toNat,
    match site_event_type s (x : Int) with
    | some t => rate t
    | none => 0

/-! ## Text load -/

/-- C `isspace` in the default locale: the space and the control characters
9 to 13. -/
def isspace (c : Char) : Bool :=
  c.toNat = 32 || (9 ≤ c.toNat && c.toNat ≤ 13)

/-- The extraction `std::cin >> c` of a `char`: skip leading white space, then
take one character; `none` at the end of the input. -/
def cin_get_char : List Char → Option (Char × List Char)
  | [] => none
  | c :: rest => if isspace c then cin_get_char rest else some (c, rest)

/-- The statement `std::cin >> c` for the `char` variable `c`: when a
character can be extracted it is stored in `c`; at the end of the input the
extraction fails, nothing is stored, and `c` keeps the content `c` it had (the
source does not test the stream). -/
def cin_extract (c : Char) (inp : List Char) : Char × List Char :=
  match cin_get_char inp with
  | none => (c, [])
  | some p => p

/-- How a run of `read_spin` ends: the loop completes, `std::exception` is
thrown, or a write leaves the `spin` array. -/
inductive ReadOutcome where
  | done (s : Sys) (rest : List Char)
  | thrown (s : Sys) (rest : List Char)
  | undefined

/-- The loop of `read_spin` with `n` iterations left, loop counter `k` and the
content `c` of the variable `c` before the extraction of this iteration (the
variable is declared without initialiser, so after a failed extraction the
comparisons see what the previous iteration left there). -/
def read_spin_loop : Nat → Int → Sys → Char → List Char → ReadOutcome
  | 0, _, s, _, inp => ReadOutcome.done s inp
  | n + 1, k, s, c, inp =>
    if (cin_extract c inp).1 = '+' then
      match wr s.N s.spin k 1 with
      | some sp =>
        read_spin_loop n (k + 1) { s with spin := sp } (cin_extract c inp).1
          (cin_extract c inp).2
      | none => ReadOutcome.undefined
    else if (cin_extract c inp).1 = '-' then
      match wr s.N s.spin k 0 with
      | some sp =>
        read_spin_loop n (k + 1) { s with spin := sp } (cin_extract c inp).1
          (cin_extract c inp).2
      | none => ReadOutcome.undefined
    else ReadOutcome.thrown s (cin_extract c inp).2

/-- Source `read_spin` on the input `inp`; `c0` is what the uninitialised
variable `c` holds before the first extraction. -/
def read_spin (s : Sys) (c0 : Char) (inp : List Char) : ReadOutcome :=
  read_spin_loop s.N.toNat 0 s c0 inp

/-! ## Saturation of the double `tanh` -/

/-- A stand-in for the `tanh` of `<cmath>` on doubles at the arguments `20` and
`-20`: like the double function (where `1 - tanh(20)` is below half a unit in the
last place of 1) it returns exactly `1` from 20 on and exactly `-1` up to `-20`;
in between it is an odd, monotone interpolation with values in `(-1, 1)`. -/
def saturating_tanh : ℚ → ℚ :=
  fun x => if 20 ≤ x then 1 else if x ≤ -20 then -1 else x / 20

/-! ## Basic facts on bounds-checked access -/

theorem rd_some {size : Int} {a : Int → Int} {i : Int} (h0 : 0 ≤ i) (h1 : i < size) :
    rd size a i = some (a i) := by
  simp [rd, h0, h1]

theorem wr_some {size : Int} {a : Int → Int} {i v : Int} (h0 : 0 ≤ i) (h1 : i < size) :
    wr size a i v = some (Function.update a i v) := by
  simp [wr, h0, h1]

theorem rd2_some {size : Int} {a : Int → Int → Int} {t k : Int} (ht0 : 0 ≤ t) (ht1 : t < 10)
    (h0 : 0 ≤ k) (h1 : k < size) : rd2 size a t k = some (a t k) := by
  simp [rd2, n_event_types, h0, h1, ht0, ht1]

theorem wr2_some {size : Int} {a : Int → Int → Int} {t k v : Int} (ht0 : 0 ≤ t) (ht1 : t < 10)
    (h0 : 0 ≤ k) (h1 : k < size) :
    wr2 size a t k v = some (Function.update a t (Function.update (a t) k v)) := by
  simp [wr2, n_event_types, h0, h1, ht0, ht1]

theorem rd_eq_some {size : Int} {a : Int → Int} {i v : Int} (h : rd size a i = some v) :
    0 ≤ i ∧ i < size ∧ a i = v := by
  unfold rd at h
  split at h
  · rename_i hb
    exact ⟨hb.1, hb.2, by simpa using h⟩
  · cases h

theorem wr_eq_some {size : Int} {a : Int → Int} {i v : Int} {b : Int → Int}
    (h : wr size a i v = some b) : 0 ≤ i ∧ i < size ∧ b = Function.update a i v := by
  unfold wr at h
  split at h
  · rename_i hb
    exact ⟨hb.1, hb.2, by simpa using h.symm⟩
  · cases h

/-- Pigeonhole for buckets: `n` slots that hold sites of `[0, M)` and are
recovered from their contents by `g` are at most `M`. -/
theorem slots_le_sites (f g : Int → Int) (n M : Int) (hM : 0 ≤ M)
    (h : ∀ k, 0 ≤ k → k < n → 0 ≤ f k ∧ f k < M ∧ g (f k) = k) : n ≤ M := by
  by_contra hlt
  have hlt : M < n := not_le.mp hlt
  have hcard := Finset.card_le_card_of_injOn (s := Finset.range (M.toNat + 1))
    (t := Finset.range M.toNat) (fun k : Nat => (f (k : Int)).toNat)
    (by
      intro a ha
      have ha : a < M.toNat + 1 := by simpa using ha
      have := h a (by omega) (by omega)
      simp only [Finset.mem_range]
      omega)
    (by
      intro a ha b hb hab
      have ha : a < M.toNat + 1 := by simpa using ha
      have hb : b < M.toNat + 1 := by simpa using hb
      have h1 := h a (by omega) (by omega)
      have h2 := h b (by omega) (by omega)
      have hab : (f (a : Int)).toNat = (f (b : Int)).toNat := hab
      have hfe : f (a : Int) = f (b : Int) := by omega
      have : (a : Int) = (b : Int) := by
        rw [← h1.2.2, ← h2.2.2, hfe]
      exact_mod_cast this)
  simp at hcard

/-! ## `remove_event` and `insert_event` -/

theorem bucket_le_N (s : Sys) (hLV : LiveValid s) (hN : 0 ≤ s.N) (t : Int) (ht0 : 0 ≤ t)
    (ht1 : t < 10) : s.n_events t ≤ s.N :=
  slots_le_sites (s.event_pos t) s.grid_event_idx (s.n_events t) s.N hN
    (fun k hk0 hk1 => ⟨(hLV t k ht0 ht1 hk0 hk1).1, (hLV t k ht0 ht1 hk0 hk1).2.1,
      (hLV t k ht0 ht1 hk0 hk1).2.2.2⟩)

theorem remove_event_eq (s : Sys) (idx : Int) (hLV : LiveValid s) (h0 : 0 ≤ idx)
    (h1 : idx < s.N) (hF : Filed s idx) : remove_event s idx = some (removed s idx) := by
  obtain ⟨hT0, hT1, hP0, hP1, -⟩ := hF
  have hle := bucket_le_N s hLV (by omega) _ hT0 hT1
  have hlast := hLV _ (s.n_events (s.grid_event_type idx) - 1) hT0 hT1 (by omega) (by omega)
  simp [remove_event, removed, rd_some h0 h1,
    rd_some hT0 (show s.grid_event_type idx < n_event_types from hT1),
    rd2_some hT0 hT1 (show 0 ≤ s.n_events (s.grid_event_type idx) - 1 by omega)
      (show s.n_events (s.grid_event_type idx) - 1 < s.N by omega),
    wr_some hlast.1 hlast.2.1,
    wr2_some hT0 hT1 hP0 (show s.grid_event_idx idx < s.N by omega),
    wr_some hT0 (show s.grid_event_type idx < n_event_types from hT1)]

theorem removed_n_events (s : Sys) (idx t : Int) :
    (removed s idx).n_events t =
      if t = s.grid_event_type idx then s.n_events (s.grid_event_type idx) - 1
      else s.n_events t := by
  simp [removed, Function.update_apply]

theorem removed_event_pos (s : Sys) (idx t k : Int) :
    (removed s idx).event_pos t k =
      if t = s.grid_event_type idx ∧ k = s.grid_event_idx idx then
        s.event_pos (s.grid_event_type idx) (s.n_events (s.grid_event_type idx) - 1)
      else s.event_pos t k := by
  by_cases ht : t = s.grid_event_type idx
  · by_cases hk : k = s.grid_event_idx idx
    · simp [removed, ht, hk]
    · simp [removed, ht, hk, Function.update_apply]
  · simp [removed, ht, Function.update_apply]

theorem removed_grid_event_idx (s : Sys) (idx x : Int) :
    (removed s idx).grid_event_idx x =
      if x = s.event_pos (s.grid_event_type idx) (s.n_events (s.grid_event_type idx) - 1) then
        s.grid_event_idx idx
      else s.grid_event_idx x := by
  simp [removed, Function.update_apply]

theorem removed_grid_event_type (s : Sys) (idx : Int) :
    (removed s idx).grid_event_type = s.grid_event_type := rfl

theorem removed_countsNonneg (s : Sys) (idx : Int) (hC : CountsNonneg s) (hF : Filed s idx) :
    CountsNonneg (removed s idx) := by
  obtain ⟨hT0, hT1, hP0, hP1, hPe⟩ := hF
  intro t ht0 ht1
  rw [removed_n_events]
  split_ifs
  · omega
  · exact hC t ht0 ht1

theorem removed_filed (s : Sys) (idx x : Int) (hLV : LiveValid s) (hF : Filed s idx)
    (hFx : Filed s x) (hxne : x ≠ idx) : Filed (removed s idx) x := by
  obtain ⟨hT0, hT1, hP0, hP1, hPe⟩ := hF
  obtain ⟨hL0, hL1, hLt, hLi⟩ :=
    hLV _ (s.n_events (s.grid_event_type idx) - 1) hT0 hT1 (by omega) (by omega)
  obtain ⟨hx1', hx2, hx3, hx4, hx5⟩ := hFx
  unfold Filed
  rw [removed_grid_event_type, removed_grid_event_idx, removed_n_events, removed_event_pos]
  by_cases hxL : x = s.event_pos (s.grid_event_type idx) (s.n_events (s.grid_event_type idx) - 1)
  · have hxt : s.grid_event_type x = s.grid_event_type idx := by rw [hxL]; exact hLt
    have hne : s.grid_event_idx idx ≠ s.n_events (s.grid_event_type idx) - 1 := by
      intro he
      apply hxne
      rw [hxL, ← he]; exact hPe
    rw [if_pos hxL, if_pos hxt, if_pos ⟨hxt, rfl⟩]
    refine ⟨hx1', hx2, hP0, by omega, hxL.symm⟩
  · rw [if_neg hxL]
    by_cases hxt : s.grid_event_type x = s.grid_event_type idx
    · have hk1 : s.grid_event_idx x ≠ s.n_events (s.grid_event_type idx) - 1 := by
        intro he
        apply hxL
        rw [← he, ← hxt]; exact hx5.symm
      have hk2 : s.grid_event_idx x ≠ s.grid_event_idx idx := by
        intro he
        apply hxne
        rw [← hx5, hxt, he]; exact hPe
      rw [if_pos hxt, if_neg (by tauto)]
      rw [hxt] at hx4
      exact ⟨hx1', hx2, hx3, by omega, hx5⟩
    · rw [if_neg hxt, if_neg (by tauto)]
      exact ⟨hx1', hx2, hx3, hx4, hx5⟩

theorem removed_liveValid (s : Sys) (idx : Int) (hLV : LiveValid s) (hF : Filed s idx) :
    LiveValid (removed s idx) ∧
      ∀ t k, 0 ≤ t → t < 10 → 0 ≤ k → k < (removed s idx).n_events t →
        (removed s idx).event_pos t k ≠ idx := by
  obtain ⟨hT0, hT1, hP0, hP1, hPe⟩ := hF
  obtain ⟨hL0, hL1, hLt, hLi⟩ :=
    hLV _ (s.n_events (s.grid_event_type idx) - 1) hT0 hT1 (by omega) (by omega)
  refine ⟨?_, ?_⟩
  · intro t k ht0 ht1 hk0 hk1
    rw [removed_n_events] at hk1
    rw [removed_grid_event_type, removed_event_pos]
    by_cases ht : t = s.grid_event_type idx
    · rw [if_pos ht] at hk1
      by_cases hk : k = s.grid_event_idx idx
      · rw [if_pos ⟨ht, hk⟩, removed_grid_event_idx, if_pos rfl]
        exact ⟨hL0, hL1, by rw [hLt, ht], hk.symm⟩
      · rw [if_neg (by tauto)]
        obtain ⟨e0, e1, e2, e3⟩ := hLV t k ht0 ht1 hk0 (by rw [ht]; omega)
        refine ⟨e0, e1, e2, ?_⟩
        rw [removed_grid_event_idx, if_neg, e3]
        intro he
        rw [he, hLi] at e3
        omega
    · rw [if_neg ht] at hk1
      rw [if_neg (by tauto)]
      obtain ⟨e0, e1, e2, e3⟩ := hLV t k ht0 ht1 hk0 hk1
      refine ⟨e0, e1, e2, ?_⟩
      rw [removed_grid_event_idx, if_neg, e3]
      intro he
      rw [he, hLt] at e2
      exact ht e2.symm
  · intro t k ht0 ht1 hk0 hk1
    rw [removed_n_events] at hk1
    rw [removed_event_pos]
    by_cases ht : t = s.grid_event_type idx
    · rw [if_pos ht] at hk1
      by_cases hk : k = s.grid_event_idx idx
      · rw [if_pos ⟨ht, hk⟩]
        intro he
        rw [he] at hLi
        omega
      · rw [if_neg (by tauto)]
        obtain ⟨e0, e1, e2, e3⟩ := hLV t k ht0 ht1 hk0 (by rw [ht]; omega)
        intro he
        rw [he] at e3
        exact hk e3.symm
    · rw [if_neg ht] at hk1
      rw [if_neg (by tauto)]
      obtain ⟨e0, e1, e2, e3⟩ := hLV t k ht0 ht1 hk0 hk1
      intro he
      rw [he] at e2
      exact ht e2.symm

theorem removed_structHole (s : Sys) (idx : Int) (hS : Struct s) (h0 : 0 ≤ idx)
    (h1 : idx < s.N) : StructHole (removed s idx) idx := by
  obtain ⟨hC, hFd, hLV⟩ := hS
  have hF := hFd idx h0 h1
  obtain ⟨hl, hne⟩ := removed_liveValid s idx hLV hF
  exact ⟨removed_countsNonneg s idx hC hF,
    fun x hx0 hx1 hxne => removed_filed s idx x hLV hF (hFd x hx0 hx1) hxne, hl, hne⟩

/-- The live entries of the bucket `idx` is removed from are the old ones
without `idx`. -/
theorem removed_live_set (s : Sys) (idx x : Int) (hLV : LiveValid s) (hF : Filed s idx) :
    (∃ k, 0 ≤ k ∧ k < (removed s idx).n_events (s.grid_event_type idx) ∧
        (removed s idx).event_pos (s.grid_event_type idx) k = x) ↔
      ((∃ k, 0 ≤ k ∧ k < s.n_events (s.grid_event_type idx) ∧
        s.event_pos (s.grid_event_type idx) k = x) ∧ x ≠ idx) := by
  obtain ⟨hl, hne⟩ := removed_liveValid s idx hLV hF
  obtain ⟨hT0, hT1, hP0, hP1, hPe⟩ := hF
  constructor
  · rintro ⟨k, hk0, hk1, hk⟩
    have hx := hne _ k hT0 hT1 hk0 hk1
    rw [hk] at hx
    refine ⟨?_, hx⟩
    rw [removed_n_events, if_pos rfl] at hk1
    rw [removed_event_pos] at hk
    split_ifs at hk with hc
    · exact ⟨s.n_events (s.grid_event_type idx) - 1, by omega, by omega, hk⟩
    · exact ⟨k, hk0, by omega, hk⟩
  · rintro ⟨⟨k, hk0, hk1, hk⟩, hx⟩
    by_cases hlast : k = s.n_events (s.grid_event_type idx) - 1
    · have hP : s.grid_event_idx idx ≠ s.n_events (s.grid_event_type idx) - 1 := by
        intro he
        apply hx
        rw [← hk, hlast, ← he]
        exact hPe
      refine ⟨s.grid_event_idx idx, hP0, ?_, ?_⟩
      · rw [removed_n_events, if_pos rfl]; omega
      · rw [removed_event_pos, if_pos ⟨rfl, rfl⟩, ← hlast]
        exact hk
    · have hkP : k ≠ s.grid_event_idx idx := by
        intro he
        apply hx
        rw [← hk, he]
        exact hPe
      refine ⟨k, hk0, ?_, ?_⟩
      · rw [removed_n_events, if_pos rfl]; omega
      · rw [removed_event_pos, if_neg (by tauto)]
        exact hk

theorem bucket_lt_N_of_hole (s : Sys) (h : Int) (hS : StructHole s h) (h0 : 0 ≤ h)
    (h1 : h < s.N) (t : Int) (ht0 : 0 ≤ t) (ht1 : t < 10) : s.n_events t < s.N := by
  obtain ⟨-, -, hLV, hne⟩ := hS
  have := slots_le_sites (fun k => if s.event_pos t k < h then s.event_pos t k
      else s.event_pos t k - 1)
    (fun y => s.grid_event_idx (if y < h then y else y + 1)) (s.n_events t) (s.N - 1)
    (by omega)
    (by
      intro k hk0 hk1
      obtain ⟨e0, e1, -, e3⟩ := hLV t k ht0 ht1 hk0 hk1
      have e4 := hne t k ht0 ht1 hk0 hk1
      by_cases hlt : s.event_pos t k < h
      · simp only [if_pos hlt]
        exact ⟨e0, by omega, e3⟩
      · simp only [if_neg hlt]
        have hge : ¬ (s.event_pos t k - 1 < h) := by omega
        simp only [if_neg hge]
        refine ⟨by omega, by omega, ?_⟩
        rw [show s.event_pos t k - 1 + 1 = s.event_pos t k by omega]
        exact e3)
  omega

theorem insert_event_eq (s : Sys) (t h : Int) (hS : StructHole s h) (h0 : 0 ≤ h)
    (h1 : h < s.N) (ht0 : 0 ≤ t) (ht1 : t < 10) :
    insert_event s t h = some (inserted s t h) := by
  have hlt := bucket_lt_N_of_hole s h hS h0 h1 t ht0 ht1
  have hc := hS.1 t ht0 ht1
  simp [insert_event, inserted, rd_some ht0 (show t < n_event_types from ht1),
    wr2_some ht0 ht1 hc hlt, wr_some h0 h1,
    wr_some ht0 (show t < n_event_types from ht1)]

theorem inserted_n_events (s : Sys) (t h u : Int) :
    (inserted s t h).n_events u = if u = t then s.n_events t + 1 else s.n_events u := by
  simp [inserted, Function.update_apply]

theorem inserted_event_pos (s : Sys) (t h u k : Int) :
    (inserted s t h).event_pos u k =
      if u = t ∧ k = s.n_events t then h else s.event_pos u k := by
  by_cases hu : u = t
  · by_cases hk : k = s.n_events t
    · simp [inserted, hu, hk]
    · simp [inserted, hu, hk, Function.update_apply]
  · simp [inserted, hu, Function.update_apply]

theorem inserted_grid_event_idx (s : Sys) (t h x : Int) :
    (inserted s t h).grid_event_idx x = if x = h then s.n_events t else s.grid_event_idx x := by
  simp [inserted, Function.update_apply]

theorem inserted_grid_event_type (s : Sys) (t h x : Int) :
    (inserted s t h).grid_event_type x = if x = h then t else s.grid_event_type x := by
  simp [inserted, Function.update_apply]

theorem inserted_struct (s : Sys) (t h : Int) (hS : StructHole s h) (h0 : 0 ≤ h)
    (h1 : h < s.N) (ht0 : 0 ≤ t) (ht1 : t < 10) : Struct (inserted s t h) := by
  obtain ⟨hC, hFd, hLV, hne⟩ := hS
  refine ⟨?_, ?_, ?_⟩
  · intro u hu0 hu1
    rw [inserted_n_events]
    split_ifs
    · have := hC t ht0 ht1
      omega
    · exact hC u hu0 hu1
  · intro x hx0 hx1
    unfold Filed
    simp only [inserted_grid_event_type, inserted_grid_event_idx, inserted_n_events,
      inserted_event_pos]
    by_cases hx : x = h
    · simp only [if_pos hx, if_true, and_self]
      have := hC t ht0 ht1
      exact ⟨ht0, ht1, this, by omega, hx.symm⟩
    · obtain ⟨f1, f2, f3, f4, f5⟩ := hFd x hx0 hx1 hx
      simp only [if_neg hx]
      by_cases hu : s.grid_event_type x = t
      · have hk : s.grid_event_idx x ≠ s.n_events t := by rw [hu] at f4; omega
        rw [if_pos hu, if_neg (by tauto)]
        rw [hu] at f4
        exact ⟨f1, f2, f3, by omega, f5⟩
      · rw [if_neg hu, if_neg (by tauto)]
        exact ⟨f1, f2, f3, f4, f5⟩
  · intro u k hu0 hu1 hk0 hk1
    rw [inserted_n_events] at hk1
    simp only [inserted_grid_event_type, inserted_grid_event_idx, inserted_event_pos]
    by_cases hu : u = t
    · rw [if_pos hu] at hk1
      by_cases hk : k = s.n_events t
      · rw [if_pos ⟨hu, hk⟩]
        simp only [if_true]
        exact ⟨h0, h1, hu.symm, hk.symm⟩
      · rw [if_neg (by tauto)]
        obtain ⟨e0, e1, e2, e3⟩ := hLV u k hu0 hu1 hk0 (by rw [hu]; omega)
        have e4 := hne u k hu0 hu1 hk0 (by rw [hu]; omega)
        rw [if_neg e4, if_neg e4]
        exact ⟨e0, e1, e2, e3⟩
    · rw [if_neg hu] at hk1
      rw [if_neg (by tauto)]
      obtain ⟨e0, e1, e2, e3⟩ := hLV u k hu0 hu1 hk0 hk1
      have e4 := hne u k hu0 hu1 hk0 hk1
      rw [if_neg e4, if_neg e4]
      exact ⟨e0, e1, e2, e3⟩

/-! ## Index geometry -/

theorem idx_in_range (s : Sys) (hG : Geometry s) (i j : Int) (hi0 : 0 ≤ i) (hi1 : i < s.dim0)
    (hj0 : 0 ≤ j) (hj1 : j < s.dim1) :
    0 ≤ idx2_to_idx1 s i j ∧ idx2_to_idx1 s i j < s.N := by
  obtain ⟨hd0, hd1, hN⟩ := hG
  unfold idx2_to_idx1
  have h1 : 0 ≤ s.dim1 * i := mul_nonneg (by omega) hi0
  have h2 : s.dim1 * i ≤ s.dim1 * (s.dim0 - 1) :=
    mul_le_mul_of_nonneg_left (by omega) (by omega)
  have h3 : s.dim1 * (s.dim0 - 1) = s.dim0 * s.dim1 - s.dim1 := by ring
  constructor
  · omega
  · rw [hN]; omega

theorem idx_div (s : Sys) (i j : Int) (hj0 : 0 ≤ j) (hj1 : j < s.dim1) :
    idx2_to_idx1 s i j / s.dim1 = i := by
  unfold idx2_to_idx1
  rw [add_comm, Int.add_mul_ediv_left _ _ (by omega), Int.ediv_eq_zero_of_lt hj0 hj1]
  simp

theorem idx_inj (s : Sys) (i j a b : Int) (hj0 : 0 ≤ j) (hj1 : j < s.dim1) (hb0 : 0 ≤ b)
    (hb1 : b < s.dim1) (h : idx2_to_idx1 s i j = idx2_to_idx1 s a b) : i = a ∧ j = b := by
  have h1 := idx_div s i j hj0 hj1
  have h2 := idx_div s a b hb0 hb1
  rw [h] at h1
  have hia : i = a := by rw [← h1, h2]
  subst hia
  unfold idx2_to_idx1 at h
  exact ⟨rfl, by omega⟩

theorem idx1_to_idx2_eq (s : Sys) (hG : Geometry s) (x : Int) (hx0 : 0 ≤ x) (hx1 : x < s.N) :
    idx1_to_idx2 s x = some (x / s.dim1, x % s.dim1) ∧
    0 ≤ x / s.dim1 ∧ x / s.dim1 < s.dim0 ∧ 0 ≤ x % s.dim1 ∧ x % s.dim1 < s.dim1 ∧
    idx2_to_idx1 s (x / s.dim1) (x % s.dim1) = x := by
  obtain ⟨hd0, hd1, hN⟩ := hG
  refine ⟨?_, Int.ediv_nonneg hx0 (by omega), ?_, Int.emod_nonneg _ (by omega),
    Int.emod_lt_of_pos _ (by omega), ?_⟩
  · unfold idx1_to_idx2
    rw [if_neg (by omega), Int.tdiv_eq_ediv hx0 (by omega), Int.tmod_eq_emod hx0 (by omega)]
  · apply Int.ediv_lt_of_lt_mul (by omega)
    rw [← hN]; exact hx1
  · unfold idx2_to_idx1
    exact Int.ediv_add_emod x s.dim1

theorem i_next_range (s : Sys) (i : Int) (hi0 : 0 ≤ i) (hi1 : i < s.dim0) :
    0 ≤ i_next s i ∧ i_next s i < s.dim0 := by
  unfold i_next; split_ifs <;> omega

theorem i_prev_range (s : Sys) (i : Int) (hi0 : 0 ≤ i) (hi1 : i < s.dim0) :
    0 ≤ i_prev s i ∧ i_prev s i < s.dim0 := by
  unfold i_prev; split_ifs <;> omega

theorem j_next_range (s : Sys) (j : Int) (hj0 : 0 ≤ j) (hj1 : j < s.dim1) :
    0 ≤ j_next s j ∧ j_next s j < s.dim1 := by
  unfold j_next; split_ifs <;> omega

theorem j_prev_range (s : Sys) (j : Int) (hj0 : 0 ≤ j) (hj1 : j < s.dim1) :
    0 ≤ j_prev s j ∧ j_prev s j < s.dim1 := by
  unfold j_prev; split_ifs <;> omega

/-! ## The classifier -/

theorem get_event_type_eq (s : Sys) (hG : Geometry s) (i j : Int) (hi0 : 0 ≤ i)
    (hi1 : i < s.dim0) (hj0 : 0 ≤ j) (hj1 : j < s.dim1) :
    get_event_type s i j = some (event_type_value s i j) := by
  have a := i_next_range s i hi0 hi1
  have b := i_prev_range s i hi0 hi1
  have c := j_next_range s j hj0 hj1
  have d := j_prev_range s j hj0 hj1
  have ra := idx_in_range s hG _ j a.1 a.2 hj0 hj1
  have rb := idx_in_range s hG _ j b.1 b.2 hj0 hj1
  have rc := idx_in_range s hG i _ hi0 hi1 c.1 c.2
  have rd' := idx_in_range s hG i _ hi0 hi1 d.1 d.2
  have re := idx_in_range s hG i j hi0 hi1 hj0 hj1
  simp [get_event_type, event_type_value, rd_some ra.1 ra.2, rd_some rb.1 rb.2,
    rd_some rc.1 rc.2, rd_some rd'.1 rd'.2, rd_some re.1 re.2]

theorem event_type_value_range (s : Sys) (hG : Geometry s) (hB : SpinsBinary s) (i j : Int)
    (hi0 : 0 ≤ i) (hi1 : i < s.dim0) (hj0 : 0 ≤ j) (hj1 : j < s.dim1) :
    0 ≤ event_type_value s i j ∧ event_type_value s i j < 10 := by
  have a := i_next_range s i hi0 hi1
  have b := i_prev_range s i hi0 hi1
  have c := j_next_range s j hj0 hj1
  have d := j_prev_range s j hj0 hj1
  have ra := idx_in_range s hG _ j a.1 a.2 hj0 hj1
  have rb := idx_in_range s hG _ j b.1 b.2 hj0 hj1
  have rc := idx_in_range s hG i _ hi0 hi1 c.1 c.2
  have rd' := idx_in_range s hG i _ hi0 hi1 d.1 d.2
  have re := idx_in_range s hG i j hi0 hi1 hj0 hj1
  have sa := hB _ ra.1 ra.2
  have sb := hB _ rb.1 rb.2
  have sc := hB _ rc.1 rc.2
  have sd := hB _ rd'.1 rd'.2
  have se := hB _ re.1 re.2
  unfold event_type_value
  omega

/-- Locality of a flip: the classifier's value at `(a, b)` is unchanged by a
flip at `(i, j)` unless `(a, b)` is `(i, j)` or one of its four toroidal
neighbours. -/
theorem event_type_value_flipped (s : Sys) (i j a b : Int) (hi0 : 0 ≤ i) (hi1 : i < s.dim0)
    (hj0 : 0 ≤ j) (hj1 : j < s.dim1) (ha0 : 0 ≤ a) (ha1 : a < s.dim0) (hb0 : 0 ≤ b)
    (hb1 : b < s.dim1)
    (h0 : ¬ (a = i ∧ b = j)) (h1 : ¬ (a = i_next s i ∧ b = j)) (h2 : ¬ (a = i_prev s i ∧ b = j))
    (h3 : ¬ (a = i ∧ b = j_next s j)) (h4 : ¬ (a = i ∧ b = j_prev s j)) :
    event_type_value (flipped s (idx2_to_idx1 s i j)) a b = event_type_value s a b := by
  have key : ∀ a' b', 0 ≤ b' → b' < s.dim1 → ¬ (a' = i ∧ b' = j) →
      (flipped s (idx2_to_idx1 s i j)).spin (idx2_to_idx1 s a' b') = s.spin (idx2_to_idx1 s a' b') := by
    intro a' b' hb0' hb1' hne
    have : idx2_to_idx1 s a' b' ≠ idx2_to_idx1 s i j := by
      intro he
      exact hne (idx_inj s a' b' i j hb0' hb1' hj0 hj1 he)
    simp [flipped, Function.update_apply, this]
  have c := j_next_range s b hb0 hb1
  have d := j_prev_range s b hb0 hb1
  have e1 : ¬ (i_next s a = i ∧ b = j) := by
    unfold i_next i_prev at *
    split_ifs at * <;> omega
  have e2 : ¬ (i_prev s a = i ∧ b = j) := by
    unfold i_next i_prev at *
    split_ifs at * <;> omega
  have e3 : ¬ (a = i ∧ j_next s b = j) := by
    unfold j_next j_prev at *
    split_ifs at * <;> omega
  have e4 : ¬ (a = i ∧ j_prev s b = j) := by
    unfold j_next j_prev at *
    split_ifs at * <;> omega
  unfold event_type_value
  show 0 + (flipped s (idx2_to_idx1 s i j)).spin (idx2_to_idx1 s (i_next s a) b)
    + (flipped s (idx2_to_idx1 s i j)).spin (idx2_to_idx1 s (i_prev s a) b)
    + (flipped s (idx2_to_idx1 s i j)).spin (idx2_to_idx1 s a (j_next s b))
    + (flipped s (idx2_to_idx1 s i j)).spin (idx2_to_idx1 s a (j_prev s b))
    + (flipped s (idx2_to_idx1 s i j)).spin (idx2_to_idx1 s a b) * 5 = _
  rw [key _ _ hb0 hb1 e1, key _ _ hb0 hb1 e2, key _ _ c.1 c.2 e3, key _ _ d.1 d.2 e4,
    key _ _ hb0 hb1 h0]

/-! ## `fix_events` -/

theorem fix_events_eq (s : Sys) (hG : Geometry s) (hB : SpinsBinary s) (hS : Struct s)
    (i j : Int) (hi0 : 0 ≤ i) (hi1 : i < s.dim0) (hj0 : 0 ≤ j) (hj1 : j < s.dim1) :
    fix_events s i j = some (fixed s i j) := by
  have hx := idx_in_range s hG i j hi0 hi1 hj0 hj1
  have hrem := remove_event_eq s _ hS.2.2 hx.1 hx.2 (hS.2.1 _ hx.1 hx.2)
  have hhole := removed_structHole s _ hS hx.1 hx.2
  have hv := event_type_value_range s hG hB i j hi0 hi1 hj0 hj1
  have hget : get_event_type (removed s (idx2_to_idx1 s i j)) i j
      = some (event_type_value s i j) := get_event_type_eq s hG i j hi0 hi1 hj0 hj1
  have hins := insert_event_eq (removed s (idx2_to_idx1 s i j)) (event_type_value s i j)
    (idx2_to_idx1 s i j) hhole hx.1 hx.2 hv.1 hv.2
  unfold fix_events
  simp only [hrem, Option.bind_eq_bind, Option.some_bind, hget]
  exact hins

theorem fixed_struct (s : Sys) (hG : Geometry s) (hB : SpinsBinary s) (hS : Struct s)
    (i j : Int) (hi0 : 0 ≤ i) (hi1 : i < s.dim0) (hj0 : 0 ≤ j) (hj1 : j < s.dim1) :
    Struct (fixed s i j) := by
  have hx := idx_in_range s hG i j hi0 hi1 hj0 hj1
  have hhole := removed_structHole s _ hS hx.1 hx.2
  have hv := event_type_value_range s hG hB i j hi0 hi1 hj0 hj1
  exact inserted_struct _ _ _ hhole hx.1 hx.2 hv.1 hv.2

theorem fixed_classified_self (s : Sys) (i j : Int) : Classified (fixed s i j) i j := by
  show (inserted _ _ _).grid_event_type (idx2_to_idx1 s i j) = event_type_value s i j
  rw [inserted_grid_event_type, if_pos rfl]

theorem fixed_classified_keep (s : Sys) (i j a b : Int) (hj0 : 0 ≤ j) (hj1 : j < s.dim1)
    (hb0 : 0 ≤ b) (hb1 : b < s.dim1) (h : Classified s a b) :
    Classified (fixed s i j) a b := by
  by_cases he : idx2_to_idx1 s a b = idx2_to_idx1 s i j
  · obtain ⟨rfl, rfl⟩ := idx_inj s a b i j hb0 hb1 hj0 hj1 he
    exact fixed_classified_self s a b
  · show (inserted _ _ _).grid_event_type (idx2_to_idx1 s a b) = event_type_value s a b
    rw [inserted_grid_event_type, if_neg he]
    exact h

/-! ## The update part of `kmc` -/

theorem flipped_spinsBinary (s : Sys) (hB : SpinsBinary s) (x : Int) :
    SpinsBinary (flipped s x) := by
  intro y hy0 hy1
  show Function.update s.spin x (1 - s.spin x) y = 0 ∨ Function.update s.spin x (1 - s.spin x) y = 1
  rw [Function.update_apply]
  split_ifs with h
  · have := hB x (by omega) (by rw [← h]; exact hy1)
    omega
  · exact hB y hy0 hy1

theorem fixed_geometry (s : Sys) (i j : Int) (h : Geometry s) : Geometry (fixed s i j) := h

theorem fixed_spinsBinary (s : Sys) (i j : Int) (h : SpinsBinary s) :
    SpinsBinary (fixed s i j) := h

theorem flipped_geometry (s : Sys) (x : Int) (h : Geometry s) : Geometry (flipped s x) := h

theorem flipped_struct (s : Sys) (x : Int) (h : Struct s) : Struct (flipped s x) := h

theorem i_next_fixed (s : Sys) (i j a : Int) : i_next (fixed s i j) a = i_next s a := rfl

theorem i_prev_fixed (s : Sys) (i j a : Int) : i_prev (fixed s i j) a = i_prev s a := rfl

theorem j_next_fixed (s : Sys) (i j a : Int) : j_next (fixed s i j) a = j_next s a := rfl

theorem j_prev_fixed (s : Sys) (i j a : Int) : j_prev (fixed s i j) a = j_prev s a := rfl

theorem i_next_flipped (s : Sys) (x a : Int) : i_next (flipped s x) a = i_next s a := rfl

theorem i_prev_flipped (s : Sys) (x a : Int) : i_prev (flipped s x) a = i_prev s a := rfl

theorem j_next_flipped (s : Sys) (x a : Int) : j_next (flipped s x) a = j_next s a := rfl

theorem j_prev_flipped (s : Sys) (x a : Int) : j_prev (flipped s x) a = j_prev s a := rfl

theorem fixed_dims (s : Sys) (i j : Int) :
    (fixed s i j).dim0 = s.dim0 ∧ (fixed s i j).dim1 = s.dim1 ∧ (fixed s i j).N = s.N :=
  ⟨rfl, rfl, rfl⟩

theorem fix_step (s : Sys) (hG : Geometry s) (hB : SpinsBinary s) (hS : Struct s)
    (i j : Int) (hi0 : 0 ≤ i) (hi1 : i < s.dim0) (hj0 : 0 ≤ j) (hj1 : j < s.dim1) :
    fix_events s i j = some (fixed s i j) ∧ Geometry (fixed s i j) ∧
      SpinsBinary (fixed s i j) ∧ Struct (fixed s i j) :=
  ⟨fix_events_eq s hG hB hS i j hi0 hi1 hj0 hj1, fixed_geometry s i j hG,
    fixed_spinsBinary s i j hB, fixed_struct s hG hB hS i j hi0 hi1 hj0 hj1⟩

theorem fix_classified (s : Sys) (i j a b : Int) (hj0 : 0 ≤ j) (hj1 : j < s.dim1)
    (hb0 : 0 ≤ b) (hb1 : b < s.dim1) (h : Classified s a b ∨ (a = i ∧ b = j)) :
    Classified (fixed s i j) a b := by
  rcases h with h | ⟨rfl, rfl⟩
  · exact fixed_classified_keep s i j a b hj0 hj1 hb0 hb1 h
  · exact fixed_classified_self s a b

theorem flipped_classified (s : Sys) (i j a b : Int) (hi0 : 0 ≤ i) (hi1 : i < s.dim0)
    (hj0 : 0 ≤ j) (hj1 : j < s.dim1) (ha0 : 0 ≤ a) (ha1 : a < s.dim0) (hb0 : 0 ≤ b)
    (hb1 : b < s.dim1) (h : Classified s a b)
    (h0 : ¬ (a = i ∧ b = j)) (h1 : ¬ (a = i_next s i ∧ b = j)) (h2 : ¬ (a = i_prev s i ∧ b = j))
    (h3 : ¬ (a = i ∧ b = j_next s j)) (h4 : ¬ (a = i ∧ b = j_prev s j)) :
    Classified (flipped s (idx2_to_idx1 s i j)) a b := by
  have := event_type_value_flipped s i j a b hi0 hi1 hj0 hj1 ha0 ha1 hb0 hb1 h0 h1 h2 h3 h4
  show s.grid_event_type (idx2_to_idx1 s a b) = _
  rw [this]
  exact h

theorem kmc_update_eq (s : Sys) (hG : Geometry s) (hB : SpinsBinary s) (hS : Struct s)
    (hCl : ∀ a b, 0 ≤ a → a < s.dim0 → 0 ≤ b → b < s.dim1 → Classified s a b)
    (i j : Int) (hi0 : 0 ≤ i) (hi1 : i < s.dim0) (hj0 : 0 ≤ j) (hj1 : j < s.dim1) :
    kmc_update s (idx2_to_idx1 s i j) = some (updated s i j) ∧ Struct (updated s i j) ∧
      ∀ a b, 0 ≤ a → a < s.dim0 → 0 ≤ b → b < s.dim1 → Classified (updated s i j) a b := by
  have hx := idx_in_range s hG i j hi0 hi1 hj0 hj1
  obtain ⟨hsplit, -, -, -, -, -⟩ := idx1_to_idx2_eq s hG _ hx.1 hx.2
  have hdiv := idx_div s i j hj0 hj1
  have hmod : idx2_to_idx1 s i j % s.dim1 = j := by
    unfold idx2_to_idx1
    rw [Int.add_comm, Int.add_mul_emod_self_left]
    exact Int.emod_eq_of_lt hj0 hj1
  rw [hdiv, hmod] at hsplit
  have a := i_next_range s i hi0 hi1
  have b := i_prev_range s i hi0 hi1
  have c := j_next_range s j hj0 hj1
  have d := j_prev_range s j hj0 hj1
  have k0 := fun a b ha0 ha1 hb0 hb1 =>
    flipped_classified s i j a b hi0 hi1 hj0 hj1 ha0 ha1 hb0 hb1 (hCl a b ha0 ha1 hb0 hb1)
  generalize hs0 : flipped s (idx2_to_idx1 s i j) = s0 at k0
  have hB0 : SpinsBinary s0 := hs0 ▸ flipped_spinsBinary s hB (idx2_to_idx1 s i j)
  have hG0 : Geometry s0 := hs0 ▸ flipped_geometry s _ hG
  have hS0 : Struct s0 := hs0 ▸ flipped_struct s _ hS
  have hd0 : s0.dim0 = s.dim0 ∧ s0.dim1 = s.dim1 := by subst hs0; exact ⟨rfl, rfl⟩
  obtain ⟨e1, hG1, hB1, hS1⟩ := fix_step s0 hG0 hB0 hS0 i j (by omega) (by omega)
    (by omega) (by omega)
  have hd1 := fixed_dims s0 i j
  have k1 := fix_classified s0 i j
  generalize hs1 : fixed s0 i j = s1 at e1 hG1 hB1 hS1 hd1 k1
  obtain ⟨e2, hG2, hB2, hS2⟩ := fix_step s1 hG1 hB1 hS1 (i_next s i) j (by omega) (by omega)
    (by omega) (by omega)
  have hd2 := fixed_dims s1 (i_next s i) j
  have k2 := fix_classified s1 (i_next s i) j
  generalize hs2 : fixed s1 (i_next s i) j = s2 at e2 hG2 hB2 hS2 hd2 k2
  obtain ⟨e3, hG3, hB3, hS3⟩ := fix_step s2 hG2 hB2 hS2 (i_prev s i) j (by omega) (by omega)
    (by omega) (by omega)
  have hd3 := fixed_dims s2 (i_prev s i) j
  have k3 := fix_classified s2 (i_prev s i) j
  generalize hs3 : fixed s2 (i_prev s i) j = s3 at e3 hG3 hB3 hS3 hd3 k3
  obtain ⟨e4, hG4, hB4, hS4⟩ := fix_step s3 hG3 hB3 hS3 i (j_next s j) (by omega) (by omega)
    (by omega) (by omega)
  have hd4 := fixed_dims s3 i (j_next s j)
  have k4 := fix_classified s3 i (j_next s j)
  generalize hs4 : fixed s3 i (j_next s j) = s4 at e4 hG4 hB4 hS4 hd4 k4
  obtain ⟨e5, hG5, hB5, hS5⟩ := fix_step s4 hG4 hB4 hS4 i (j_prev s j) (by omega) (by omega)
    (by omega) (by omega)
  have k5 := fix_classified s4 i (j_prev s j)
  have hn1 : i_next s1 i = i_next s i := by unfold i_next; rw [hd1.1, hd0.1]
  have hn2 : i_prev s2 i = i_prev s i := by unfold i_prev; rw [hd2.1, hd1.1, hd0.1]
  have hn3 : j_next s3 j = j_next s j := by unfold j_next; rw [hd3.2.1, hd2.2.1, hd1.2.1, hd0.2]
  have hn4 : j_prev s4 j = j_prev s j := by
    unfold j_prev; rw [hd4.2.1, hd3.2.1, hd2.2.1, hd1.2.1, hd0.2]
  have hup : updated s i j = fixed s4 i (j_prev s j) := by
    unfold updated; rw [hs0, hs1, hs2, hs3, hs4]
  rw [hup]
  refine ⟨?_, hS5, ?_⟩
  · unfold kmc_update
    simp only [hsplit, rd_some hx.1 hx.2, wr_some hx.1 hx.2, Option.bind_eq_bind,
      Option.some_bind]
    have hfl : ({ s with spin := Function.update s.spin (idx2_to_idx1 s i j) (1 - s.spin (idx2_to_idx1 s i j)) } : Sys)
        = s0 := hs0
    rw [hfl, e1]
    simp only [Option.some_bind]
    rw [hn1, e2]
    simp only [Option.some_bind]
    rw [hn2, e3]
    simp only [Option.some_bind]
    rw [hn3, e4]
    simp only [Option.some_bind]
    rw [hn4, e5]
  · intro a' b' ha0 ha1 hb0 hb1
    have q0 := k0 a' b' ha0 ha1 hb0 hb1
    have q1 := k1 a' b' (by omega) (by omega) (by omega) (by omega)
    have q2 := k2 a' b' (by omega) (by omega) (by omega) (by omega)
    have q3 := k3 a' b' (by omega) (by omega) (by omega) (by omega)
    have q4 := k4 a' b' (by omega) (by omega) (by omega) (by omega)
    have q5 := k5 a' b' (by omega) (by omega) (by omega) (by omega)
    by_cases c5 : a' = i ∧ b' = j_prev s j
    · exact q5 (Or.inr c5)
    refine q5 (Or.inl (q4 ?_))
    by_cases c4 : a' = i ∧ b' = j_next s j
    · exact Or.inr c4
    refine Or.inl (q3 ?_)
    by_cases c3 : a' = i_prev s i ∧ b' = j
    · exact Or.inr c3
    refine Or.inl (q2 ?_)
    by_cases c2 : a' = i_next s i ∧ b' = j
    · exact Or.inr c2
    refine Or.inl (q1 ?_)
    by_cases c1 : a' = i ∧ b' = j
    · exact Or.inr c1
    exact Or.inl (q0 c1 c2 c3 c4 c5)

/-! ## Catalog consistency across a step -/

theorem struct_of_consistent (s : Sys) (hG : Geometry s) (hB : SpinsBinary s)
    (hC : CountsNonneg s) (hLV : LiveValid s) (hSC : SiteConsistent s) :
    Struct s ∧ ∀ a b, 0 ≤ a → a < s.dim0 → 0 ≤ b → b < s.dim1 → Classified s a b := by
  have hcl : ∀ a b, 0 ≤ a → a < s.dim0 → 0 ≤ b → b < s.dim1 → Classified s a b := by
    intro a b ha0 ha1 hb0 hb1
    have h := (hSC a b ha0 ha1 hb0 hb1).1
    rw [get_event_type_eq s hG a b ha0 ha1 hb0 hb1] at h
    exact (Option.some.inj h).symm
  refine ⟨⟨hC, ?_, hLV⟩, hcl⟩
  intro x hx0 hx1
  obtain ⟨-, i0, i1, j0, j1, hx⟩ := idx1_to_idx2_eq s hG x hx0 hx1
  have h := hSC _ _ i0 i1 j0 j1
  have hc := hcl _ _ i0 i1 j0 j1
  have hr := event_type_value_range s hG hB _ _ i0 i1 j0 j1
  unfold Classified at hc
  rw [hx] at h hc
  rw [← hc] at hr
  exact ⟨hr.1, hr.2, h.2.1, h.2.2.1, h.2.2.2⟩

theorem consistent_of_struct (s : Sys) (hG : Geometry s) (hS : Struct s)
    (hCl : ∀ a b, 0 ≤ a → a < s.dim0 → 0 ≤ b → b < s.dim1 → Classified s a b) :
    SiteConsistent s := by
  intro a b ha0 ha1 hb0 hb1
  have hx := idx_in_range s hG a b ha0 ha1 hb0 hb1
  obtain ⟨-, -, f3, f4, f5⟩ := hS.2.1 _ hx.1 hx.2
  refine ⟨?_, f3, f4, f5⟩
  rw [get_event_type_eq s hG a b ha0 ha1 hb0 hb1, hCl a b ha0 ha1 hb0 hb1]

theorem fixed_spin (s : Sys) (i j : Int) : (fixed s i j).spin = s.spin := rfl

theorem fixed_dim0 (s : Sys) (i j : Int) : (fixed s i j).dim0 = s.dim0 := rfl

theorem fixed_dim1 (s : Sys) (i j : Int) : (fixed s i j).dim1 = s.dim1 := rfl

theorem fixed_N (s : Sys) (i j : Int) : (fixed s i j).N = s.N := rfl

theorem flipped_dim0 (s : Sys) (x : Int) : (flipped s x).dim0 = s.dim0 := rfl

theorem flipped_dim1 (s : Sys) (x : Int) : (flipped s x).dim1 = s.dim1 := rfl

theorem flipped_N (s : Sys) (x : Int) : (flipped s x).N = s.N := rfl

theorem updated_frame (s : Sys) (i j : Int) :
    (updated s i j).dim0 = s.dim0 ∧ (updated s i j).dim1 = s.dim1 ∧ (updated s i j).N = s.N ∧
      (updated s i j).spin = (flipped s (idx2_to_idx1 s i j)).spin := by
  unfold updated
  simp only [fixed_spin, fixed_dim0, fixed_dim1, fixed_N, flipped_dim0, flipped_dim1,
    flipped_N, and_self]

theorem kmc_update_inv (s : Sys) (idx : Int) (hG : Geometry s) (hB : SpinsBinary s)
    (hC : CountsNonneg s) (hLV : LiveValid s) (hSC : SiteConsistent s) (h0 : 0 ≤ idx)
    (h1 : idx < s.N) :
    kmc_update s idx = some (updated s (idx / s.dim1) (idx % s.dim1)) ∧
      Geometry (updated s (idx / s.dim1) (idx % s.dim1)) ∧
      SpinsBinary (updated s (idx / s.dim1) (idx % s.dim1)) ∧
      Struct (updated s (idx / s.dim1) (idx % s.dim1)) ∧
      SiteConsistent (updated s (idx / s.dim1) (idx % s.dim1)) := by
  obtain ⟨hS, hCl⟩ := struct_of_consistent s hG hB hC hLV hSC
  obtain ⟨-, i0, i1, j0, j1, hx⟩ := idx1_to_idx2_eq s hG idx h0 h1
  obtain ⟨e, hS', hCl'⟩ := kmc_update_eq s hG hB hS hCl _ _ i0 i1 j0 j1
  rw [hx] at e
  obtain ⟨d0, d1, dN, dsp⟩ := updated_frame s (idx / s.dim1) (idx % s.dim1)
  have hG' : Geometry (updated s (idx / s.dim1) (idx % s.dim1)) := by
    unfold Geometry; rw [d0, d1, dN]; exact hG
  have hB' : SpinsBinary (updated s (idx / s.dim1) (idx % s.dim1)) := by
    intro y hy0 hy1
    rw [dsp]
    rw [dN] at hy1
    exact flipped_spinsBinary s hB _ y hy0 hy1
  refine ⟨e, hG', hB', hS', consistent_of_struct _ hG' hS' ?_⟩
  intro a b ha0 ha1 hb0 hb1
  rw [d0] at ha1
  rw [d1] at hb1
  exact hCl' a b ha0 ha1 hb0 hb1

/-! ## Concrete states -/

theorem allUp_geometry : Geometry allUp := ⟨by decide, by decide, by decide⟩

theorem allUp_spinsBinary : SpinsBinary allUp := fun _ _ _ => Or.inr rfl

theorem allUp_countsNonneg : CountsNonneg allUp := by
  intro t _ _
  show 0 ≤ (if t = 9 then (4 : Int) else 0)
  split_ifs <;> decide

theorem allUp_liveValid : LiveValid allUp := by
  intro t k _ _ hk0 hk1
  have hk1 : k < (if t = 9 then (4 : Int) else 0) := hk1
  split_ifs at hk1 with ht
  · exact ⟨hk0, hk1, ht.symm, rfl⟩
  · omega

theorem allUp_siteConsistent : SiteConsistent allUp := by
  intro i j hi0 hi1 hj0 hj1
  have hi1 : i < 2 := hi1
  have hj1 : j < 2 := hj1
  interval_cases i <;> interval_cases j <;> decide

theorem ghostState_siteConsistent : SiteConsistent ghostState := by
  intro i j hi0 hi1 hj0 hj1
  have hi1 : i < 1 := hi1
  have hj1 : j < 3 := hj1
  interval_cases i
  interval_cases j <;> decide

theorem negCountState_siteConsistent : SiteConsistent negCountState := by
  intro i j hi0 hi1 hj0 hj1
  have hi1 : i < 1 := hi1
  have hj1 : j < 1 := hj1
  interval_cases i
  interval_cases j
  decide

theorem negCountState_liveValid : LiveValid negCountState := by
  intro t k _ _ hk0 hk1
  have hk1 : k < (if t = 9 then (1 : Int) else if t = 0 then -1 else 0) := hk1
  split_ifs at hk1 with h9 h0
  · exact ⟨le_refl _, show (0 : Int) < 1 by decide, h9.symm, show (0 : Int) = k by omega⟩
  · omega
  · omega

/-- C1 (as stated) fails.  (a) On the 1 x 3 state `ghostState` the geometry is
valid, the spins are binary, bucket sizes are non-negative and every site meets
the three consistency conditions, yet the `kmc` update of site 0 returns a
state in which site 1 is no longer held at its recorded bucket position: a
stale live entry was taken for the last element of a bucket.  (b) On the 1 x 1
state `negCountState` the three conditions hold and the reverse index is valid,
but the empty bucket 0 has size `-1` and the update of site 0 does not
complete. -/
theorem kmc_update_breaks_consistency_with_stale_entries :
    (Geometry ghostState ∧ SpinsBinary ghostState ∧ CountsNonneg ghostState ∧
      SiteConsistent ghostState ∧ (0 ≤ (0 : Int) ∧ (0 : Int) < ghostState.N) ∧
      ∃ s', kmc_update ghostState 0 = some s' ∧ ¬ SiteConsistent s') ∧
    (Geometry negCountState ∧ SpinsBinary negCountState ∧ LiveValid negCountState ∧
      SiteConsistent negCountState ∧ (0 ≤ (0 : Int) ∧ (0 : Int) < negCountState.N) ∧
      kmc_update negCountState 0 = none) := by
  refine ⟨⟨⟨by decide, by decide, by decide⟩, ?_, ?_, ghostState_siteConsistent,
    ⟨by decide, by decide⟩, ?_⟩, ⟨by decide, by decide, by decide⟩, fun _ _ _ => Or.inr rfl,
    negCountState_liveValid, negCountState_siteConsistent, ⟨by decide, by decide⟩,
    Option.isNone_iff_eq_none.mp (by decide!)⟩
  · intro x _ _
    show (if x = 0 then (1 : Int) else 0) = 0 ∨ (if x = 0 then (1 : Int) else 0) = 1
    split_ifs <;> simp
  · intro t _ _
    show 0 ≤ (if t = 7 then (2 : Int) else if t = 1 then 2 else 0)
    split_ifs <;> decide
  · have hrun : (match kmc_update ghostState 0 with
        | some s' => decide (s'.event_pos (s'.grid_event_type (idx2_to_idx1 s' 0 1))
            (s'.grid_event_idx (idx2_to_idx1 s' 0 1)) ≠ idx2_to_idx1 s' 0 1 ∧
            s'.dim0 = 1 ∧ s'.dim1 = 3)
        | none => false) = true := by decide!
    cases hk : kmc_update ghostState 0 with
    | none => rw [hk] at hrun; cases hrun
    | some s' =>
      rw [hk] at hrun
      have hrun' := of_decide_eq_true hrun
      refine ⟨s', rfl, fun h => hrun'.1 ?_⟩
      exact (h 0 1 (by decide) (by rw [hrun'.2.1]; decide) (by decide)
        (by rw [hrun'.2.2]; decide)).2.2.2

/-- C1 (amended): if, in addition to the three per-site conditions, bucket
sizes are non-negative and the reverse index is valid for every live entry,
then the `kmc` update of any site (flip, then `fix_events` on the site and its
four toroidal neighbours) succeeds and yields a state in which all of these
conditions hold again. -/
theorem kmc_update_preserves_consistency (s : Sys) (idx : Int) (hG : Geometry s)
    (hB : SpinsBinary s) (hC : CountsNonneg s) (hLV : LiveValid s) (hSC : SiteConsistent s)
    (h0 : 0 ≤ idx) (h1 : idx < s.N) :
    ∃ s', kmc_update s idx = some s' ∧ Geometry s' ∧ SpinsBinary s' ∧ CountsNonneg s' ∧
      LiveValid s' ∧ SiteConsistent s' := by
  obtain ⟨e, hG', hB', hS', hSC'⟩ := kmc_update_inv s idx hG hB hC hLV hSC h0 h1
  exact ⟨_, e, hG', hB', hS'.1, hS'.2.2, hSC'⟩

/-- Witness for C1 (amended): the 2 x 2 all-up state, updating site 0. -/
theorem kmc_update_preserves_consistency_witness :
    ∃ s', kmc_update allUp 0 = some s' ∧ Geometry s' ∧ SpinsBinary s' ∧ CountsNonneg s' ∧
      LiveValid s' ∧ SiteConsistent s' :=
  kmc_update_preserves_consistency allUp 0 allUp_geometry allUp_spinsBinary
    allUp_countsNonneg allUp_liveValid allUp_siteConsistent (by decide) (by decide)

/-! ## `init_events` -/

theorem for_loop_inv {σ : Type} (body : Int → σ → Option σ) (P : Nat → σ → Prop) (n : Nat)
    (s : σ) (h0 : P 0 s)
    (hstep : ∀ k s, k < n → P k s → ∃ s', body (k : Int) s = some s' ∧ P (k + 1) s') :
    ∃ s', for_loop body n s = some s' ∧ P n s' := by
  induction n with
  | zero => exact ⟨s, rfl, h0⟩
  | succ n ih =>
    obtain ⟨s1, e1, p1⟩ := ih (fun k s hk hp => hstep k s (by omega) hp)
    obtain ⟨s2, e2, p2⟩ := hstep n s1 (by omega) p1
    refine ⟨s2, ?_, p2⟩
    show (for_loop body n s).bind (body (n : Int)) = some s2
    rw [e1]
    exact e2

theorem zero_loop_eq (s : Sys) :
    for_loop (fun i s => (wr n_event_types s.n_events i 0).map
      (fun ne => { s with n_events := ne })) n_event_types.toNat s = some (zeroed s 10) := by
  have key : ∀ k : Nat, k ≤ 10 →
      for_loop (fun i s => (wr n_event_types s.n_events i 0).map
        (fun ne => { s with n_events := ne })) k s = some (zeroed s k) := by
    intro k
    induction k with
    | zero =>
      intro _
      show some s = some (zeroed s 0)
      congr 1
      unfold zeroed
      have : (fun t => if 0 ≤ t ∧ t < (0 : Int) then (0 : Int) else s.n_events t) = s.n_events := by
        funext t
        rw [if_neg (by omega)]
      simp only [Nat.cast_zero] at *
      rw [this]
    | succ k ih =>
      intro hk
      show (for_loop _ k s).bind _ = _
      rw [ih (by omega)]
      show (wr n_event_types (zeroed s k).n_events (k : Int) 0).map _ = _
      rw [wr_some (by omega) (by unfold n_event_types; omega)]
      show some _ = some _
      congr 1
      unfold zeroed
      simp only
      congr 1
      funext t
      rw [Function.update_apply]
      split_ifs <;> first | rfl | (exfalso; push_cast at *; omega)
  exact key 10 (by omega)

theorem insert_event_eq_of_bounds (s : Sys) (t h : Int) (h0 : 0 ≤ h) (h1 : h < s.N)
    (ht0 : 0 ≤ t) (ht1 : t < 10) (hc0 : 0 ≤ s.n_events t) (hc1 : s.n_events t < s.N) :
    insert_event s t h = some (inserted s t h) := by
  simp [insert_event, inserted, rd_some ht0 (show t < n_event_types from ht1),
    wr2_some ht0 ht1 hc0 hc1, wr_some h0 h1,
    wr_some ht0 (show t < n_event_types from ht1)]

theorem struct_withN_out (s : Sys) (m : Int) (h : Struct (withN s m)) :
    CountsNonneg s ∧ (∀ x, 0 ≤ x → x < m → Filed s x) ∧
      ∀ t k, 0 ≤ t → t < 10 → 0 ≤ k → k < s.n_events t →
        0 ≤ s.event_pos t k ∧ s.event_pos t k < m ∧
        s.grid_event_type (s.event_pos t k) = t ∧ s.grid_event_idx (s.event_pos t k) = k := h

theorem structHole_withN (s : Sys) (m h : Int) (hC : CountsNonneg s)
    (hF : ∀ x, 0 ≤ x → x < m → x ≠ h → Filed s x)
    (hLV : ∀ t k, 0 ≤ t → t < 10 → 0 ≤ k → k < s.n_events t →
        0 ≤ s.event_pos t k ∧ s.event_pos t k < m ∧
        s.grid_event_type (s.event_pos t k) = t ∧ s.grid_event_idx (s.event_pos t k) = k)
    (hne : ∀ t k, 0 ≤ t → t < 10 → 0 ≤ k → k < s.n_events t → s.event_pos t k ≠ h) :
    StructHole (withN s m) h := ⟨hC, hF, hLV, hne⟩

theorem init_body_step (base : Sys) (hG : Geometry base) (hB : SpinsBinary base) (s : Sys)
    (i j : Int) (hi0 : 0 ≤ i) (hi1 : i < base.dim0) (hj0 : 0 ≤ j) (hj1 : j < base.dim1)
    (hI : InitInv base (idx2_to_idx1 base i j) s) :
    ∃ s', init_body i j s = some s' ∧ InitInv base (idx2_to_idx1 base i j + 1) s' := by
  obtain ⟨hsp, hd0, hd1, hN, hS, hCl⟩ := hI
  have hGs : Geometry s := by unfold Geometry; rw [hd0, hd1, hN]; exact hG
  have hBs : SpinsBinary s := by
    intro x hx0 hx1; rw [hsp]; rw [hN] at hx1; exact hB x hx0 hx1
  have hidx : idx2_to_idx1 s i j = idx2_to_idx1 base i j := by
    unfold idx2_to_idx1; rw [hd1]
  have hx := idx_in_range base hG i j hi0 hi1 hj0 hj1
  rw [← hd0] at hi1
  rw [← hd1] at hj1
  have hv := event_type_value_range s hGs hBs i j hi0 hi1 hj0 hj1
  have hget := get_event_type_eq s hGs i j hi0 hi1 hj0 hj1
  -- the catalog over the sites below `m + 1`, with site `m` missing
  have hhole : StructHole (withN s (idx2_to_idx1 base i j + 1)) (idx2_to_idx1 base i j) := by
    obtain ⟨hC, hF, hLV⟩ := struct_withN_out _ _ hS
    refine structHole_withN _ _ _ hC ?_ ?_ ?_
    · intro x hx0 hx1 hne
      exact hF x hx0 (by omega)
    · intro t k ht0 ht1 hk0 hk1
      obtain ⟨e0, e1, e2, e3⟩ := hLV t k ht0 ht1 hk0 hk1
      exact ⟨e0, by omega, e2, e3⟩
    · intro t k ht0 ht1 hk0 hk1
      obtain ⟨e0, e1, e2, e3⟩ := hLV t k ht0 ht1 hk0 hk1
      exact fun h => by omega
  have hlt := bucket_lt_N_of_hole _ _ hhole hx.1
    (show idx2_to_idx1 base i j < idx2_to_idx1 base i j + 1 by omega) _ hv.1 hv.2
  have hlt : s.n_events (event_type_value s i j) < idx2_to_idx1 base i j + 1 := hlt
  have hins := insert_event_eq_of_bounds s (event_type_value s i j) (idx2_to_idx1 base i j)
    hx.1 (by rw [hN]; exact hx.2) hv.1 hv.2 (hS.1 _ hv.1 hv.2) (by rw [hN]; omega)
  have hstr := inserted_struct _ _ _ hhole hx.1
    (show idx2_to_idx1 base i j < idx2_to_idx1 base i j + 1 by omega) hv.1 hv.2
  refine ⟨inserted s (event_type_value s i j) (idx2_to_idx1 base i j), ?_, hsp, hd0, hd1, hN,
    hstr, ?_⟩
  · unfold init_body
    simp only [hget, Option.bind_eq_bind, Option.some_bind, hidx]
    exact hins
  · intro a b ha0 ha1 hb0 hb1 hab
    have hidx' : idx2_to_idx1 s a b = idx2_to_idx1 base a b := by
      unfold idx2_to_idx1; rw [hd1]
    show (inserted _ _ _).grid_event_type (idx2_to_idx1 s a b) = event_type_value s a b
    rw [inserted_grid_event_type, hidx']
    split_ifs with he
    · obtain ⟨rfl, rfl⟩ := idx_inj base a b i j hb0 hb1 hj0 (by rw [← hd1]; exact hj1) he
      rfl
    · have hc := hCl a b ha0 ha1 hb0 hb1 (by omega)
      unfold Classified at hc
      rw [hidx'] at hc
      exact hc

theorem init_row (base : Sys) (hG : Geometry base) (hB : SpinsBinary base) (s : Sys) (i : Int)
    (hi0 : 0 ≤ i) (hi1 : i < base.dim0) (hI : InitInv base (base.dim1 * i) s) :
    ∃ s', for_loop (init_body i) s.dim1.toNat s = some s' ∧
      InitInv base (base.dim1 * (i + 1)) s' := by
  have hd1 : s.dim1 = base.dim1 := hI.2.2.1
  obtain ⟨s', e, hP⟩ := for_loop_inv (init_body i)
    (fun j s => InitInv base (idx2_to_idx1 base i (j : Int)) s) s.dim1.toNat s
    (by
      show InitInv base (base.dim1 * i + ((0 : Nat) : Int)) s
      simpa using hI)
    (by
      intro k s1 hk hP
      have hk' : (k : Int) < base.dim1 := by omega
      obtain ⟨s2, e2, h2⟩ := init_body_step base hG hB s1 i k hi0 hi1 (by omega) hk' hP
      refine ⟨s2, e2, ?_⟩
      have : idx2_to_idx1 base i ((k + 1 : Nat) : Int) = idx2_to_idx1 base i (k : Int) + 1 := by
        unfold idx2_to_idx1; push_cast; ring
      show InitInv base (idx2_to_idx1 base i ((k + 1 : Nat) : Int)) s2
      rw [this]
      exact h2)
  refine ⟨s', e, ?_⟩
  have hP : InitInv base (idx2_to_idx1 base i (s.dim1.toNat : Int)) s' := hP
  have hcast : ((s.dim1.toNat : Nat) : Int) = base.dim1 := by
    have := hG.2.1
    omega
  have : idx2_to_idx1 base i (s.dim1.toNat : Int) = base.dim1 * (i + 1) := by
    unfold idx2_to_idx1; rw [hcast]; ring
  rw [this] at hP
  exact hP

theorem zeroed_initInv (base : Sys) : InitInv base 0 (zeroed base 10) := by
  refine ⟨rfl, rfl, rfl, rfl, ⟨?_, ?_, ?_⟩, ?_⟩
  · intro t ht0 ht1
    show 0 ≤ (if 0 ≤ t ∧ t < 10 then (0 : Int) else base.n_events t)
    rw [if_pos ⟨ht0, ht1⟩]
  · intro x hx0 hx1
    have hx1 : x < 0 := hx1
    omega
  · intro t k ht0 ht1 hk0 hk1
    have hk1 : k < (if 0 ≤ t ∧ t < 10 then (0 : Int) else base.n_events t) := hk1
    rw [if_pos ⟨ht0, ht1⟩] at hk1
    omega
  · intro a b ha0 ha1 hb0 hb1 hlt
    have : 0 ≤ base.dim1 * a := mul_nonneg (by omega) ha0
    unfold idx2_to_idx1 at hlt
    omega

theorem init_events_initInv (base : Sys) (hG : Geometry base) (hB : SpinsBinary base) :
    ∃ s', init_events base = some s' ∧ InitInv base base.N s' := by
  obtain ⟨s', e, hP⟩ := for_loop_inv (fun i s => for_loop (init_body i) s.dim1.toNat s)
    (fun i s => InitInv base (base.dim1 * (i : Int)) s) base.dim0.toNat (zeroed base 10)
    (by
      show InitInv base (base.dim1 * ((0 : Nat) : Int)) (zeroed base 10)
      simpa using zeroed_initInv base)
    (by
      intro k s1 hk hP
      have hk' : (k : Int) < base.dim0 := by omega
      obtain ⟨s2, e2, h2⟩ := init_row base hG hB s1 k (by omega) hk' hP
      refine ⟨s2, e2, ?_⟩
      show InitInv base (base.dim1 * ((k + 1 : Nat) : Int)) s2
      push_cast
      exact h2)
  refine ⟨s', ?_, ?_⟩
  · unfold init_events
    rw [zero_loop_eq]
    exact e
  · have hP : InitInv base (base.dim1 * (base.dim0.toNat : Int)) s' := hP
    have hcast : ((base.dim0.toNat : Nat) : Int) = base.dim0 := by
      have := hG.1
      omega
    rw [hcast, mul_comm, ← hG.2.2] at hP
    exact hP

theorem initInv_final (base : Sys) (hG : Geometry base) (s : Sys) (hI : InitInv base base.N s) :
    s.spin = base.spin ∧ Geometry s ∧ Struct s ∧ SiteConsistent s := by
  obtain ⟨hsp, hd0, hd1, hN, hS, hCl⟩ := hI
  have hGs : Geometry s := by unfold Geometry; rw [hd0, hd1, hN]; exact hG
  have hS' : Struct s := by
    obtain ⟨hC, hF, hLV⟩ := struct_withN_out _ _ hS
    refine ⟨hC, ?_, ?_⟩
    · intro x hx0 hx1
      exact hF x hx0 (by omega)
    · intro t k ht0 ht1 hk0 hk1
      obtain ⟨e0, e1, e2, e3⟩ := hLV t k ht0 ht1 hk0 hk1
      exact ⟨e0, by omega, e2, e3⟩
  refine ⟨hsp, hGs, hS', consistent_of_struct s hGs hS' ?_⟩
  intro a b ha0 ha1 hb0 hb1
  rw [hd0] at ha1
  rw [hd1] at hb1
  exact hCl a b ha0 ha1 hb0 hb1 (idx_in_range base hG a b ha0 ha1 hb0 hb1).2

/-! ## Rebuild and the partition invariant -/

theorem ghostState_geometry : Geometry ghostState := ⟨by decide, by decide, by decide⟩

theorem ghostState_spinsBinary : SpinsBinary ghostState := by
  intro x _ _
  show (if x = 0 then (1 : Int) else 0) = 0 ∨ (if x = 0 then (1 : Int) else 0) = 1
  split_ifs <;> simp

/-- C2: on a grid with positive dimensions and binary spins, `init_events`
succeeds whatever the previous catalog contents, leaves spins and geometry
unchanged, and every site then meets the three consistency conditions (with
non-negative bucket sizes and a valid reverse index besides). -/
theorem init_events_establishes_consistency (s : Sys) (hG : Geometry s) (hB : SpinsBinary s) :
    ∃ s', init_events s = some s' ∧ s'.spin = s.spin ∧ s'.dim0 = s.dim0 ∧ s'.dim1 = s.dim1 ∧
      s'.N = s.N ∧ SiteConsistent s' ∧ CountsNonneg s' ∧ LiveValid s' := by
  obtain ⟨s', e, hI⟩ := init_events_initInv s hG hB
  obtain ⟨hsp, -, hS, hSC⟩ := initInv_final s hG s' hI
  exact ⟨s', e, hsp, hI.2.1, hI.2.2.1, hI.2.2.2.1, hSC, hS.1, hS.2.2⟩

/-- Witness for C2: rebuilding the catalog of the 1 x 3 state whose catalog
carries stale entries. -/
theorem init_events_establishes_consistency_witness :
    ∃ s', init_events ghostState = some s' ∧ s'.spin = ghostState.spin ∧
      s'.dim0 = ghostState.dim0 ∧ s'.dim1 = ghostState.dim1 ∧ s'.N = ghostState.N ∧
      SiteConsistent s' ∧ CountsNonneg s' ∧ LiveValid s' :=
  init_events_establishes_consistency ghostState ghostState_geometry ghostState_spinsBinary

theorem struct_fiber_card (s : Sys) (hS : Struct s) (t : Nat) (ht : t < 10) :
    ((Finset.range s.N.toNat).filter
      (fun x : Nat => (s.grid_event_type (x : Int)).toNat = t)).card
      = (s.n_events (t : Int)).toNat := by
  obtain ⟨hC, hF, hLV⟩ := hS
  rw [← Finset.card_range (s.n_events (t : Int)).toNat]
  apply Finset.card_nbij' (fun x : Nat => (s.grid_event_idx (x : Int)).toNat)
    (fun k : Nat => (s.event_pos (t : Int) (k : Int)).toNat)
  · intro x hx
    simp only [Finset.mem_filter, Finset.mem_range] at hx
    simp only [Finset.mem_range]
    obtain ⟨f1, f2, f3, f4, f5⟩ := hF x (by omega) (by omega)
    have : s.grid_event_type (x : Int) = (t : Int) := by omega
    rw [this] at f4
    omega
  · intro k hk
    simp only [Finset.mem_range] at hk
    simp only [Finset.mem_filter, Finset.mem_range]
    obtain ⟨e0, e1, e2, e3⟩ := hLV t k (by omega) (by omega) (by omega) (by omega)
    have hc : ((s.event_pos (t : Int) (k : Int)).toNat : Int) = s.event_pos (t : Int) (k : Int) := by
      omega
    rw [hc, e2]
    constructor
    · omega
    · simp
  · intro x hx
    simp only [Finset.mem_filter, Finset.mem_range] at hx
    obtain ⟨f1, f2, f3, f4, f5⟩ := hF x (by omega) (by omega)
    have h1 : s.grid_event_type (x : Int) = (t : Int) := by omega
    have h2 : ((s.grid_event_idx (x : Int)).toNat : Int) = s.grid_event_idx (x : Int) := by omega
    show (s.event_pos (t : Int) ((s.grid_event_idx (x : Int)).toNat : Int)).toNat = x
    rw [h2, ← h1, f5]
    simp
  · intro k hk
    simp only [Finset.mem_range] at hk
    obtain ⟨e0, e1, e2, e3⟩ := hLV t k (by omega) (by omega) (by omega) (by omega)
    have hc : ((s.event_pos (t : Int) (k : Int)).toNat : Int) = s.event_pos (t : Int) (k : Int) := by
      omega
    show (s.grid_event_idx ((s.event_pos (t : Int) (k : Int)).toNat : Int)).toNat = k
    rw [hc, e3]
    simp

theorem struct_total_events (s : Sys) (hS : Struct s) (hN : 0 ≤ s.N) : total_events s = s.N := by
  have hcard := Finset.card_eq_sum_card_fiberwise (s := Finset.range s.N.toNat)
    (t := Finset.range 10) (f := fun x : Nat => (s.grid_event_type (x : Int)).toNat)
    (by
      intro x hx
      simp only [Finset.mem_range] at hx ⊢
      obtain ⟨f1, f2, -⟩ := hS.2.1 x (by omega) (by omega)
      omega)
  rw [Finset.card_range] at hcard
  rw [Finset.sum_congr rfl (fun t ht => struct_fiber_card s hS t (Finset.mem_range.mp ht))]
    at hcard
  unfold total_events
  have hcast : ∀ t ∈ Finset.range 10,
      s.n_events (t : Int) = (((s.n_events (t : Int)).toNat : Nat) : Int) := by
    intro t ht
    have := hS.1 t (by omega) (by have := Finset.mem_range.mp ht; omega)
    omega
  rw [Finset.sum_congr rfl hcast, ← Nat.cast_sum, ← hcard]
  omega

theorem struct_partition (s : Sys) (hS : Struct s) (hN : 0 ≤ s.N) : Partition s := by
  refine ⟨?_, ?_, struct_total_events s hS hN⟩
  · intro t k ht0 ht1 hk0 hk1
    obtain ⟨e0, e1, -, -⟩ := hS.2.2 t k ht0 ht1 hk0 hk1
    exact ⟨e0, e1⟩
  · intro x hx0 hx1
    obtain ⟨f1, f2, f3, f4, f5⟩ := hS.2.1 x hx0 hx1
    refine ⟨(s.grid_event_type x, s.grid_event_idx x), ⟨⟨f1, f2, f3, f4⟩, f5⟩, ?_⟩
    rintro ⟨t, k⟩ ⟨⟨h1, h2, h3, h4⟩, h5⟩
    obtain ⟨-, -, e2, e3⟩ := hS.2.2 t k h1 h2 h3 h4
    simp only at h5
    rw [h5] at e2 e3
    rw [e2, e3]

theorem kmc_update_some_range (s s' : Sys) (idx : Int) (h : kmc_update s idx = some s') :
    0 ≤ idx ∧ idx < s.N := by
  unfold kmc_update at h
  cases h1 : idx1_to_idx2 s idx with
  | none => simp [h1] at h
  | some p =>
    cases h2 : rd s.N s.spin idx with
    | none => simp [h1, h2] at h
    | some v => exact ⟨(rd_eq_some h2).1, (rd_eq_some h2).2.1⟩

theorem reachable_inv (s : Sys) (h : Reachable s) :
    Geometry s ∧ SpinsBinary s ∧ Struct s ∧ SiteConsistent s := by
  induction h with
  | init s s' hG hB e =>
    obtain ⟨s'', e', hI⟩ := init_events_initInv s hG hB
    rw [e] at e'
    obtain rfl := Option.some.inj e'
    obtain ⟨hsp, hG', hS, hSC⟩ := initInv_final s hG s' hI
    refine ⟨hG', ?_, hS, hSC⟩
    intro x hx0 hx1
    rw [hsp]
    rw [hI.2.2.2.1] at hx1
    exact hB x hx0 hx1
  | step s s' idx _ e ih =>
    obtain ⟨hG, hB, hS, hSC⟩ := ih
    obtain ⟨h0, h1⟩ := kmc_update_some_range s s' idx e
    obtain ⟨e', hG', hB', hS', hSC'⟩ := kmc_update_inv s idx hG hB hS.1 hS.2.2 hSC h0 h1
    rw [e] at e'
    obtain rfl := Option.some.inj e'
    exact ⟨hG', hB', hS', hSC'⟩

theorem geometry_N_nonneg (s : Sys) (hG : Geometry s) : 0 ≤ s.N := by
  obtain ⟨h0, h1, hN⟩ := hG
  rw [hN]
  exact mul_nonneg (by omega) (by omega)

/-- C3: in every state reached by `init_events` followed by any number of `kmc`
updates, every live entry is a site, every site occurs at exactly one live
position of the ten buckets, and the ten bucket sizes sum to `N`. -/
theorem reachable_partition (s : Sys) (h : Reachable s) : Partition s := by
  obtain ⟨hG, -, hS, -⟩ := reachable_inv s h
  exact struct_partition s hS (geometry_N_nonneg s hG)

/-- Witness for C3: the state built by `init_events` on the 1 x 3 grid, and the
state after one further `kmc` update of site 0. -/
theorem reachable_partition_witness :
    ∃ s1 s2, init_events ghostState = some s1 ∧ kmc_update s1 0 = some s2 ∧
      Partition s1 ∧ Partition s2 := by
  obtain ⟨s1, e1, hI⟩ := init_events_initInv ghostState ghostState_geometry
    ghostState_spinsBinary
  have hR1 : Reachable s1 :=
    Reachable.init ghostState s1 ghostState_geometry ghostState_spinsBinary e1
  obtain ⟨hG1, hB1, hS1, hSC1⟩ := reachable_inv s1 hR1
  obtain ⟨e2, -⟩ := kmc_update_inv s1 0 hG1 hB1 hS1.1 hS1.2.2 hSC1 (by decide)
    (by rw [hI.2.2.2.1]; decide)
  exact ⟨s1, _, e1, e2, reachable_partition s1 hR1,
    reachable_partition _ (Reachable.step s1 _ 0 hR1 e2)⟩

/-- C4: in a state whose reverse index is valid, removing a site `idx` that
sits in bucket `T` at position `P` succeeds; the size of `T` drops by one, the
live entries of `T` are the old ones without `idx`, the former last entry of
`T` sits at `P` with reverse position `P`, every other bucket, every other
position of `T`, every other site's reverse position, all recorded types, the
spins and the geometry are unchanged, the reverse index is valid again, `idx`
is no live entry, and every other filed site stays filed. -/
theorem remove_event_swap_with_last (s : Sys) (idx : Int) (hLV : LiveValid s) (h0 : 0 ≤ idx)
    (h1 : idx < s.N) (hF : Filed s idx) :
    ∃ s', remove_event s idx = some s' ∧
      s'.n_events (s.grid_event_type idx) = s.n_events (s.grid_event_type idx) - 1 ∧
      (∀ x, (∃ k, 0 ≤ k ∧ k < s'.n_events (s.grid_event_type idx) ∧
          s'.event_pos (s.grid_event_type idx) k = x) ↔
        ((∃ k, 0 ≤ k ∧ k < s.n_events (s.grid_event_type idx) ∧
          s.event_pos (s.grid_event_type idx) k = x) ∧ x ≠ idx)) ∧
      s'.event_pos (s.grid_event_type idx) (s.grid_event_idx idx)
        = s.event_pos (s.grid_event_type idx) (s.n_events (s.grid_event_type idx) - 1) ∧
      s'.grid_event_idx
          (s.event_pos (s.grid_event_type idx) (s.n_events (s.grid_event_type idx) - 1))
        = s.grid_event_idx idx ∧
      (∀ t, t ≠ s.grid_event_type idx →
        s'.n_events t = s.n_events t ∧ ∀ k, s'.event_pos t k = s.event_pos t k) ∧
      (∀ k, k ≠ s.grid_event_idx idx →
        s'.event_pos (s.grid_event_type idx) k = s.event_pos (s.grid_event_type idx) k) ∧
      (∀ x, x ≠ s.event_pos (s.grid_event_type idx) (s.n_events (s.grid_event_type idx) - 1) →
        s'.grid_event_idx x = s.grid_event_idx x) ∧
      s'.grid_event_type = s.grid_event_type ∧ s'.spin = s.spin ∧
      s'.dim0 = s.dim0 ∧ s'.dim1 = s.dim1 ∧ s'.N = s.N ∧
      LiveValid s' ∧
      (∀ t k, 0 ≤ t → t < 10 → 0 ≤ k → k < s'.n_events t → s'.event_pos t k ≠ idx) ∧
      (∀ x, x ≠ idx → Filed s x → Filed s' x) := by
  obtain ⟨hl, hne⟩ := removed_liveValid s idx hLV hF
  refine ⟨removed s idx, remove_event_eq s idx hLV h0 h1 hF, ?_,
    fun x => removed_live_set s idx x hLV hF, ?_, ?_, ?_, ?_, ?_, rfl, rfl, rfl, rfl, rfl, hl,
    hne, fun x hx hFx => removed_filed s idx x hLV hF hFx hx⟩
  · rw [removed_n_events, if_pos rfl]
  · rw [removed_event_pos, if_pos ⟨rfl, rfl⟩]
  · rw [removed_grid_event_idx, if_pos rfl]
  · intro t ht
    refine ⟨by rw [removed_n_events, if_neg ht], fun k => ?_⟩
    rw [removed_event_pos, if_neg (by tauto)]
  · intro k hk
    rw [removed_event_pos, if_neg (by tauto)]
  · intro x hx
    rw [removed_grid_event_idx, if_neg hx]

theorem allUp_filed_zero : Filed allUp 0 := by
  unfold Filed
  decide

/-- Witness for C4: removing site 0 from bucket 9 of the 2 x 2 all-up state
(site 3, the last entry, moves to position 0). -/
theorem remove_event_swap_with_last_witness :
    ∃ s', remove_event allUp 0 = some s' ∧ s'.n_events 9 = 3 ∧ s'.event_pos 9 0 = 3 ∧
      s'.grid_event_idx 3 = 0 ∧ LiveValid s' := by
  obtain ⟨s', e, h1, -, h3, h4, -, -, -, -, -, -, -, -, hl, -, -⟩ :=
    remove_event_swap_with_last allUp 0 allUp_liveValid (by decide) (by decide)
      allUp_filed_zero
  exact ⟨s', e, h1, h3, h4, hl⟩

/-! ## The classifier against its description -/

theorem i_next_mod (s : Sys) (i : Int) (hi0 : 0 ≤ i) (hi1 : i < s.dim0) :
    i_next s i = (i + 1) % s.dim0 := by
  unfold i_next
  split_ifs with h
  · exact (Int.emod_eq_of_lt (by omega) h).symm
  · have : i + 1 = s.dim0 := by omega
    rw [this, Int.emod_self]

theorem i_prev_mod (s : Sys) (i : Int) (hi0 : 0 ≤ i) (hi1 : i < s.dim0) :
    i_prev s i = (i - 1) % s.dim0 := by
  unfold i_prev
  split_ifs with h
  · exact (Int.emod_eq_of_lt (by omega) (by omega)).symm
  · have : i = 0 := by omega
    subst this
    rw [← Int.add_emod_self, Int.emod_eq_of_lt (by omega) (by omega)]
    ring

theorem j_next_mod (s : Sys) (j : Int) (hj0 : 0 ≤ j) (hj1 : j < s.dim1) :
    j_next s j = (j + 1) % s.dim1 := by
  unfold j_next
  split_ifs with h
  · exact (Int.emod_eq_of_lt (by omega) h).symm
  · have : j + 1 = s.dim1 := by omega
    rw [this, Int.emod_self]

theorem j_prev_mod (s : Sys) (j : Int) (hj0 : 0 ≤ j) (hj1 : j < s.dim1) :
    j_prev s j = (j - 1) % s.dim1 := by
  unfold j_prev
  split_ifs with h
  · exact (Int.emod_eq_of_lt (by omega) (by omega)).symm
  · have : j = 0 := by omega
    subst this
    rw [← Int.add_emod_self, Int.emod_eq_of_lt (by omega) (by omega)]
    ring

/-- C5: on a grid with positive dimensions and binary spins, for every site
`(i, j)` of the grid `get_event_type` returns `neighbor_sum + 5 * self`, where
`neighbor_sum` counts (with multiplicity) the four toroidal neighbours holding
spin 1; the result lies in `[0, 9]`, its remainder by 5 is `neighbor_sum`, its
quotient by 5 is the site's spin, and the five indices read lie in `[0, N)`. -/
theorem get_event_type_spec (s : Sys) (hG : Geometry s) (hB : SpinsBinary s) (i j : Int)
    (hi0 : 0 ≤ i) (hi1 : i < s.dim0) (hj0 : 0 ≤ j) (hj1 : j < s.dim1) :
    get_event_type s i j
        = some (neighbor_sum_spec s i j + 5 * s.spin (idx2_to_idx1 s i j)) ∧
      0 ≤ neighbor_sum_spec s i j + 5 * s.spin (idx2_to_idx1 s i j) ∧
      neighbor_sum_spec s i j + 5 * s.spin (idx2_to_idx1 s i j) ≤ 9 ∧
      (neighbor_sum_spec s i j + 5 * s.spin (idx2_to_idx1 s i j)) % 5
        = neighbor_sum_spec s i j ∧
      (neighbor_sum_spec s i j + 5 * s.spin (idx2_to_idx1 s i j)) / 5
        = s.spin (idx2_to_idx1 s i j) ∧
      (0 ≤ idx2_to_idx1 s (i_next s i) j ∧ idx2_to_idx1 s (i_next s i) j < s.N) ∧
      (0 ≤ idx2_to_idx1 s (i_prev s i) j ∧ idx2_to_idx1 s (i_prev s i) j < s.N) ∧
      (0 ≤ idx2_to_idx1 s i (j_next s j) ∧ idx2_to_idx1 s i (j_next s j) < s.N) ∧
      (0 ≤ idx2_to_idx1 s i (j_prev s j) ∧ idx2_to_idx1 s i (j_prev s j) < s.N) ∧
      (0 ≤ idx2_to_idx1 s i j ∧ idx2_to_idx1 s i j < s.N) := by
  have a := i_next_range s i hi0 hi1
  have b := i_prev_range s i hi0 hi1
  have c := j_next_range s j hj0 hj1
  have d := j_prev_range s j hj0 hj1
  have ra := idx_in_range s hG _ j a.1 a.2 hj0 hj1
  have rb := idx_in_range s hG _ j b.1 b.2 hj0 hj1
  have rc := idx_in_range s hG i _ hi0 hi1 c.1 c.2
  have rd' := idx_in_range s hG i _ hi0 hi1 d.1 d.2
  have re := idx_in_range s hG i j hi0 hi1 hj0 hj1
  have sa := hB _ ra.1 ra.2
  have sb := hB _ rb.1 rb.2
  have sc := hB _ rc.1 rc.2
  have sd := hB _ rd'.1 rd'.2
  have se := hB _ re.1 re.2
  have hval : event_type_value s i j
      = neighbor_sum_spec s i j + 5 * s.spin (idx2_to_idx1 s i j) := by
    unfold event_type_value neighbor_sum_spec
    rw [← i_next_mod s i hi0 hi1, ← i_prev_mod s i hi0 hi1, ← j_next_mod s j hj0 hj1,
      ← j_prev_mod s j hj0 hj1]
    rcases sa with sa | sa <;> rcases sb with sb | sb <;> rcases sc with sc | sc <;>
      rcases sd with sd | sd <;> rw [sa, sb, sc, sd] <;> simp <;> ring
  have hns : 0 ≤ neighbor_sum_spec s i j ∧ neighbor_sum_spec s i j ≤ 4 := by
    unfold neighbor_sum_spec
    constructor <;> split_ifs <;> omega
  refine ⟨?_, by omega, by omega, by omega, by omega, ra, rb, rc, rd', re⟩
  rw [get_event_type_eq s hG i j hi0 hi1 hj0 hj1, hval]

/-- Witness for C5: site `(0, 0)` of the 2 x 2 all-up state has type 9. -/
theorem get_event_type_spec_witness :
    get_event_type allUp 0 0 = some (neighbor_sum_spec allUp 0 0 + 5 * allUp.spin 0) ∧
      neighbor_sum_spec allUp 0 0 + 5 * allUp.spin 0 = 9 :=
  ⟨(get_event_type_spec allUp allUp_geometry allUp_spinsBinary 0 0 (by decide) (by decide)
    (by decide) (by decide)).1, by decide⟩

/-! ## Event-type selection -/

theorem choose_loop_range {K : Type} [LinearOrderedField K] (rate : Int → K)
    (n_events : Int → Int) (p : K) :
    ∀ (k i : Nat) (asum : K), i + k = 10 →
      0 ≤ choose_loop rate n_events p k (i : Int) asum ∧
        choose_loop rate n_events p k (i : Int) asum ≤ 9 := by
  intro k
  induction k with
  | zero =>
    intro i asum _
    show (0 : Int) ≤ n_event_types - 1 ∧ n_event_types - 1 ≤ (9 : Int)
    unfold n_event_types
    omega
  | succ k ih =>
    intro i asum hik
    show 0 ≤ (if p ≤ asum + rate (i : Int) * ((n_events (i : Int) : Int) : K) then (i : Int)
        else choose_loop rate n_events p k ((i : Int) + 1) _) ∧
      (if p ≤ asum + rate (i : Int) * ((n_events (i : Int) : Int) : K) then (i : Int)
        else choose_loop rate n_events p k ((i : Int) + 1) _) ≤ 9
    split_ifs
    · omega
    · exact_mod_cast ih (i + 1) _ (by omega)

theorem choose_loop_none {K : Type} [LinearOrderedField K] (rate : Int → K)
    (n_events : Int → Int) (p : K) :
    ∀ (k i : Nat),
      (∀ t : Nat, i ≤ t → t < i + k → cum_rate rate n_events t < p) →
      choose_loop rate n_events p k (i : Int)
        (∑ u ∈ Finset.range i, rate (u : Int) * ((n_events (u : Int) : Int) : K)) = 9 := by
  intro k
  induction k with
  | zero => intro i _; rfl
  | succ k ih =>
    intro i h
    show (if p ≤ _ + rate (i : Int) * ((n_events (i : Int) : Int) : K) then (i : Int)
        else choose_loop rate n_events p k ((i : Int) + 1) _) = 9
    rw [← Finset.sum_range_succ]
    have hi := h i (by omega) (by omega)
    unfold cum_rate at hi
    rw [if_neg (not_le.mpr hi)]
    exact_mod_cast ih (i + 1) (fun t ht0 ht1 => h t (by omega) (by omega))

theorem choose_loop_first {K : Type} [LinearOrderedField K] (rate : Int → K)
    (n_events : Int → Int) (p : K) :
    ∀ (k i t : Nat), i ≤ t → t < i + k → p ≤ cum_rate rate n_events t →
      (∀ u : Nat, i ≤ u → u < t → cum_rate rate n_events u < p) →
      choose_loop rate n_events p k (i : Int)
        (∑ u ∈ Finset.range i, rate (u : Int) * ((n_events (u : Int) : Int) : K)) = t := by
  intro k
  induction k with
  | zero => intro i t h1 h2; omega
  | succ k ih =>
    intro i t hit htk hp hmin
    show (if p ≤ _ + rate (i : Int) * ((n_events (i : Int) : Int) : K) then (i : Int)
        else choose_loop rate n_events p k ((i : Int) + 1) _) = t
    rw [← Finset.sum_range_succ]
    by_cases hti : t = i
    · subst hti
      unfold cum_rate at hp
      rw [if_pos hp]
    · have hi := hmin i (by omega) (by omega)
      unfold cum_rate at hi
      rw [if_neg (not_le.mpr hi)]
      exact_mod_cast ih (i + 1) t (by omega) (by omega) hp
        (fun u hu0 hu1 => hmin u (by omega) hu1)

/-- C6: with exact arithmetic, the event type chosen by the selection loop of
`kmc` lies in `0..9`; it is the smallest `t` in `0..9` whose prefix sum
`rate[0]*n_events[0] + ... + rate[t]*n_events[t]` is at least `p`, and it is 9
when no prefix sum reaches `p`. -/
theorem chosen_event_type_spec {K : Type} [LinearOrderedField K] (rate : Int → K)
    (n_events : Int → Int) (p : K) :
    (0 ≤ chosen_event_type rate n_events p ∧ chosen_event_type rate n_events p ≤ 9) ∧
      (∀ t : Nat, t < 10 → p ≤ cum_rate rate n_events t →
        (∀ u : Nat, u < t → cum_rate rate n_events u < p) →
        chosen_event_type rate n_events p = t) ∧
      ((∀ t : Nat, t < 10 → cum_rate rate n_events t < p) →
        chosen_event_type rate n_events p = 9) := by
  refine ⟨?_, ?_, ?_⟩
  · have := choose_loop_range rate n_events p 10 0 0 rfl
    exact this
  · intro t ht hp hmin
    have := choose_loop_first rate n_events p 10 0 t (by omega) (by omega) hp
      (fun u _ hu => hmin u hu)
    simpa using this
  · intro h
    have := choose_loop_none rate n_events p 10 0 (fun t _ ht => h t (by omega))
    simpa using this

/-- Witness for C6: with all rates one half and bucket sizes `0, ..., 0, 4`,
the threshold 1 is first reached by the prefix sum at type 9. -/
theorem chosen_event_type_spec_witness :
    chosen_event_type halfRates allUp.n_events 1 = 9 := by
  have h := (chosen_event_type_spec halfRates allUp.n_events 1).2.1 9 (by decide)
    (by
      simp [cum_rate, halfRates, allUp, Finset.sum_range_succ]
      norm_num)
    (by
      intro u hu
      interval_cases u <;> simp [cum_rate, halfRates, allUp, Finset.sum_range_succ])
  exact_mod_cast h

/-! ## Frame of the catalog operations -/

theorem remove_event_frame (s s' : Sys) (idx : Int) (h : remove_event s idx = some s') :
    s'.spin = s.spin ∧ s'.dim0 = s.dim0 ∧ s'.dim1 = s.dim1 ∧ s'.N = s.N := by
  unfold remove_event at h
  simp only [Option.bind_eq_bind, Option.bind_eq_some, Option.pure_def,
    Option.some.injEq] at h
  obtain ⟨_, _, _, _, _, _, _, _, _, _, _, _, _, _, rfl⟩ := h
  exact ⟨rfl, rfl, rfl, rfl⟩

theorem insert_event_frame (s s' : Sys) (t idx : Int) (h : insert_event s t idx = some s') :
    s'.spin = s.spin ∧ s'.dim0 = s.dim0 ∧ s'.dim1 = s.dim1 ∧ s'.N = s.N := by
  unfold insert_event at h
  simp only [Option.bind_eq_bind, Option.bind_eq_some, Option.pure_def,
    Option.some.injEq] at h
  obtain ⟨_, _, _, _, _, _, _, _, _, _, rfl⟩ := h
  exact ⟨rfl, rfl, rfl, rfl⟩

theorem fix_events_frame (s s' : Sys) (i j : Int) (h : fix_events s i j = some s') :
    s'.spin = s.spin ∧ s'.dim0 = s.dim0 ∧ s'.dim1 = s.dim1 ∧ s'.N = s.N := by
  unfold fix_events at h
  simp only [Option.bind_eq_bind, Option.bind_eq_some] at h
  obtain ⟨s1, h1, t, _, h3⟩ := h
  obtain ⟨a1, a2, a3, a4⟩ := remove_event_frame s s1 _ h1
  have hidx : idx2_to_idx1 s i j = idx2_to_idx1 s i j := rfl
  obtain ⟨b1, b2, b3, b4⟩ := insert_event_frame s1 s' _ _ h3
  exact ⟨b1.trans a1, b2.trans a2, b3.trans a3, b4.trans a4⟩

theorem kmc_update_spin (s s' : Sys) (idx : Int) (h : kmc_update s idx = some s') :
    s'.spin = Function.update s.spin idx (1 - s.spin idx) ∧ s'.N = s.N := by
  unfold kmc_update at h
  simp only [Option.bind_eq_bind, Option.bind_eq_some] at h
  obtain ⟨⟨i, j⟩, _, old, hold, sp, hsp, s1, h1, s2, h2, s3, h3, s4, h4, h5⟩ := h
  obtain ⟨-, -, hold⟩ := rd_eq_some hold
  obtain ⟨-, -, hsp⟩ := wr_eq_some hsp
  obtain ⟨a1, -, -, a4⟩ := fix_events_frame _ _ _ _ h1
  obtain ⟨b1, -, -, b4⟩ := fix_events_frame _ _ _ _ h2
  obtain ⟨c1, -, -, c4⟩ := fix_events_frame _ _ _ _ h3
  obtain ⟨d1, -, -, d4⟩ := fix_events_frame _ _ _ _ h4
  obtain ⟨e1, -, -, e4⟩ := fix_events_frame _ _ _ _ h5
  refine ⟨?_, ?_⟩
  · rw [e1, d1, c1, b1, a1, hsp, hold]
  · rw [e4, d4, c4, b4, a4]

/-! ## Site selection -/

theorem chosen_zero_of_zero_draw {K : Type} [LinearOrderedField K] (rate : Int → K)
    (n_events : Int → Int) (RAND_MAX : Int) (total : K)
    (h : 0 ≤ rate 0 * ((n_events 0 : Int) : K)) :
    chosen_event_type rate n_events (((0 : Int) : K) / ((RAND_MAX : Int) : K) * total) = 0 := by
  show (if ((0 : Int) : K) / ((RAND_MAX : Int) : K) * total
      ≤ 0 + rate 0 * ((n_events 0 : Int) : K) then (0 : Int) else _) = 0
  rw [if_pos]
  simpa using h

theorem kmc_select_zero_draw {K : Type} [LinearOrderedField K] (RAND_MAX : Int)
    (rate : Int → K) (s : Sys) (r2 : Int) (h : s.n_events 0 = 0) :
    kmc_select RAND_MAX rate s 0 r2 = none := by
  have hc := chosen_zero_of_zero_draw rate s.n_events RAND_MAX (total_rate rate s.n_events)
    (by rw [h]; simp)
  unfold kmc_select
  simp only [hc, Option.bind_eq_bind]
  rw [rd_some (by decide) (by decide), h]
  rfl

theorem total_rate_eq_sum {K : Type} [LinearOrderedField K] (rate : Int → K)
    (n_events : Int → Int) :
    total_rate rate n_events
      = ∑ i ∈ Finset.range 10, rate (i : Int) * ((n_events (i : Int) : Int) : K) := by
  unfold total_rate
  rw [show n_event_types.toNat = 10 from rfl]
  simp [List.range_succ, Finset.sum_range_succ]

/-- Away from the zero draw the selection is sound: with non-negative bucket
sizes and a threshold `0 < p <= total_rate`, the chosen bucket is non-empty. -/
theorem chosen_bucket_nonempty_of_pos {K : Type} [LinearOrderedField K] (rate : Int → K)
    (n_events : Int → Int) (p : K) (hn : ∀ t, 0 ≤ t → t < 10 → 0 ≤ n_events t)
    (hp : 0 < p) (hle : p ≤ total_rate rate n_events) :
    0 < n_events (chosen_event_type rate n_events p) := by
  have hex : ∃ t : Nat, t < 10 ∧ p ≤ cum_rate rate n_events t :=
    ⟨9, by decide, by rw [total_rate_eq_sum] at hle; exact hle⟩
  obtain ⟨ht, htp⟩ := Nat.find_spec hex
  have hmin : ∀ u : Nat, u < Nat.find hex → cum_rate rate n_events u < p := by
    intro u hu
    have := Nat.find_min hex hu
    rw [not_and] at this
    exact not_le.mp (this (by omega))
  have hc := choose_loop_first rate n_events p 10 0 (Nat.find hex) (by omega) (by omega) htp
    (fun u _ hu => hmin u hu)
  have hc : chosen_event_type rate n_events p = (Nat.find hex : Int) := by simpa using hc
  rw [hc]
  have hpos : 0 < rate (Nat.find hex : Int) * ((n_events (Nat.find hex : Int) : Int) : K) := by
    cases hf : Nat.find hex with
    | zero =>
      rw [hf] at htp
      have : cum_rate rate n_events 0 = rate 0 * ((n_events 0 : Int) : K) := by
        simp [cum_rate]
      rw [this] at htp
      exact_mod_cast lt_of_lt_of_le hp htp
    | succ u =>
      rw [hf] at htp
      have h1 := hmin u (by omega)
      have : cum_rate rate n_events (u + 1)
          = cum_rate rate n_events u
            + rate ((u + 1 : Nat) : Int) * ((n_events ((u + 1 : Nat) : Int) : Int) : K) := by
        unfold cum_rate
        rw [Finset.sum_range_succ]
      rw [this] at htp
      have h2 := lt_of_lt_of_le h1 htp
      exact_mod_cast (lt_add_iff_pos_right _).mp h2
  have hn0 := hn (Nat.find hex : Int) (by omega) (by omega)
  rcases eq_or_lt_of_le hn0 with h0 | h0
  · rw [← h0] at hpos
    simp at hpos
  · exact h0

/-- C7 (the code at the failing input): after `init_system(2, 2)` and
`set_spin([1, 1, 1, 1])` the catalog invariants hold, all four sites are in
bucket 9 and the total rate for the rate table of `set_param(0, 0, 1)` is
positive; when the first `rand()` of `kmc` returns 0 the threshold is 0, the
selection loop stops at type 0, whose bucket is empty, and the step fails on
`rand() % 0`. -/
theorem kmc_zero_draw_selects_empty_bucket :
    ∃ s, scenario = some s ∧ Geometry s ∧ SpinsBinary s ∧ CountsNonneg s ∧ LiveValid s ∧
      SiteConsistent s ∧ 1 ≤ s.N ∧ (∀ t, 0 ≤ halfRates t) ∧
      0 < total_rate halfRates s.n_events ∧
      chosen_event_type halfRates s.n_events
        (((0 : Int) : ℚ) / ((RAND_MAX_usual : Int) : ℚ) * total_rate halfRates s.n_events) = 0 ∧
      s.n_events 0 = 0 ∧
      ∀ (log : ℚ → ℚ) (r2 r3 : Int), kmc RAND_MAX_usual log halfRates s 0 r2 r3 = none := by
  have hrun : (match scenario with
      | some s => decide (s.n_events 0 = 0 ∧ s.n_events 1 = 0 ∧ s.n_events 2 = 0 ∧
          s.n_events 3 = 0 ∧ s.n_events 4 = 0 ∧ s.n_events 5 = 0 ∧ s.n_events 6 = 0 ∧
          s.n_events 7 = 0 ∧ s.n_events 8 = 0 ∧ s.n_events 9 = 4 ∧ s.N = 4)
      | none => false) = true := by decide!
  have hG : Geometry (loaded (init_system 2 2 (fun _ => 0) (fun _ => 0) (fun _ _ => 0)
      (fun _ => 0) (fun _ => 0)) (fun _ => 1)) := ⟨by decide, by decide, by decide⟩
  have hB0 : SpinsBinary (loaded (init_system 2 2 (fun _ => 0) (fun _ => 0) (fun _ _ => 0)
      (fun _ => 0) (fun _ => 0)) (fun _ => 1)) := by
    intro x hx0 hx1
    right
    show (if 0 ≤ x ∧ x < 2 * 2 then (1 : Int) else 0) = 1
    rw [if_pos ⟨hx0, hx1⟩]
  obtain ⟨s, e, hI⟩ := init_events_initInv _ hG hB0
  have e : scenario = some s := e
  rw [e] at hrun
  obtain ⟨h0, h1, h2, h3, h4, h5, h6, h7, h8, h9, hN⟩ := of_decide_eq_true hrun
  obtain ⟨hsp, hG', hS, hSC⟩ := initInv_final _ hG s hI
  have hB : SpinsBinary s := by
    intro x hx0 hx1
    rw [hsp]
    exact hB0 x hx0 (by rw [← hI.2.2.2.1]; exact hx1)
  refine ⟨s, e, hG', hB, hS.1, hS.2.2, hSC, by omega, fun _ => by unfold halfRates; norm_num,
    ?_, ?_, h0, ?_⟩
  · rw [total_rate_eq_sum]
    simp [Finset.sum_range_succ, h0, h1, h2, h3, h4, h5, h6, h7, h8, h9, halfRates]
  · exact chosen_zero_of_zero_draw halfRates s.n_events RAND_MAX_usual _ (by rw [h0]; simp)
  · intro log r2 r3
    unfold kmc
    simp only [Option.bind_eq_bind]
    rw [kmc_select_zero_draw RAND_MAX_usual halfRates s r2 h0]
    rfl

/-! ## The flip -/

theorem kmc_select_eq {K : Type} [LinearOrderedField K] (RAND_MAX : Int) (rate : Int → K)
    (s : Sys) (r1 r2 : Int) (hLV : LiveValid s) (hN : 0 ≤ s.N) (hr2 : 0 ≤ r2)
    (hne : 0 < s.n_events (chosen_event_type rate s.n_events
      ((r1 : K) / (RAND_MAX : K) * total_rate rate s.n_events))) :
    ∃ idx, kmc_select RAND_MAX rate s r1 r2 = some idx ∧ 0 ≤ idx ∧ idx < s.N ∧
      ∃ k, 0 ≤ k ∧
        k < s.n_events (chosen_event_type rate s.n_events
          ((r1 : K) / (RAND_MAX : K) * total_rate rate s.n_events)) ∧
        s.event_pos (chosen_event_type rate s.n_events
          ((r1 : K) / (RAND_MAX : K) * total_rate rate s.n_events)) k = idx := by
  generalize hc : chosen_event_type rate s.n_events
      ((r1 : K) / (RAND_MAX : K) * total_rate rate s.n_events) = c at hne
  have hrange : 0 ≤ c ∧ c ≤ 9 := by
    rw [← hc]
    exact choose_loop_range rate s.n_events _ 10 0 0 rfl
  have hle := bucket_le_N s hLV hN c hrange.1 (by omega)
  have hk0 : 0 ≤ Int.tmod r2 (s.n_events c) := by
    rw [Int.tmod_eq_emod hr2 (by omega)]
    exact Int.emod_nonneg _ (by omega)
  have hk1 : Int.tmod r2 (s.n_events c) < s.n_events c := by
    rw [Int.tmod_eq_emod hr2 (by omega)]
    exact Int.emod_lt_of_pos _ hne
  obtain ⟨e0, e1, -, -⟩ := hLV c _ hrange.1 (by omega) hk0 hk1
  refine ⟨s.event_pos c (Int.tmod r2 (s.n_events c)), ?_, e0, e1, _, hk0, hk1, rfl⟩
  unfold kmc_select
  simp only [hc, Option.bind_eq_bind]
  rw [rd_some hrange.1 (show c < n_event_types by unfold n_event_types; omega)]
  simp only [Option.some_bind]
  rw [if_neg (by omega)]
  exact rd2_some hrange.1 (by omega) hk0 (by omega)

/-- C8: in a state with binary spins, whenever `kmc` returns, the site `idx` it
selected has its spin replaced by one minus the old value, every other spin is
unchanged and all spins are still binary; and `kmc` does return when the
catalog invariants hold, the chosen bucket is non-empty and the second
`rand()` output is non-negative. -/
theorem kmc_flips_selected_site {K : Type} [LinearOrderedField K] (RAND_MAX : Int)
    (log : K → K) (rate : Int → K) (s : Sys) (r1 r2 r3 : Int) (hB : SpinsBinary s) :
    (∀ s' dt, kmc RAND_MAX log rate s r1 r2 r3 = some (s', dt) →
      ∃ idx, kmc_select RAND_MAX rate s r1 r2 = some idx ∧
        s'.spin idx = 1 - s.spin idx ∧ (∀ x, x ≠ idx → s'.spin x = s.spin x) ∧
        s'.N = s.N ∧ SpinsBinary s') ∧
      (Geometry s → CountsNonneg s → LiveValid s → SiteConsistent s → 0 ≤ r2 →
        0 < s.n_events (chosen_event_type rate s.n_events
          ((r1 : K) / (RAND_MAX : K) * total_rate rate s.n_events)) →
        ∃ s' dt, kmc RAND_MAX log rate s r1 r2 r3 = some (s', dt)) := by
  constructor
  · intro s' dt h
    unfold kmc at h
    simp only [Option.bind_eq_bind, Option.bind_eq_some, Option.pure_def, Option.some.injEq,
      Prod.mk.injEq] at h
    obtain ⟨idx, hsel, s1, hup, rfl, -⟩ := h
    obtain ⟨hsp, hN⟩ := kmc_update_spin s s1 idx hup
    refine ⟨idx, hsel, ?_, ?_, hN, ?_⟩
    · rw [hsp, Function.update_same]
    · intro x hx
      rw [hsp, Function.update_noteq hx]
    · intro x hx0 hx1
      rw [hsp, Function.update_apply]
      rw [hN] at hx1
      split_ifs with he
      · have := hB idx (by omega) (by omega)
        omega
      · exact hB x hx0 hx1
  · intro hG hC hLV hSC hr2 hne
    obtain ⟨idx, hsel, h0, h1, -⟩ := kmc_select_eq RAND_MAX rate s r1 r2 hLV
      (geometry_N_nonneg s hG) hr2 hne
    obtain ⟨e, -⟩ := kmc_update_inv s idx hG hB hC hLV hSC h0 h1
    refine ⟨updated s (idx / s.dim1) (idx % s.dim1),
      -log ((r3 : K) / (RAND_MAX : K)) / total_rate rate s.n_events, ?_⟩
    unfold kmc
    simp only [Option.bind_eq_bind, hsel, Option.some_bind, e]
    rfl

theorem allUp_chosen_full_draw :
    chosen_event_type halfRates allUp.n_events
      (((RAND_MAX_usual : Int) : ℚ) / ((RAND_MAX_usual : Int) : ℚ)
        * total_rate halfRates allUp.n_events) = 9 := by
  have h := choose_loop_first halfRates allUp.n_events
    (((RAND_MAX_usual : Int) : ℚ) / ((RAND_MAX_usual : Int) : ℚ)
        * total_rate halfRates allUp.n_events) 10 0 9 (by decide) (by decide)
    (by
      rw [total_rate_eq_sum]
      simp [cum_rate, halfRates, allUp, Finset.sum_range_succ, RAND_MAX_usual])
    (by
      intro u _ hu
      rw [total_rate_eq_sum]
      interval_cases u <;>
        simp [cum_rate, halfRates, allUp, Finset.sum_range_succ, RAND_MAX_usual])
  simpa using h

/-- Witness for C8: on the 2 x 2 all-up state with draws `RAND_MAX, 0, 1` the
step selects site 0 from bucket 9 and flips it to 0, leaving site 1 up. -/
theorem kmc_flips_selected_site_witness :
    ∃ s' dt, kmc RAND_MAX_usual (fun _ => (0 : ℚ)) halfRates allUp RAND_MAX_usual 0 1
        = some (s', dt) ∧ s'.spin 0 = 0 ∧ s'.spin 1 = 1 := by
  have hthm := kmc_flips_selected_site RAND_MAX_usual (fun _ => (0 : ℚ)) halfRates allUp
    RAND_MAX_usual 0 1 allUp_spinsBinary
  obtain ⟨s', dt, e⟩ := hthm.2 allUp_geometry allUp_countsNonneg allUp_liveValid
    allUp_siteConsistent (by decide) (by rw [allUp_chosen_full_draw]; decide)
  obtain ⟨idx, hsel, h1, h2, -, -⟩ := hthm.1 s' dt e
  have hidx : idx = 0 := by
    unfold kmc_select at hsel
    simp only [allUp_chosen_full_draw, Option.bind_eq_bind] at hsel
    rw [rd_some (by decide) (by decide)] at hsel
    simp only [Option.some_bind] at hsel
    rw [if_neg (by decide)] at hsel
    have h3 : rd2 allUp.N allUp.event_pos 9 (Int.tmod 0 (allUp.n_events 9)) = some 0 := by
      decide
    rw [h3] at hsel
    exact (Option.some.inj hsel).symm
  subst hidx
  refine ⟨s', dt, e, ?_, ?_⟩
  · rw [h1]; rfl
  · rw [h2 1 (by decide)]; rfl

/-! ## Frame driver -/

theorem next_frame_done {σ K : Type} [LinearOrderedField K] (step : σ → Option (σ × K))
    (fuel : Nat) (s : σ) (t tpf : K) (h : tpf ≤ t) :
    next_frame step fuel s t tpf = some (s, t - tpf) := by
  cases fuel with
  | zero => show (if t < tpf then none else some (s, t - tpf)) = _; rw [if_neg (not_lt.mpr h)]
  | succ n =>
    show (if t < tpf then _ else some (s, t - tpf)) = _
    rw [if_neg (not_lt.mpr h)]

theorem next_frame_sound {σ K : Type} [LinearOrderedField K] (step : σ → Option (σ × K)) :
    ∀ (fuel : Nat) (s : σ) (t tpf : K) (s' : σ) (r : K),
      next_frame step fuel s t tpf = some (s', r) →
      ∃ k tk, k ≤ fuel ∧ run_steps step k s t = some (s', tk) ∧ tpf ≤ tk ∧ r = tk - tpf ∧
        ∀ j sj tj, j < k → run_steps step j s t = some (sj, tj) → tj < tpf := by
  intro fuel
  induction fuel with
  | zero =>
    intro s t tpf s' r h
    have h : (if t < tpf then none else some (s, t - tpf)) = some (s', r) := h
    split_ifs at h with hlt
    obtain ⟨rfl, rfl⟩ := Prod.mk.inj (Option.some.inj h)
    exact ⟨0, t, le_refl _, rfl, not_lt.mp hlt, rfl, fun j _ _ hj => absurd hj (by omega)⟩
  | succ n ih =>
    intro s t tpf s' r h
    by_cases hlt : t < tpf
    · cases hs : step s with
      | none =>
        have h : (if t < tpf then (match step s with
            | none => none
            | some (s1, dt) => next_frame step n s1 (t + dt) tpf)
            else some (s, t - tpf)) = some (s', r) := h
        rw [if_pos hlt, hs] at h
        cases h
      | some p =>
        obtain ⟨s1, dt⟩ := p
        have h : (if t < tpf then (match step s with
            | none => none
            | some (s1, dt) => next_frame step n s1 (t + dt) tpf)
            else some (s, t - tpf)) = some (s', r) := h
        rw [if_pos hlt, hs] at h
        obtain ⟨k, tk, hk, hrun, hge, hr, hmin⟩ := ih s1 (t + dt) tpf s' r h
        refine ⟨k + 1, tk, by omega, ?_, hge, hr, ?_⟩
        · show (match step s with
            | none => none
            | some (s1, dt) => run_steps step k s1 (t + dt)) = _
          rw [hs]
          exact hrun
        · intro j sj tj hj hrj
          cases j with
          | zero =>
            obtain ⟨-, rfl⟩ := Prod.mk.inj (Option.some.inj hrj)
            exact hlt
          | succ j =>
            have hrj : (match step s with
              | none => none
              | some (s1, dt) => run_steps step j s1 (t + dt)) = some (sj, tj) := hrj
            rw [hs] at hrj
            exact hmin j sj tj (by omega) hrj
    · rw [next_frame_done step (n + 1) s t tpf (not_lt.mp hlt)] at h
      obtain ⟨rfl, rfl⟩ := Prod.mk.inj (Option.some.inj h)
      exact ⟨0, t, by omega, rfl, not_lt.mp hlt, rfl, fun j _ _ hj => absurd hj (by omega)⟩

theorem next_frame_complete {σ K : Type} [LinearOrderedField K] (step : σ → Option (σ × K)) :
    ∀ (k : Nat) (s : σ) (t tpf : K) (s' : σ) (tk : K),
      run_steps step k s t = some (s', tk) → tpf ≤ tk →
      (∀ j sj tj, j < k → run_steps step j s t = some (sj, tj) → tj < tpf) →
      ∀ fuel, k ≤ fuel → next_frame step fuel s t tpf = some (s', tk - tpf) := by
  intro k
  induction k with
  | zero =>
    intro s t tpf s' tk hrun hge _ fuel _
    obtain ⟨rfl, rfl⟩ := Prod.mk.inj (Option.some.inj hrun)
    exact next_frame_done step fuel s t tpf hge
  | succ k ih =>
    intro s t tpf s' tk hrun hge hmin fuel hfuel
    have hlt : t < tpf := hmin 0 s t (by omega) rfl
    cases fuel with
    | zero => omega
    | succ n =>
      have hrun : (match step s with
        | none => none
        | some (s1, dt) => run_steps step k s1 (t + dt)) = some (s', tk) := hrun
      show (if t < tpf then (match step s with
          | none => none
          | some (s1, dt) => next_frame step n s1 (t + dt) tpf)
          else some (s, t - tpf)) = _
      rw [if_pos hlt]
      cases hs : step s with
      | none => rw [hs] at hrun; cases hrun
      | some p =>
        obtain ⟨s1, dt⟩ := p
        rw [hs] at hrun
        show next_frame step n s1 (t + dt) tpf = _
        refine ih s1 (t + dt) tpf s' tk hrun hge (fun j sj tj hj hrj => ?_) n (by omega)
        refine hmin (j + 1) sj tj (by omega) ?_
        show (match step s with
          | none => none
          | some (s1, dt) => run_steps step j s1 (t + dt)) = _
        rw [hs]
        exact hrj

/-- C9: with exact time arithmetic, (1) if `t >= time_per_frame` then
`next_frame` takes no step, leaves the state unchanged and returns
`t - time_per_frame`; (2) whenever the loop exits, it does so after the least
number `k` of steps with `t + dt_1 + ... + dt_k >= time_per_frame`, in the state
reached by these `k` steps, and returns that sum minus `time_per_frame`, which
is non-negative; (3) conversely, if such a least `k` exists, the loop exits
with that result given fuel for `k` steps. -/
theorem next_frame_spec {σ K : Type} [LinearOrderedField K] (step : σ → Option (σ × K))
    (s : σ) (t tpf : K) :
    (tpf ≤ t → ∀ fuel, next_frame step fuel s t tpf = some (s, t - tpf)) ∧
      (∀ fuel s' r, next_frame step fuel s t tpf = some (s', r) →
        ∃ k tk, k ≤ fuel ∧ run_steps step k s t = some (s', tk) ∧ tpf ≤ tk ∧
          (∀ j sj tj, j < k → run_steps step j s t = some (sj, tj) → tj < tpf) ∧
          r = tk - tpf ∧ 0 ≤ r) ∧
      (∀ k s' tk, run_steps step k s t = some (s', tk) → tpf ≤ tk →
        (∀ j sj tj, j < k → run_steps step j s t = some (sj, tj) → tj < tpf) →
        ∀ fuel, k ≤ fuel → next_frame step fuel s t tpf = some (s', tk - tpf)) := by
  refine ⟨fun h fuel => next_frame_done step fuel s t tpf h, ?_, ?_⟩
  · intro fuel s' r h
    obtain ⟨k, tk, hk, hrun, hge, hr, hmin⟩ := next_frame_sound step fuel s t tpf s' r h
    exact ⟨k, tk, hk, hrun, hge, hmin, hr, by rw [hr]; exact sub_nonneg.mpr hge⟩
  · intro k s' tk hrun hge hmin fuel hfuel
    exact next_frame_complete step k s t tpf s' tk hrun hge hmin fuel hfuel

theorem kmc_eq {K : Type} [LinearOrderedField K] (RAND_MAX : Int) (log : K → K)
    (rate : Int → K) (s : Sys) (r1 r2 r3 c : Int) (hG : Geometry s) (hB : SpinsBinary s)
    (hC : CountsNonneg s) (hLV : LiveValid s) (hSC : SiteConsistent s) (hr2 : 0 ≤ r2)
    (hc : chosen_event_type rate s.n_events
      ((r1 : K) / (RAND_MAX : K) * total_rate rate s.n_events) = c)
    (hne : 0 < s.n_events c) :
    kmc RAND_MAX log rate s r1 r2 r3
      = some (updated s (s.event_pos c (Int.tmod r2 (s.n_events c)) / s.dim1)
          (s.event_pos c (Int.tmod r2 (s.n_events c)) % s.dim1),
        -log ((r3 : K) / (RAND_MAX : K)) / total_rate rate s.n_events) := by
  have hrange : 0 ≤ c ∧ c ≤ 9 := by
    rw [← hc]
    exact choose_loop_range rate s.n_events _ 10 0 0 rfl
  have hle := bucket_le_N s hLV (geometry_N_nonneg s hG) c hrange.1 (by omega)
  have hk0 : 0 ≤ Int.tmod r2 (s.n_events c) := by
    rw [Int.tmod_eq_emod hr2 (by omega)]
    exact Int.emod_nonneg _ (by omega)
  have hk1 : Int.tmod r2 (s.n_events c) < s.n_events c := by
    rw [Int.tmod_eq_emod hr2 (by omega)]
    exact Int.emod_lt_of_pos _ hne
  obtain ⟨e0, e1, -, -⟩ := hLV c _ hrange.1 (by omega) hk0 hk1
  obtain ⟨e, -⟩ := kmc_update_inv s _ hG hB hC hLV hSC e0 e1
  have hsel : kmc_select RAND_MAX rate s r1 r2
      = some (s.event_pos c (Int.tmod r2 (s.n_events c))) := by
    unfold kmc_select
    simp only [hc, Option.bind_eq_bind]
    rw [rd_some hrange.1 (show c < n_event_types by unfold n_event_types; omega)]
    simp only [Option.some_bind]
    rw [if_neg (by omega)]
    exact rd2_some hrange.1 (by omega) hk0 (by omega)
  unfold kmc
  simp only [Option.bind_eq_bind, hsel, Option.some_bind, e]
  rfl

/-- Witness for C9: on the 2 x 2 all-up state with rates one half, `log`
constantly `-1` and the draws `RAND_MAX, 0, 1`, one `kmc` step takes time
`1/2`; from `t = 0` with `time_per_frame = 1/4` the loop exits after that one
step and returns `1/2 - 1/4`. -/
theorem next_frame_spec_witness :
    next_frame (kmc_step RAND_MAX_usual (fun _ => (-1 : ℚ)) halfRates sampleRand) 1
        (allUp, 0) 0 (1 / 4)
      = some ((updated allUp 0 0, 3), 1 / 2 - 1 / 4) := by
  have hstep : kmc_step RAND_MAX_usual (fun _ => (-1 : ℚ)) halfRates sampleRand (allUp, 0)
      = some ((updated allUp 0 0, 3), 1 / 2) := by
    unfold kmc_step
    have h := kmc_eq RAND_MAX_usual (fun _ => (-1 : ℚ)) halfRates allUp RAND_MAX_usual 0 1 9
      allUp_geometry allUp_spinsBinary allUp_countsNonneg allUp_liveValid allUp_siteConsistent
      (by decide) allUp_chosen_full_draw (by decide)
    have h' : kmc RAND_MAX_usual (fun _ => (-1 : ℚ)) halfRates allUp (sampleRand 0)
        (sampleRand (0 + 1)) (sampleRand (0 + 2))
        = some (updated allUp 0 0, 1 / 2) := by
      rw [show sampleRand 0 = RAND_MAX_usual from rfl, show sampleRand (0 + 1) = 0 from rfl,
        show sampleRand (0 + 2) = 1 from rfl, h]
      congr 2
      rw [total_rate_eq_sum]
      simp [Finset.sum_range_succ, halfRates, allUp]
      norm_num
    show (kmc RAND_MAX_usual (fun _ => (-1 : ℚ)) halfRates allUp (sampleRand 0)
        (sampleRand (0 + 1)) (sampleRand (0 + 2))).map _ = _
    rw [h']
    rfl
  have hrun : run_steps (kmc_step RAND_MAX_usual (fun _ => (-1 : ℚ)) halfRates sampleRand) 1
      (allUp, 0) 0 = some ((updated allUp 0 0, 3), 0 + 1 / 2) := by
    rw [run_steps, hstep]
    rfl
  have h := (next_frame_spec (kmc_step RAND_MAX_usual (fun _ => (-1 : ℚ)) halfRates sampleRand)
    (allUp, 0) 0 (1 / 4)).2.2 1 (updated allUp 0 0, 3) (0 + 1 / 2) hrun (by norm_num)
    (by
      intro j sj tj hj hrj
      have hj0 : j = 0 := by omega
      subst hj0
      obtain ⟨-, rfl⟩ := Prod.mk.inj (Option.some.inj hrj)
      norm_num) 1 (le_refl 1)
  rw [h]
  norm_num

/-! ## Spin round trip -/

/-- C10 (as stated) fails: on a 1 x 1 grid the input `[2]` makes `set_spin`
classify the site as type 18 and `insert_event` read `n_events[18]`, outside
the ten counters: `set_spin` does not complete. -/
theorem set_spin_fails_on_nonbinary_input :
    get_event_type (loaded (init_system 1 1 (fun _ => 0) (fun _ => 0) (fun _ _ => 0)
        (fun _ => 0) (fun _ => 0)) (fun _ => 2)) 0 0 = some 18 ∧
      set_spin (init_system 1 1 (fun _ => 0) (fun _ => 0) (fun _ _ => 0) (fun _ => 0)
        (fun _ => 0)) (fun _ => 2) = none := by
  constructor
  · decide
  · exact Option.isNone_iff_eq_none.mp (by decide!)

/-- C10 (amended): on a grid with positive dimensions, for every input array
`X` whose `N` entries are 0 or 1, `set_spin(X)` succeeds and a following
`get_spin(out)` leaves `out[k] = X[k]` for every `k` in `[0, N)`, leaves the
rest of `out` alone and returns the state unchanged. -/
theorem set_spin_get_spin_roundtrip (s : Sys) (X out : Int → Int) (hG : Geometry s)
    (hX : ∀ k, 0 ≤ k → k < s.N → X k = 0 ∨ X k = 1) :
    ∃ s', set_spin s X = some s' ∧
      (∀ k, 0 ≤ k → k < s.N → (get_spin s' out).2 k = X k) ∧
      (∀ k, ¬ (0 ≤ k ∧ k < s.N) → (get_spin s' out).2 k = out k) ∧
      (get_spin s' out).1 = s' := by
  have hG' : Geometry (loaded s X) := hG
  have hB' : SpinsBinary (loaded s X) := by
    intro k hk0 hk1
    have hk1 : k < s.N := hk1
    show (if 0 ≤ k ∧ k < s.N then X k else s.spin k) = 0 ∨
      (if 0 ≤ k ∧ k < s.N then X k else s.spin k) = 1
    rw [if_pos ⟨hk0, hk1⟩]
    exact hX k hk0 hk1
  obtain ⟨s', e, hI⟩ := init_events_initInv (loaded s X) hG' hB'
  obtain ⟨hsp, -, -, hN, -, -⟩ := hI
  have hN : s'.N = s.N := hN
  refine ⟨s', e, ?_, ?_, rfl⟩
  · intro k hk0 hk1
    show (if 0 ≤ k ∧ k < s'.N then s'.spin k else out k) = X k
    rw [if_pos ⟨hk0, by omega⟩, hsp]
    show (if 0 ≤ k ∧ k < s.N then X k else s.spin k) = X k
    rw [if_pos ⟨hk0, hk1⟩]
  · intro k hk
    show (if 0 ≤ k ∧ k < s'.N then s'.spin k else out k) = out k
    rw [hN, if_neg hk]

/-- Witness for C10 (amended): loading `[1, 1, 1, 1]` into the 2 x 2 grid. -/
theorem set_spin_get_spin_roundtrip_witness :
    ∃ s', set_spin allUp (fun _ => 1) = some s' ∧
      (∀ k, 0 ≤ k → k < allUp.N → (get_spin s' (fun _ => 7)).2 k = 1) ∧
      (∀ k, ¬ (0 ≤ k ∧ k < allUp.N) → (get_spin s' (fun _ => 7)).2 k = 7) ∧
      (get_spin s' (fun _ => 7)).1 = s' :=
  set_spin_get_spin_roundtrip allUp (fun _ => 1) (fun _ => 7) allUp_geometry
    (fun _ _ _ => Or.inr rfl)

/-! ## Rate table -/

theorem init_event_rates_fold {K : Type} [LinearOrderedField K] (tanh : K → K)
    (betaJ betamuB freq : K) (rate : Int → K) :
    ∀ (n : Nat) (t : Int),
      (List.range n).foldl
          (fun (r : Int → K) (i : Nat) =>
            Function.update r (i : Int) (rate_value tanh betaJ betamuB freq (i : Int)))
          rate t
        = if 0 ≤ t ∧ t < n then rate_value tanh betaJ betamuB freq t else rate t := by
  intro n
  induction n with
  | zero =>
    intro t
    rw [if_neg (by simp)]
    rfl
  | succ n ih =>
    intro t
    rw [List.range_succ, List.foldl_append]
    show Function.update _ (n : Int) _ t = _
    rw [Function.update_apply, ih]
    by_cases htn : t = (n : Int)
    · subst htn
      rw [if_pos rfl, if_pos ⟨by omega, by push_cast; omega⟩]
    · rw [if_neg htn]
      by_cases h : 0 ≤ t ∧ t < (n : Int)
      · rw [if_pos h, if_pos ⟨h.1, by push_cast; omega⟩]
      · rw [if_neg h, if_neg (by push_cast; omega)]

theorem init_event_rates_eq {K : Type} [LinearOrderedField K] (tanh : K → K)
    (betaJ betamuB freq : K) (rate : Int → K) (t : Int) (h0 : 0 ≤ t) (h1 : t < 10) :
    init_event_rates tanh betaJ betamuB freq rate t = rate_value tanh betaJ betamuB freq t := by
  unfold init_event_rates
  rw [show n_event_types.toNat = 10 from rfl, init_event_rates_fold, if_pos ⟨h0, by omega⟩]

theorem betaE_low {K : Type} [LinearOrderedField K] (betaJ betamuB : K) (s : Int)
    (h0 : 0 ≤ s) (h1 : s ≤ 4) :
    betaE betaJ betamuB s = -betaJ * 2 * (2 * (s : K) - 4) + 2 * betamuB := by
  unfold betaE
  interval_cases s <;> simp [Int.tdiv, Int.tmod] <;> ring

theorem betaE_high {K : Type} [LinearOrderedField K] (betaJ betamuB : K) (s : Int)
    (h0 : 0 ≤ s) (h1 : s ≤ 4) :
    betaE betaJ betamuB (s + 5) = -(-betaJ * 2 * (2 * (s : K) - 4) + 2 * betamuB) := by
  unfold betaE
  interval_cases s <;> simp [Int.tdiv, Int.tmod] <;> ring

/-! ## Real `tanh` -/

theorem one_sub_tanh (x : ℝ) : 1 - Real.tanh x = Real.exp (-x) / Real.cosh x := by
  rw [Real.tanh_eq_sinh_div_cosh, ← Real.cosh_sub_sinh]
  field_simp [(Real.cosh_pos x).ne']

theorem one_add_tanh (x : ℝ) : 1 + Real.tanh x = Real.exp x / Real.cosh x := by
  rw [Real.tanh_eq_sinh_div_cosh, ← Real.cosh_add_sinh]
  field_simp [(Real.cosh_pos x).ne']

theorem tanh_lt_one (x : ℝ) : Real.tanh x < 1 := by
  have h := one_sub_tanh x
  have hpos : 0 < Real.exp (-x) / Real.cosh x := div_pos (Real.exp_pos _) (Real.cosh_pos x)
  linarith

theorem neg_one_lt_tanh (x : ℝ) : -1 < Real.tanh x := by
  have h := one_add_tanh x
  have hpos : 0 < Real.exp x / Real.cosh x := div_pos (Real.exp_pos _) (Real.cosh_pos x)
  linarith

theorem tanh_mono {x y : ℝ} (h : x ≤ y) : Real.tanh x ≤ Real.tanh y := by
  have hx := Real.cosh_pos x
  have hy := Real.cosh_pos y
  rw [Real.tanh_eq_sinh_div_cosh, Real.tanh_eq_sinh_div_cosh, div_le_div_iff₀ hx hy]
  have hs : 0 ≤ Real.sinh (y - x) := Real.sinh_nonneg_iff.mpr (by linarith)
  rw [Real.sinh_sub] at hs
  linarith

theorem one_sub_tanh_balance (x : ℝ) :
    1 - Real.tanh x = (1 - Real.tanh (-x)) * Real.exp (-(2 * x)) := by
  rw [Real.tanh_neg, sub_neg_eq_add, one_sub_tanh, one_add_tanh, div_mul_eq_mul_div,
    ← Real.exp_add]
  congr 2
  ring

/-! ## Properties of the rate table -/

/-- C12: over the reals, for every `betaJ`, `betamuB`, `freq` and every
neighbour sum `s` in `0..4`, the energy term of type `s` is
`E(s) = -betaJ*2*(2*s-4) + 2*betamuB`, the energy term of type `s+5` is
`-E(s)`, and the rates computed by `init_event_rates` satisfy
`rate[s] = rate[s+5] * exp(-E(s))`. -/
theorem rate_detailed_balance (betaJ betamuB freq : ℝ) (rate0 : Int → ℝ) (s : Int)
    (h0 : 0 ≤ s) (h1 : s ≤ 4) :
    betaE betaJ betamuB s = -betaJ * 2 * (2 * (s : ℝ) - 4) + 2 * betamuB ∧
      betaE betaJ betamuB (s + 5) = -betaE betaJ betamuB s ∧
      init_event_rates Real.tanh betaJ betamuB freq rate0 s
        = init_event_rates Real.tanh betaJ betamuB freq rate0 (s + 5)
          * Real.exp (-betaE betaJ betamuB s) := by
  have hl := betaE_low betaJ betamuB s h0 h1
  have hh := betaE_high betaJ betamuB s h0 h1
  refine ⟨hl, by rw [hh, hl], ?_⟩
  rw [init_event_rates_eq _ _ _ _ _ s h0 (by omega),
    init_event_rates_eq _ _ _ _ _ (s + 5) (by omega) (by omega)]
  unfold rate_value
  rw [hh, ← hl]
  have hb := one_sub_tanh_balance (1 / 2 * betaE betaJ betamuB s)
  have e1 : 1 / 2 * -betaE betaJ betamuB s = -(1 / 2 * betaE betaJ betamuB s) := by ring
  have e2 : -(2 * (1 / 2 * betaE betaJ betamuB s)) = -betaE betaJ betamuB s := by ring
  rw [e1, hb, e2]
  ring

/-- Witness for C12: neighbour sum 2 at `betaJ = 1`, `betamuB = 0`, `freq = 1`. -/
theorem rate_detailed_balance_witness :
    init_event_rates Real.tanh 1 0 1 (fun _ => 0) 2
      = init_event_rates Real.tanh 1 0 1 (fun _ => 0) (2 + 5)
        * Real.exp (-betaE (1 : ℝ) 0 2) :=
  (rate_detailed_balance 1 0 1 (fun _ => 0) 2 (by decide) (by decide)).2.2

/-- C13: over the reals, for fixed `betamuB` and `freq >= 0` and
`betaJ1 <= betaJ2`, the gaps `rate[4] - rate[0]` and `rate[5] - rate[9]` of the
table computed by `init_event_rates` at `betaJ2` are at least those at
`betaJ1`. -/
theorem rate_gap_monotone (betamuB freq betaJ1 betaJ2 : ℝ) (rate0 rate0' : Int → ℝ)
    (hf : 0 ≤ freq) (hJ : betaJ1 ≤ betaJ2) :
    init_event_rates Real.tanh betaJ1 betamuB freq rate0 4
        - init_event_rates Real.tanh betaJ1 betamuB freq rate0 0
      ≤ init_event_rates Real.tanh betaJ2 betamuB freq rate0' 4
        - init_event_rates Real.tanh betaJ2 betamuB freq rate0' 0 ∧
    init_event_rates Real.tanh betaJ1 betamuB freq rate0 5
        - init_event_rates Real.tanh betaJ1 betamuB freq rate0 9
      ≤ init_event_rates Real.tanh betaJ2 betamuB freq rate0' 5
        - init_event_rates Real.tanh betaJ2 betamuB freq rate0' 9 := by
  have e0 : ∀ J : ℝ, betaE J betamuB 0 = 8 * J + 2 * betamuB := by
    intro J; unfold betaE; simp [Int.tdiv, Int.tmod]; ring
  have e4 : ∀ J : ℝ, betaE J betamuB 4 = -(8 * J) + 2 * betamuB := by
    intro J; unfold betaE; simp [Int.tdiv, Int.tmod]; ring
  have e5 : ∀ J : ℝ, betaE J betamuB 5 = -(8 * J) - 2 * betamuB := by
    intro J; unfold betaE; simp [Int.tdiv, Int.tmod]; ring
  have e9 : ∀ J : ℝ, betaE J betamuB 9 = 8 * J - 2 * betamuB := by
    intro J; unfold betaE; simp [Int.tdiv, Int.tmod]; ring
  simp only [init_event_rates_eq _ _ _ _ _ 0 (by decide) (by decide),
    init_event_rates_eq _ _ _ _ _ 4 (by decide) (by decide),
    init_event_rates_eq _ _ _ _ _ 5 (by decide) (by decide),
    init_event_rates_eq _ _ _ _ _ 9 (by decide) (by decide), rate_value, e0, e4, e5, e9]
  have m0 := tanh_mono (show 1 / 2 * (8 * betaJ1 + 2 * betamuB)
    ≤ 1 / 2 * (8 * betaJ2 + 2 * betamuB) by linarith)
  have m4 := tanh_mono (show 1 / 2 * (-(8 * betaJ2) + 2 * betamuB)
    ≤ 1 / 2 * (-(8 * betaJ1) + 2 * betamuB) by linarith)
  have m5 := tanh_mono (show 1 / 2 * (-(8 * betaJ2) - 2 * betamuB)
    ≤ 1 / 2 * (-(8 * betaJ1) - 2 * betamuB) by linarith)
  have m9 := tanh_mono (show 1 / 2 * (8 * betaJ1 - 2 * betamuB)
    ≤ 1 / 2 * (8 * betaJ2 - 2 * betamuB) by linarith)
  constructor
  · nlinarith [mul_nonneg hf (sub_nonneg.mpr m0), mul_nonneg hf (sub_nonneg.mpr m4)]
  · nlinarith [mul_nonneg hf (sub_nonneg.mpr m5), mul_nonneg hf (sub_nonneg.mpr m9)]

/-- Witness for C13: `betamuB = 0`, `freq = 1`, couplings `0 <= 1`. -/
theorem rate_gap_monotone_witness :
    init_event_rates Real.tanh 0 0 1 (fun _ => 0) 4
        - init_event_rates Real.tanh 0 0 1 (fun _ => 0) 0
      ≤ init_event_rates Real.tanh 1 0 1 (fun _ => 0) 4
        - init_event_rates Real.tanh 1 0 1 (fun _ => 0) 0 :=
  (rate_gap_monotone 0 1 0 1 (fun _ => 0) (fun _ => 0) zero_le_one zero_le_one).1

theorem rate_value_pos_lt (betaJ betamuB freq : ℝ) (hf : 0 < freq) (t : Int) :
    0 < rate_value Real.tanh betaJ betamuB freq t ∧
      rate_value Real.tanh betaJ betamuB freq t < freq := by
  unfold rate_value
  have h1 := tanh_lt_one (1 / 2 * betaE betaJ betamuB t)
  have h2 := neg_one_lt_tanh (1 / 2 * betaE betaJ betamuB t)
  constructor
  · have : 0 < 1 - Real.tanh (1 / 2 * betaE betaJ betamuB t) := by linarith
    positivity
  · nlinarith

theorem total_rate_pos {K : Type} [LinearOrderedField K] (rate : Int → K)
    (n_events : Int → Int) (hr : ∀ t, 0 ≤ t → t < 10 → 0 < rate t)
    (hn : ∀ t, 0 ≤ t → t < 10 → 0 ≤ n_events t)
    (hsum : 1 ≤ ∑ t ∈ Finset.range 10, n_events (t : Int)) :
    0 < total_rate rate n_events := by
  rw [total_rate_eq_sum]
  have hex : ∃ t ∈ Finset.range 10, 0 < n_events (t : Int) := by
    by_contra hno
    push_neg at hno
    have : ∑ t ∈ Finset.range 10, n_events (t : Int) ≤ 0 :=
      Finset.sum_nonpos (fun t ht => hno t ht)
    omega
  obtain ⟨t, ht, hpos⟩ := hex
  have ht' := Finset.mem_range.mp ht
  apply Finset.sum_pos'
  · intro u hu
    have hu' := Finset.mem_range.mp hu
    exact mul_nonneg (hr u (by omega) (by omega)).le
      (by exact_mod_cast hn u (by omega) (by omega))
  · exact ⟨t, ht, mul_pos (hr t (by omega) (by omega)) (by exact_mod_cast hpos)⟩

/-- With the real `tanh` the rate formula is safe: for every `betaJ`, `betamuB`
and every `freq > 0`, each of the ten rates of `init_event_rates` lies strictly
between 0 and `freq`, `rate[s] + rate[s+5] = freq` for `s` in `0..4`, and for any
non-negative bucket sizes summing to `N >= 1` the `total_rate` of `kmc` is
strictly positive. -/
theorem rates_positive_bounded (betaJ betamuB freq : ℝ) (rate0 : Int → ℝ) (hf : 0 < freq) :
    (∀ t, 0 ≤ t → t < 10 →
      0 < init_event_rates Real.tanh betaJ betamuB freq rate0 t ∧
        init_event_rates Real.tanh betaJ betamuB freq rate0 t < freq) ∧
    (∀ s, 0 ≤ s → s ≤ 4 →
      init_event_rates Real.tanh betaJ betamuB freq rate0 s
        + init_event_rates Real.tanh betaJ betamuB freq rate0 (s + 5) = freq) ∧
    (∀ (n_events : Int → Int) (N : Int), (∀ t, 0 ≤ t → t < 10 → 0 ≤ n_events t) →
      ∑ t ∈ Finset.range 10, n_events (t : Int) = N → 1 ≤ N →
      0 < total_rate (init_event_rates Real.tanh betaJ betamuB freq rate0) n_events) := by
  have hpos : ∀ t, 0 ≤ t → t < 10 →
      0 < init_event_rates Real.tanh betaJ betamuB freq rate0 t ∧
        init_event_rates Real.tanh betaJ betamuB freq rate0 t < freq := by
    intro t h0 h1
    rw [init_event_rates_eq _ _ _ _ _ t h0 h1]
    exact rate_value_pos_lt betaJ betamuB freq hf t
  refine ⟨hpos, ?_, ?_⟩
  · intro s h0 h1
    rw [init_event_rates_eq _ _ _ _ _ s h0 (by omega),
      init_event_rates_eq _ _ _ _ _ (s + 5) (by omega) (by omega)]
    unfold rate_value
    rw [betaE_high betaJ betamuB s h0 h1, ← betaE_low betaJ betamuB s h0 h1]
    have e1 : 1 / 2 * -betaE betaJ betamuB s = -(1 / 2 * betaE betaJ betamuB s) := by ring
    rw [e1, Real.tanh_neg]
    ring
  · intro n_events N hn hsum hN
    exact total_rate_pos _ n_events (fun t h0 h1 => (hpos t h0 h1).1) hn (by omega)

/-- Instance of `rates_positive_bounded`: `betaJ = betamuB = 0`, `freq = 1`,
bucket sizes `0, ..., 0, 4`. -/
theorem rates_positive_bounded_witness :
    0 < total_rate (init_event_rates Real.tanh 0 0 1 (fun _ => 0)) allUp.n_events :=
  (rates_positive_bounded 0 0 1 (fun _ => 0) one_pos).2.2 allUp.n_events 4
    allUp_countsNonneg (by decide) (by decide)

/-! ## Catalogs in which all sites share one type -/

theorem struct_uniform_type (s : Sys) (hS : Struct s) (hN : 0 ≤ s.N) (c : Int)
    (hc : ∀ x, 0 ≤ x → x < s.N → s.grid_event_type x = c) :
    (0 ≤ c → c < 10 → s.n_events c = s.N) ∧
      ∀ t, 0 ≤ t → t < 10 → t ≠ c → s.n_events t = 0 := by
  constructor
  · intro hc0 hc1
    have h := struct_fiber_card s hS c.toNat (by omega)
    have hcast : ((c.toNat : Nat) : Int) = c := by omega
    rw [hcast] at h
    have hall : (Finset.range s.N.toNat).filter
        (fun x : Nat => (s.grid_event_type (x : Int)).toNat = c.toNat)
        = Finset.range s.N.toNat := by
      apply Finset.filter_true_of_mem
      intro x hx
      have hx := Finset.mem_range.mp hx
      rw [hc x (by omega) (by omega)]
    rw [hall, Finset.card_range] at h
    have := hS.1 c hc0 hc1
    omega
  · intro t ht0 ht1 htc
    have h := struct_fiber_card s hS t.toNat (by omega)
    have hcast : ((t.toNat : Nat) : Int) = t := by omega
    rw [hcast] at h
    have hnone : (Finset.range s.N.toNat).filter
        (fun x : Nat => (s.grid_event_type (x : Int)).toNat = t.toNat) = ∅ := by
      apply Finset.filter_false_of_mem
      intro x hx
      have hx := Finset.mem_range.mp hx
      rw [hc x (by omega) (by omega)]
      obtain ⟨f1, f2, -⟩ := hS.2.1 x (by omega) (by omega)
      rw [hc x (by omega) (by omega)] at f1 f2
      omega
    rw [hnone, Finset.card_empty] at h
    have := hS.1 t ht0 ht1
    omega

theorem set_spin_inv (s : Sys) (X : Int → Int) (hG : Geometry s)
    (hX : ∀ k, 0 ≤ k → k < s.N → X k = 0 ∨ X k = 1) :
    ∃ s', set_spin s X = some s' ∧ (∀ k, 0 ≤ k → k < s.N → s'.spin k = X k) ∧
      s'.dim0 = s.dim0 ∧ s'.dim1 = s.dim1 ∧ s'.N = s.N ∧ Geometry s' ∧ SpinsBinary s' ∧
      Struct s' ∧ SiteConsistent s' := by
  have hG' : Geometry (loaded s X) := hG
  have hval : ∀ k, 0 ≤ k → k < s.N → (loaded s X).spin k = X k := by
    intro k hk0 hk1
    show (if 0 ≤ k ∧ k < s.N then X k else s.spin k) = X k
    rw [if_pos ⟨hk0, hk1⟩]
  have hB' : SpinsBinary (loaded s X) := by
    intro k hk0 hk1
    rw [hval k hk0 hk1]
    exact hX k hk0 hk1
  obtain ⟨s', e, hI⟩ := init_events_initInv (loaded s X) hG' hB'
  obtain ⟨hsp, hGs, hS, hSC⟩ := initInv_final _ hG' s' hI
  obtain ⟨-, hd0, hd1, hN, -, -⟩ := hI
  have hN : s'.N = s.N := hN
  refine ⟨s', e, ?_, hd0, hd1, hN, hGs, ?_, hS, hSC⟩
  · intro k hk0 hk1
    rw [hsp]
    exact hval k hk0 hk1
  · intro k hk0 hk1
    rw [hsp]
    have hk2 : k < s.N := by rw [← hN]; exact hk1
    exact hB' k hk0 hk2

/-- C11: after `init_system(2, 2)` (whatever the fresh arrays hold),
`set_param(0, 0, 1)` and `set_spin` of four ones, every one of the ten rates is
`1/2`, every site has neighbour sum 4 and event type 9, bucket 9 holds four
sites and the other buckets are empty, and `total_rate` is 2; and for
`betaJ = betamuB = 0` and any `freq` every rate is `freq / 2`. -/
theorem scenario_2x2_all_up (spin0 ne0 get0 gei0 : Int → Int) (ep0 : Int → Int → Int)
    (X : Int → Int) (rate0 : Int → ℝ) (hX : ∀ k, 0 ≤ k → k < 4 → X k = 1) :
    (∀ t, 0 ≤ t → t < 10 → set_param Real.tanh 0 0 1 rate0 t = 1 / 2) ∧
    (∃ s, set_spin (init_system 2 2 spin0 ne0 ep0 get0 gei0) X = some s ∧
      (∀ i j, 0 ≤ i → i < 2 → 0 ≤ j → j < 2 →
        neighbor_sum_spec s i j = 4 ∧ get_event_type s i j = some 9 ∧
        s.grid_event_type (idx2_to_idx1 s i j) = 9) ∧
      s.n_events 9 = 4 ∧ (∀ t, 0 ≤ t → t < 9 → s.n_events t = 0) ∧
      total_rate (set_param Real.tanh 0 0 1 rate0) s.n_events = 2) ∧
    (∀ (freq : ℝ) t, 0 ≤ t → t < 10 →
      init_event_rates Real.tanh 0 0 freq rate0 t = 1 / 2 * freq) := by
  have hrate : ∀ (freq : ℝ) t, 0 ≤ t → t < 10 →
      init_event_rates Real.tanh 0 0 freq rate0 t = 1 / 2 * freq := by
    intro freq t h0 h1
    rw [init_event_rates_eq _ _ _ _ _ t h0 h1]
    unfold rate_value betaE
    simp
  have hhalf : ∀ t, 0 ≤ t → t < 10 → set_param Real.tanh 0 0 1 rate0 t = 1 / 2 := by
    intro t h0 h1
    unfold set_param
    rw [hrate 1 t h0 h1]
    ring
  refine ⟨hhalf, ?_, hrate⟩
  have hG0 : Geometry (init_system 2 2 spin0 ne0 ep0 get0 gei0) :=
    ⟨show (1 : Int) ≤ 2 by decide, show (1 : Int) ≤ 2 by decide,
      show (2 : Int) * 2 = 2 * 2 from rfl⟩
  obtain ⟨s, e, hsp, hd0, hd1, hN, hG, hB, hS, hSC⟩ :=
    set_spin_inv (init_system 2 2 spin0 ne0 ep0 get0 gei0) X hG0
      (fun k hk0 hk1 => Or.inr (hX k hk0 hk1))
  have hd0 : s.dim0 = 2 := hd0
  have hd1 : s.dim1 = 2 := hd1
  have hN : s.N = 4 := hN
  have hone : ∀ x, 0 ≤ x → x < s.N → s.spin x = 1 := by
    intro x hx0 hx1
    rw [hsp x hx0 (by rw [hN] at hx1; exact hx1)]
    exact hX x hx0 (by omega)
  have hsite : ∀ i j, 0 ≤ i → i < 2 → 0 ≤ j → j < 2 →
      neighbor_sum_spec s i j = 4 ∧ get_event_type s i j = some 9 ∧
      s.grid_event_type (idx2_to_idx1 s i j) = 9 := by
    intro i j hi0 hi1 hj0 hj1
    have hi1' : i < s.dim0 := by omega
    have hj1' : j < s.dim1 := by omega
    have hspec := get_event_type_eq s hG i j hi0 hi1' hj0 hj1'
    have a := i_next_range s i hi0 hi1'
    have b := i_prev_range s i hi0 hi1'
    have c := j_next_range s j hj0 hj1'
    have d := j_prev_range s j hj0 hj1'
    have ra := idx_in_range s hG _ j a.1 a.2 hj0 hj1'
    have rb := idx_in_range s hG _ j b.1 b.2 hj0 hj1'
    have rc := idx_in_range s hG i _ hi0 hi1' c.1 c.2
    have rd' := idx_in_range s hG i _ hi0 hi1' d.1 d.2
    have re := idx_in_range s hG i j hi0 hi1' hj0 hj1'
    have hv : event_type_value s i j = 9 := by
      unfold event_type_value
      rw [hone _ ra.1 ra.2, hone _ rb.1 rb.2, hone _ rc.1 rc.2, hone _ rd'.1 rd'.2,
        hone _ re.1 re.2]
      rfl
    have hns : neighbor_sum_spec s i j = 4 := by
      unfold neighbor_sum_spec
      rw [← i_next_mod s i hi0 hi1', ← i_prev_mod s i hi0 hi1', ← j_next_mod s j hj0 hj1',
        ← j_prev_mod s j hj0 hj1', hone _ ra.1 ra.2, hone _ rb.1 rb.2, hone _ rc.1 rc.2,
        hone _ rd'.1 rd'.2]
      rfl
    refine ⟨hns, by rw [hspec, hv], ?_⟩
    have h1 := (hSC i j hi0 hi1' hj0 hj1').1
    rw [hspec, hv] at h1
    exact (Option.some.inj h1).symm
  have htype : ∀ x, 0 ≤ x → x < s.N → s.grid_event_type x = 9 := by
    intro x hx0 hx1
    obtain ⟨-, i0, i1, j0, j1, hx⟩ := idx1_to_idx2_eq s hG x hx0 hx1
    have := (hsite _ _ i0 (by omega) j0 (by omega)).2.2
    rw [hx] at this
    exact this
  obtain ⟨h9, hother⟩ := struct_uniform_type s hS (by omega) 9 htype
  have h9 : s.n_events 9 = 4 := by rw [h9 (by decide) (by decide), hN]
  have h0 : ∀ t, 0 ≤ t → t < 9 → s.n_events t = 0 :=
    fun t ht0 ht1 => hother t ht0 (by omega) (by omega)
  refine ⟨s, e, hsite, h9, h0, ?_⟩
  rw [total_rate_eq_sum]
  simp only [Finset.sum_range_succ, Finset.sum_range_zero, Nat.cast_ofNat, Nat.cast_zero,
    Nat.cast_one]
  rw [h0 0 (by decide) (by decide), h0 1 (by decide) (by decide),
    h0 2 (by decide) (by decide), h0 3 (by decide) (by decide), h0 4 (by decide) (by decide),
    h0 5 (by decide) (by decide), h0 6 (by decide) (by decide), h0 7 (by decide) (by decide),
    h0 8 (by decide) (by decide), h9, hhalf 9 (by decide) (by decide)]
  norm_num

/-- Witness for C11: fresh arrays read as zero and the input constantly 1. -/
theorem scenario_2x2_all_up_witness :
    ∃ s, scenario = some s ∧ s.n_events 9 = 4 ∧
      total_rate (set_param Real.tanh 0 0 1 (fun _ => 0)) s.n_events = 2 := by
  obtain ⟨s, e, -, h9, -, ht⟩ := (scenario_2x2_all_up (fun _ => 0) (fun _ => 0) (fun _ => 0)
    (fun _ => 0) (fun _ _ => 0) (fun _ => 1) (fun _ => 0) (fun _ _ _ => rfl)).2.1
  exact ⟨s, e, h9, ht⟩

/-! ## Locality of a flip -/

/-- C18: on a grid with positive dimensions, for every spin array and all
sites `(i, j)` and `(a, b)` of the grid, if `(a, b)` is neither `(i, j)` nor one
of the four toroidal neighbours of `(i, j)` used by `kmc`, then
`get_event_type(a, b)` is the same before and after replacing `spin[(i, j)]` by
one minus itself. -/
theorem flip_is_local (s : Sys) (hG : Geometry s) (i j a b : Int) (hi0 : 0 ≤ i)
    (hi1 : i < s.dim0) (hj0 : 0 ≤ j) (hj1 : j < s.dim1) (ha0 : 0 ≤ a) (ha1 : a < s.dim0)
    (hb0 : 0 ≤ b) (hb1 : b < s.dim1)
    (h0 : ¬ (a = i ∧ b = j)) (h1 : ¬ (a = i_next s i ∧ b = j)) (h2 : ¬ (a = i_prev s i ∧ b = j))
    (h3 : ¬ (a = i ∧ b = j_next s j)) (h4 : ¬ (a = i ∧ b = j_prev s j)) :
    get_event_type (flipped s (idx2_to_idx1 s i j)) a b = get_event_type s a b := by
  rw [get_event_type_eq s hG a b ha0 ha1 hb0 hb1,
    get_event_type_eq (flipped s (idx2_to_idx1 s i j)) (flipped_geometry s _ hG) a b ha0 ha1
      hb0 hb1,
    event_type_value_flipped s i j a b hi0 hi1 hj0 hj1 ha0 ha1 hb0 hb1 h0 h1 h2 h3 h4]

/-- Witness for C18: on the 2 x 2 all-up grid, site `(1, 1)` is neither `(0, 0)`
nor one of its neighbours `(1, 0)`, `(0, 1)`. -/
theorem flip_is_local_witness :
    get_event_type (flipped allUp (idx2_to_idx1 allUp 0 0)) 1 1 = get_event_type allUp 1 1 :=
  flip_is_local allUp allUp_geometry 0 0 1 1 (by decide) (by decide) (by decide) (by decide)
    (by decide) (by decide) (by decide) (by decide) (by decide) (by decide) (by decide)
    (by decide) (by decide)

/-! ## Total rate against the per-site scan -/

theorem site_event_type_eq (s : Sys) (hG : Geometry s) (hSC : SiteConsistent s) (x : Int)
    (hx0 : 0 ≤ x) (hx1 : x < s.N) : site_event_type s x = some (s.grid_event_type x) := by
  obtain ⟨hsplit, i0, i1, j0, j1, hx⟩ := idx1_to_idx2_eq s hG x hx0 hx1
  unfold site_event_type
  rw [hsplit]
  show get_event_type s (x / s.dim1) (x % s.dim1) = _
  rw [(hSC _ _ i0 i1 j0 j1).1, hx]

/-- C19: for every rate table and every state satisfying the catalog
invariants, the `total_rate` computed by `kmc` from the bucket sizes equals the
sum over all `N` sites of `rate[get_event_type(site)]` (exact arithmetic). -/
theorem total_rate_eq_naive_scan {K : Type} [LinearOrderedField K] (rate : Int → K) (s : Sys)
    (hG : Geometry s) (hB : SpinsBinary s) (hC : CountsNonneg s) (hLV : LiveValid s)
    (hSC : SiteConsistent s) : total_rate rate s.n_events = naive_total_rate rate s := by
  obtain ⟨hS, -⟩ := struct_of_consistent s hG hB hC hLV hSC
  have hnaive : naive_total_rate rate s
      = ∑ x ∈ Finset.range s.N.toNat, rate (((s.grid_event_type (x : Int)).toNat : Nat) : Int) := by
    unfold naive_total_rate
    apply Finset.sum_congr rfl
    intro x hx
    have hx := Finset.mem_range.mp hx
    rw [site_event_type_eq s hG hSC x (by omega) (by omega)]
    obtain ⟨f1, -⟩ := hS.2.1 x (by omega) (by omega)
    have : (((s.grid_event_type (x : Int)).toNat : Nat) : Int) = s.grid_event_type (x : Int) := by
      omega
    rw [this]
  rw [hnaive, total_rate_eq_sum]
  rw [← Finset.sum_fiberwise_of_maps_to (s := Finset.range s.N.toNat) (t := Finset.range 10)
    (g := fun x : Nat => (s.grid_event_type (x : Int)).toNat)
    (f := fun x : Nat => rate (((s.grid_event_type (x : Int)).toNat : Nat) : Int))
    (by
      intro x hx
      have hx := Finset.mem_range.mp hx
      obtain ⟨f1, f2, -⟩ := hS.2.1 x (by omega) (by omega)
      show (s.grid_event_type (x : Int)).toNat ∈ Finset.range 10
      exact Finset.mem_range.mpr (by omega))]
  apply Finset.sum_congr rfl
  intro t ht
  have ht := Finset.mem_range.mp ht
  have hconst : ∀ x ∈ (Finset.range s.N.toNat).filter
      (fun x : Nat => (s.grid_event_type (x : Int)).toNat = t),
      rate (((s.grid_event_type (x : Int)).toNat : Nat) : Int) = rate (t : Int) := by
    intro x hx
    rw [(Finset.mem_filter.mp hx).2]
  rw [Finset.sum_congr rfl hconst, Finset.sum_const, struct_fiber_card s hS t ht, nsmul_eq_mul,
    mul_comm]
  have := hC t (by omega) (by omega)
  have hcast : (((s.n_events (t : Int)).toNat : Nat) : Int) = s.n_events (t : Int) := by omega
  rw [show (((s.n_events (t : Int)).toNat : Nat) : K)
    = ((((s.n_events (t : Int)).toNat : Nat) : Int) : K) from (Int.cast_natCast _).symm, hcast]

/-- Witness for C19: the 2 x 2 all-up state with all rates one half. -/
theorem total_rate_eq_naive_scan_witness :
    total_rate halfRates allUp.n_events = naive_total_rate halfRates allUp :=
  total_rate_eq_naive_scan halfRates allUp allUp_geometry allUp_spinsBinary
    allUp_countsNonneg allUp_liveValid allUp_siteConsistent

/-! ## Waiting-time draw -/

/-- Strictly between the end points the draw is in the open unit interval. -/
theorem unit_draw_interior {K : Type} [LinearOrderedField K] (RAND_MAX r : Int) (h0 : 0 < r)
    (h1 : r < RAND_MAX) :
    0 < (unit_draw RAND_MAX r : K) ∧ (unit_draw RAND_MAX r : K) < 1 := by
  unfold unit_draw
  have hR : (0 : K) < (RAND_MAX : K) := by exact_mod_cast (by omega : 0 < RAND_MAX)
  have hr : (0 : K) < (r : K) := by exact_mod_cast h0
  refine ⟨div_pos hr hR, ?_⟩
  rw [div_lt_one hR]
  exact_mod_cast h1

/-- C14 (the code at the failing inputs): for the `rand()` output 0 the draw
`u = rand() / RAND_MAX` is 0, for the output `RAND_MAX` it is 1, and on the
2 x 2 all-up state with rates one half the waiting time `kmc` returns for a
third draw 0 is `-log(0) / total_rate`, whatever `log` is. -/
theorem waiting_time_draw_hits_end_points :
    (unit_draw RAND_MAX_usual 0 : ℚ) = 0 ∧
      (unit_draw RAND_MAX_usual RAND_MAX_usual : ℚ) = 1 ∧
      0 < total_rate halfRates allUp.n_events ∧
      ∀ log : ℚ → ℚ,
        kmc RAND_MAX_usual log halfRates allUp RAND_MAX_usual 0 0
          = some (updated allUp 0 0, -log 0 / total_rate halfRates allUp.n_events) := by
  refine ⟨by simp [unit_draw], by simp [unit_draw, RAND_MAX_usual], ?_, ?_⟩
  · rw [total_rate_eq_sum]
    simp [Finset.sum_range_succ, halfRates, allUp]
  · intro log
    have h := kmc_eq RAND_MAX_usual log halfRates allUp RAND_MAX_usual 0 0 9
      allUp_geometry allUp_spinsBinary allUp_countsNonneg allUp_liveValid allUp_siteConsistent
      (by decide) allUp_chosen_full_draw (by decide)
    rw [h]
    simp
    rfl

/-! ## In-range accesses -/

theorem rd2_eq_some {size : Int} {a : Int → Int → Int} {t k v : Int}
    (h : rd2 size a t k = some v) : 0 ≤ t ∧ t < 10 ∧ 0 ≤ k ∧ k < size ∧ a t k = v := by
  unfold rd2 at h
  split at h
  · rename_i hb
    exact ⟨hb.1, hb.2.1, hb.2.2.1, hb.2.2.2, by simpa using h⟩
  · cases h

theorem wr2_eq_some {size : Int} {a : Int → Int → Int} {t k v : Int} {b : Int → Int → Int}
    (h : wr2 size a t k v = some b) : 0 ≤ t ∧ t < 10 ∧ 0 ≤ k ∧ k < size := by
  unfold wr2 at h
  split at h
  · rename_i hb
    exact ⟨hb.1, hb.2.1, hb.2.2.1, hb.2.2.2⟩
  · cases h

theorem insert_event_some_bounds (st st' : Sys) (t idx : Int)
    (h : insert_event st t idx = some st') :
    0 ≤ t ∧ t ≤ 9 ∧ 0 ≤ st.n_events t ∧ st.n_events t < st.N ∧ 0 ≤ idx ∧ idx < st.N := by
  unfold insert_event at h
  simp only [Option.bind_eq_bind, Option.bind_eq_some, Option.pure_def,
    Option.some.injEq] at h
  obtain ⟨ae, hae, ep, hep, gt, hgt, _, _, _, _, _⟩ := h
  obtain ⟨-, -, hae⟩ := rd_eq_some hae
  obtain ⟨t0, t1, k0, k1⟩ := wr2_eq_some hep
  obtain ⟨i0, i1, -⟩ := wr_eq_some hgt
  rw [hae]
  exact ⟨t0, by omega, k0, k1, i0, i1⟩

theorem remove_event_some_nonempty (st st' : Sys) (idx : Int)
    (h : remove_event st idx = some st') : 1 ≤ st.n_events (st.grid_event_type idx) := by
  unfold remove_event at h
  simp only [Option.bind_eq_bind, Option.bind_eq_some, Option.pure_def,
    Option.some.injEq] at h
  obtain ⟨ty, hty, ei, _, cnt, hcnt, rg, hrg, _⟩ := h
  obtain ⟨-, -, hty⟩ := rd_eq_some hty
  obtain ⟨-, -, hcnt⟩ := rd_eq_some hcnt
  obtain ⟨-, -, k0, -, -⟩ := rd2_eq_some hrg
  rw [hty, hcnt]
  omega

theorem fix_events_some_parts (s s' : Sys) (i j : Int) (h : fix_events s i j = some s') :
    ∃ s1 v, remove_event s (idx2_to_idx1 s i j) = some s1 ∧
      insert_event s1 v (idx2_to_idx1 s i j) = some s' := by
  unfold fix_events at h
  simp only [Option.bind_eq_bind, Option.bind_eq_some] at h
  obtain ⟨s1, h1, v, -, h3⟩ := h
  exact ⟨s1, v, h1, h3⟩

theorem kmc_update_some_parts (s s' : Sys) (idx : Int) (h : kmc_update s idx = some s') :
    ∃ i j s1 s2 s3 s4, idx1_to_idx2 s idx = some (i, j) ∧
      fix_events (flipped s idx) i j = some s1 ∧ fix_events s1 (i_next s1 i) j = some s2 ∧
      fix_events s2 (i_prev s2 i) j = some s3 ∧ fix_events s3 i (j_next s3 j) = some s4 ∧
      fix_events s4 i (j_prev s4 j) = some s' := by
  unfold kmc_update at h
  simp only [Option.bind_eq_bind, Option.bind_eq_some] at h
  obtain ⟨⟨i, j⟩, hsplit, old, hold, sp, hsp, s1, h1, s2, h2, s3, h3, s4, h4, h5⟩ := h
  obtain ⟨-, -, hold⟩ := rd_eq_some hold
  obtain ⟨-, -, hsp⟩ := wr_eq_some hsp
  subst hold
  subst hsp
  exact ⟨i, j, s1, s2, s3, s4, hsplit, h1, h2, h3, h4, h5⟩

/-- C17: `init_events` on a grid with positive dimensions and binary spins
succeeds; in every state reached from it by `kmc` updates each bucket size lies
in `[0, N]` and the update of any site succeeds, that is, performs every array
access in range; a successful update consists of five successful `fix_events`
calls, each a successful `remove_event` followed by a successful
`insert_event`; a successful `insert_event` has `0 <= type <= 9` and
`0 <= array_end < N`, and a successful `remove_event` acts on a bucket of size
at least 1. -/
theorem bucket_capacity_respected :
    (∀ s0, Geometry s0 → SpinsBinary s0 → ∃ s, init_events s0 = some s) ∧
    (∀ s, Reachable s →
      (∀ t, 0 ≤ t → t < 10 → 0 ≤ s.n_events t ∧ s.n_events t ≤ s.N) ∧
      ∀ idx, 0 ≤ idx → idx < s.N → ∃ s', kmc_update s idx = some s') ∧
    (∀ s idx s', kmc_update s idx = some s' →
      ∃ i j s1 s2 s3 s4, idx1_to_idx2 s idx = some (i, j) ∧
        fix_events (flipped s idx) i j = some s1 ∧ fix_events s1 (i_next s1 i) j = some s2 ∧
        fix_events s2 (i_prev s2 i) j = some s3 ∧ fix_events s3 i (j_next s3 j) = some s4 ∧
        fix_events s4 i (j_prev s4 j) = some s') ∧
    (∀ s i j s', fix_events s i j = some s' →
      ∃ s1 v, remove_event s (idx2_to_idx1 s i j) = some s1 ∧
        insert_event s1 v (idx2_to_idx1 s i j) = some s') ∧
    (∀ st t idx st', insert_event st t idx = some st' →
      0 ≤ t ∧ t ≤ 9 ∧ 0 ≤ st.n_events t ∧ st.n_events t < st.N) ∧
    (∀ st idx st', remove_event st idx = some st' →
      1 ≤ st.n_events (st.grid_event_type idx)) := by
  refine ⟨?_, ?_, fun s idx s' h => kmc_update_some_parts s s' idx h,
    fun s i j s' h => fix_events_some_parts s s' i j h, ?_,
    fun st idx st' h => remove_event_some_nonempty st st' idx h⟩
  · intro s0 hG hB
    obtain ⟨s, e, -⟩ := init_events_initInv s0 hG hB
    exact ⟨s, e⟩
  · intro s hR
    obtain ⟨hG, hB, hS, hSC⟩ := reachable_inv s hR
    refine ⟨fun t ht0 ht1 => ⟨hS.1 t ht0 ht1,
      bucket_le_N s hS.2.2 (geometry_N_nonneg s hG) t ht0 ht1⟩, ?_⟩
    intro idx h0 h1
    exact ⟨_, (kmc_update_inv s idx hG hB hS.1 hS.2.2 hSC h0 h1).1⟩
  · intro st t idx st' h
    obtain ⟨a, b, c, d, -, -⟩ := insert_event_some_bounds st st' t idx h
    exact ⟨a, b, c, d⟩

/-- Witness for C17: the state built by `init_events` on the 1 x 3 grid has
bucket sizes in `[0, N]` and admits the update of site 0. -/
theorem bucket_capacity_respected_witness :
    ∃ s, init_events ghostState = some s ∧
      (∀ t, 0 ≤ t → t < 10 → 0 ≤ s.n_events t ∧ s.n_events t ≤ s.N) ∧
      ∃ s', kmc_update s 0 = some s' := by
  obtain ⟨s, e⟩ := bucket_capacity_respected.1 ghostState ghostState_geometry
    ghostState_spinsBinary
  have hR : Reachable s :=
    Reachable.init ghostState s ghostState_geometry ghostState_spinsBinary e
  obtain ⟨hb, hk⟩ := bucket_capacity_respected.2.1 s hR
  obtain ⟨s1, e1, hI⟩ := init_events_initInv ghostState ghostState_geometry
    ghostState_spinsBinary
  rw [e] at e1
  obtain rfl := Option.some.inj e1
  exact ⟨s, e, hb, hk 0 (by decide) (by rw [hI.2.2.2.1]; decide)⟩

/-! ## The 1 x 1 grid -/

theorem event_type_value_1x1 (s : Sys) (h0 : s.dim0 = 1) (h1 : s.dim1 = 1) :
    event_type_value s 0 0 = 9 * s.spin 0 ∧ idx2_to_idx1 s 0 0 = 0 ∧ i_next s 0 = 0 ∧
      i_prev s 0 = 0 ∧ j_next s 0 = 0 ∧ j_prev s 0 = 0 := by
  have a : i_next s 0 = 0 := by unfold i_next; rw [h0]; rfl
  have b : i_prev s 0 = 0 := by unfold i_prev; rw [h0]; rfl
  have c : j_next s 0 = 0 := by unfold j_next; rw [h1]; rfl
  have d : j_prev s 0 = 0 := by unfold j_prev; rw [h1]; rfl
  have e : idx2_to_idx1 s 0 0 = 0 := by unfold idx2_to_idx1; rw [h1]; rfl
  refine ⟨?_, e, a, b, c, d⟩
  unfold event_type_value
  rw [a, b, c, d, e]
  ring

theorem catalog_1x1 (s : Sys) (hG : Geometry s) (hS : Struct s) (hSC : SiteConsistent s)
    (h0 : s.dim0 = 1) (h1 : s.dim1 = 1) (hb : s.spin 0 = 0 ∨ s.spin 0 = 1) :
    get_event_type s 0 0 = some (9 * s.spin 0) ∧ s.grid_event_type 0 = 9 * s.spin 0 ∧
      s.grid_event_idx 0 = 0 ∧ s.n_events (9 * s.spin 0) = 1 ∧
      s.event_pos (9 * s.spin 0) 0 = 0 ∧
      ∀ t, 0 ≤ t → t < 10 → t ≠ 9 * s.spin 0 → s.n_events t = 0 := by
  have hN : s.N = 1 := by rw [hG.2.2, h0, h1]; rfl
  obtain ⟨hv, he, -⟩ := event_type_value_1x1 s h0 h1
  have hget := get_event_type_eq s hG 0 0 (by decide) (by omega) (by decide) (by omega)
  rw [hv] at hget
  have hty : s.grid_event_type 0 = 9 * s.spin 0 := by
    have := (hSC 0 0 (by decide) (by omega) (by decide) (by omega)).1
    rw [hget, he] at this
    exact (Option.some.inj this).symm
  have hall : ∀ x, 0 ≤ x → x < s.N → s.grid_event_type x = 9 * s.spin 0 := by
    intro x hx0 hx1
    have : x = 0 := by omega
    rw [this, hty]
  obtain ⟨hc, hother⟩ := struct_uniform_type s hS (by omega) _ hall
  have hn : s.n_events (9 * s.spin 0) = 1 := by
    rw [hc (by omega) (by omega), hN]
  obtain ⟨-, -, f3, f4, f5⟩ := hS.2.1 0 (by decide) (by omega)
  rw [hty, hn] at f4
  have hidx : s.grid_event_idx 0 = 0 := by omega
  rw [hty, hidx] at f5
  exact ⟨hget, hty, hidx, hn, f5, hother⟩

/-- C15: on the grid of `init_system(1, 1)` with the single spin 0 or 1,
`init_events` succeeds and files site 0 under type 0 (spin 0) or 9 (spin 1);
the four neighbours of site 0 are site 0 itself; the `kmc` update of site 0
succeeds (every access in range; a successful `remove_event` always acts on a
bucket of size at least 1), flips the spin, and ends with site 0 as the single
entry of bucket 9 (spin now 1) or bucket 0 (spin now 0) and all other buckets
empty. -/
theorem degenerate_grid_1x1 (spin0 ne0 get0 gei0 : Int → Int) (ep0 : Int → Int → Int)
    (hb : spin0 0 = 0 ∨ spin0 0 = 1) :
    ∃ s1, init_events (init_system 1 1 spin0 ne0 ep0 get0 gei0) = some s1 ∧
      s1.spin 0 = spin0 0 ∧
      get_event_type s1 0 0 = some (if spin0 0 = 1 then 9 else 0) ∧
      s1.grid_event_type 0 = (if spin0 0 = 1 then 9 else 0) ∧
      (idx1_to_idx2 s1 0 = some (0, 0) ∧ i_next s1 0 = 0 ∧ i_prev s1 0 = 0 ∧
        j_next s1 0 = 0 ∧ j_prev s1 0 = 0) ∧
      (∀ st idx st', remove_event st idx = some st' →
        1 ≤ st.n_events (st.grid_event_type idx)) ∧
      ∃ s2, kmc_update s1 0 = some s2 ∧ s2.spin 0 = 1 - spin0 0 ∧
        s2.grid_event_type 0 = (if s2.spin 0 = 1 then 9 else 0) ∧
        s2.grid_event_idx 0 = 0 ∧
        s2.n_events (if s2.spin 0 = 1 then 9 else 0) = 1 ∧
        s2.event_pos (if s2.spin 0 = 1 then 9 else 0) 0 = 0 ∧
        ∀ t, 0 ≤ t → t < 10 → t ≠ (if s2.spin 0 = 1 then 9 else 0) → s2.n_events t = 0 := by
  have hG0 : Geometry (init_system 1 1 spin0 ne0 ep0 get0 gei0) :=
    ⟨show (1 : Int) ≤ 1 by decide, show (1 : Int) ≤ 1 by decide,
      show (1 : Int) * 1 = 1 * 1 from rfl⟩
  have hB0 : SpinsBinary (init_system 1 1 spin0 ne0 ep0 get0 gei0) := by
    intro x hx0 hx1
    have hx1 : x < 1 * 1 := hx1
    have : x = 0 := by omega
    rw [this]
    exact hb
  obtain ⟨s1, e1, hI⟩ := init_events_initInv _ hG0 hB0
  obtain ⟨hsp, hG1, hS1, hSC1⟩ := initInv_final _ hG0 s1 hI
  have hd0 : s1.dim0 = 1 := hI.2.1
  have hd1 : s1.dim1 = 1 := hI.2.2.1
  have hN1 : s1.N = 1 := by rw [hG1.2.2, hd0, hd1]; rfl
  have hsp0 : s1.spin 0 = spin0 0 := by rw [hsp]; rfl
  have hB1 : SpinsBinary s1 := by
    intro x hx0 hx1
    have : x = 0 := by omega
    rw [this, hsp0]
    exact hb
  have hval : ∀ v : Int, v = 0 ∨ v = 1 → 9 * v = (if v = 1 then 9 else 0) := by
    intro v hv
    rcases hv with hv | hv <;> rw [hv] <;> rfl
  obtain ⟨g1, g2, -, -, -, -⟩ := catalog_1x1 s1 hG1 hS1 hSC1 hd0 hd1 (by rw [hsp0]; exact hb)
  rw [hsp0, hval _ hb] at g1 g2
  obtain ⟨-, -, n1, n2, n3, n4⟩ := event_type_value_1x1 s1 hd0 hd1
  have hsplit : idx1_to_idx2 s1 0 = some (0, 0) := by
    unfold idx1_to_idx2
    rw [hd1]
    rfl
  obtain ⟨e2, hG2, hB2, hS2, hSC2⟩ :=
    kmc_update_inv s1 0 hG1 hB1 hS1.1 hS1.2.2 hSC1 (by decide) (by omega)
  generalize updated s1 (0 / s1.dim1) (0 % s1.dim1) = s2 at e2 hG2 hB2 hS2 hSC2
  obtain ⟨hspin2, hN2⟩ := kmc_update_spin s1 s2 0 e2
  have hflip : s2.spin 0 = 1 - spin0 0 := by
    rw [hspin2, Function.update_same, hsp0]
  have hb2 : s2.spin 0 = 0 ∨ s2.spin 0 = 1 := hB2 0 (by decide) (by omega)
  have hd0' : s2.dim0 = 1 := by
    have := hG2.1
    have h3 := hG2.2.1
    have h4 := hG2.2.2
    rw [hN2, hN1] at h4
    nlinarith
  have hd1' : s2.dim1 = 1 := by
    have := hG2.1
    have h3 := hG2.2.1
    have h4 := hG2.2.2
    rw [hN2, hN1] at h4
    nlinarith
  obtain ⟨-, c2, c3, c4, c5, c6⟩ := catalog_1x1 s2 hG2 hS2 hSC2 hd0' hd1' hb2
  rw [hval _ hb2] at c2 c4 c5 c6
  exact ⟨s1, e1, hsp0, g1, g2, ⟨hsplit, n1, n2, n3, n4⟩,
    fun st idx st' h => remove_event_some_nonempty st st' idx h,
    s2, e2, hflip, c2, c3, c4, c5, c6⟩

/-- Witness for C15: the fresh arrays read as zero except the spin, which is 1. -/
theorem degenerate_grid_1x1_witness :
    ∃ s1, init_events (init_system 1 1 (fun _ => 1) (fun _ => 0) (fun _ _ => 0) (fun _ => 0)
        (fun _ => 0)) = some s1 ∧
      ∃ s2, kmc_update s1 0 = some s2 ∧ s2.spin 0 = 0 := by
  obtain ⟨s1, e1, -, -, -, -, -, s2, e2, h2, -⟩ :=
    degenerate_grid_1x1 (fun _ => 1) (fun _ => 0) (fun _ => 0) (fun _ => 0) (fun _ _ => 0)
      (Or.inr rfl)
  exact ⟨s1, e1, s2, e2, h2⟩

/-! ## Text load -/

theorem cin_extract_cons (c0 c : Char) (rest : List Char) (hc : isspace c = false) :
    cin_extract c0 (c :: rest) = (c, rest) := by
  unfold cin_extract
  have : cin_get_char (c :: rest) = some (c, rest) := by
    show (if isspace c then cin_get_char rest else some (c, rest)) = _
    rw [hc]
    rfl
  rw [this]

theorem read_spin_loop_spec :
    ∀ (n k : Nat) (s : Sys) (c0 : Char) (inp : List Char), (n ≠ 0 → (k : Int) + n ≤ s.N) →
      (∀ c ∈ inp, isspace c = false) → n ≤ inp.length →
      (∀ s' rest, read_spin_loop n (k : Int) s c0 inp = ReadOutcome.done s' rest →
        s'.N = s.N ∧
        (∀ m, m < n → (inp[m]? = some '+' ∧ s'.spin ((k : Int) + m) = 1) ∨
          (inp[m]? = some '-' ∧ s'.spin ((k : Int) + m) = 0)) ∧
        ∀ x : Int, x < k → s'.spin x = s.spin x) ∧
      (∀ s' rest, read_spin_loop n (k : Int) s c0 inp = ReadOutcome.thrown s' rest →
        ∃ m c, m < n ∧ inp[m]? = some c ∧ c ≠ '+' ∧ c ≠ '-') ∧
      read_spin_loop n (k : Int) s c0 inp ≠ ReadOutcome.undefined := by
  intro n
  induction n with
  | zero =>
    intro k s c0 inp _ _ _
    refine ⟨?_, ?_, ?_⟩
    · intro s' rest h
      have h : ReadOutcome.done s inp = ReadOutcome.done s' rest := h
      injection h with h1 h2
      subst h1
      exact ⟨rfl, fun m hm => absurd hm (by omega), fun _ _ => rfl⟩
    · intro s' rest h
      have h : ReadOutcome.done s inp = ReadOutcome.thrown s' rest := h
      cases h
    · intro h
      have h : ReadOutcome.done s inp = ReadOutcome.undefined := h
      cases h
  | succ n ih =>
    intro k s c0 inp hk0 hws hlen
    have hk : (k : Int) + ((n + 1 : Nat) : Int) ≤ s.N := hk0 (by omega)
    cases inp with
    | nil => simp at hlen
    | cons c rest =>
      have hc : isspace c = false := hws c (List.mem_cons_self _ _)
      have hws' : ∀ c' ∈ rest, isspace c' = false :=
        fun c' hc' => hws c' (List.mem_cons_of_mem _ hc')
      have hlen' : n ≤ rest.length := by simpa using hlen
      have hget := cin_extract_cons c0 c rest hc
      have hwr : ∀ v : Int, wr s.N s.spin (k : Int) v
          = some (Function.update s.spin (k : Int) v) :=
        fun v => wr_some (by omega) (by omega)
      have hstep : ∀ v : Int, ∀ out,
          read_spin_loop n ((k : Int) + 1)
            { s with spin := Function.update s.spin (k : Int) v } c rest = out →
          (c = '+' ∧ v = 1) ∨ (c = '-' ∧ v = 0) →
          read_spin_loop (n + 1) (k : Int) s c0 (c :: rest) = out := by
        intro v out hout hcv
        rw [read_spin_loop, hget]
        rcases hcv with ⟨h1, h2⟩ | ⟨h1, h2⟩
        · subst h1 h2
          simp only [if_true, hwr]
          exact hout
        · subst h1 h2
          have hne : ¬ ('-' = '+') := by decide
          simp only [hne, if_false, if_true, hwr]
          exact hout
      by_cases hgood : c = '+' ∨ c = '-'
      · obtain ⟨v, hcv⟩ : ∃ v : Int, (c = '+' ∧ v = 1) ∨ (c = '-' ∧ v = 0) := by
          rcases hgood with h | h
          · exact ⟨1, Or.inl ⟨h, rfl⟩⟩
          · exact ⟨0, Or.inr ⟨h, rfl⟩⟩
        have hrec := hstep v _ rfl hcv
        have ih' := ih (k + 1) { s with spin := Function.update s.spin (k : Int) v } c rest
          (fun _ => by push_cast; push_cast at hk; omega) hws' hlen'
        have hcast : (((k + 1 : Nat) : Int)) = (k : Int) + 1 := by push_cast; rfl
        rw [hcast] at ih'
        rw [hrec]
        obtain ⟨ihD, ihT, ihU⟩ := ih'
        refine ⟨?_, ?_, ihU⟩
        · intro s' rest' h
          obtain ⟨d2, d3, d4⟩ := ihD s' rest' h
          refine ⟨d2, ?_, ?_⟩
          · intro m hm
            cases m with
            | zero =>
              have hs : s'.spin (k : Int) = v := by
                rw [d4 (k : Int) (by omega)]
                exact Function.update_same _ _ _
              rcases hcv with ⟨h1, h2⟩ | ⟨h1, h2⟩
              · left
                exact ⟨by simp [h1], by simpa [h2] using hs⟩
              · right
                exact ⟨by simp [h1], by simpa [h2] using hs⟩
            | succ m =>
              have := d3 m (by omega)
              have e : (k : Int) + ((m + 1 : Nat) : Int) = (k : Int) + 1 + (m : Int) := by
                push_cast; ring
              rw [e]
              simpa using this
          · intro x hx
            rw [d4 x (by omega)]
            exact Function.update_noteq (by omega) _ _
        · intro s' rest' h
          obtain ⟨m, c', hm, hc', hb⟩ := ihT s' rest' h
          exact ⟨m + 1, c', by omega, by simpa using hc', hb⟩
      · have hthrow : read_spin_loop (n + 1) (k : Int) s c0 (c :: rest)
            = ReadOutcome.thrown s rest := by
          rw [read_spin_loop, hget]
          simp only
          rw [if_neg (fun h => hgood (Or.inl h)), if_neg (fun h => hgood (Or.inr h))]
        rw [hthrow]
        refine ⟨?_, ?_, ?_⟩
        · intro s' rest' h
          cases h
        · intro s' rest' _
          exact ⟨0, c, by omega, by simp, fun h => hgood (Or.inl h),
            fun h => hgood (Or.inr h)⟩
        · intro h
          cases h

/-- C16 (as stated) fails: the empty input contains no white space and no
character other than `+` and `-`, yet on the 2 x 2 grid (`N = 4`) `read_spin`
throws when the variable `c`, never assigned because the extraction fails at
the end of the input, holds a character that is neither `+` nor `-` (here the
character with code 0). -/
theorem read_spin_throws_on_empty_input :
    (∀ c ∈ ([] : List Char), isspace c = false) ∧
      (¬ ∃ m c, m < allUp.N.toNat ∧ ([] : List Char)[m]? = some c ∧ c ≠ '+' ∧ c ≠ '-') ∧
      read_spin allUp (Char.ofNat 0) [] = ReadOutcome.thrown allUp [] := by
  refine ⟨fun c hc => absurd hc (List.not_mem_nil c), ?_, rfl⟩
  rintro ⟨m, c, -, hc, -⟩
  simp at hc

/-- On an input that ends early the loop goes on with the last character
extracted: with `N = 4` and the input `+-` it completes, and `spin[2]` and
`spin[3]` are 0 although the input has no third or fourth character. -/
theorem read_spin_reuses_last_character :
    ∃ s' rest, read_spin allUp (Char.ofNat 0) ['+', '-'] = ReadOutcome.done s' rest ∧
      s'.spin 0 = 1 ∧ s'.spin 1 = 0 ∧ s'.spin 2 = 0 ∧ s'.spin 3 = 0 :=
  ⟨_, _, rfl, by decide, by decide, by decide, by decide⟩

/-- C16 (amended): for every `N`, every content of the variable `c` and every
input without white space that holds at least `N` characters, (1) `read_spin`
throws exactly when one of the first `N` characters is neither `+` nor `-`;
(2) when the loop completes, for every `k` in `0..N-1` the `k`-th character is
`+` and `spin[k] = 1`, or it is `-` and `spin[k] = 0`; (3) the run either throws
or completes, and it completes when the first `N` characters are all `+` or
`-`. -/
theorem read_spin_spec (s : Sys) (c0 : Char) (inp : List Char)
    (hws : ∀ c ∈ inp, isspace c = false) (hlen : s.N.toNat ≤ inp.length) :
    ((∃ s' rest, read_spin s c0 inp = ReadOutcome.thrown s' rest) ↔
      ∃ m c, m < s.N.toNat ∧ inp[m]? = some c ∧ c ≠ '+' ∧ c ≠ '-') ∧
    (∀ s' rest, read_spin s c0 inp = ReadOutcome.done s' rest →
      ∀ k : Nat, k < s.N.toNat →
        (inp[k]? = some '+' ∧ s'.spin (k : Int) = 1) ∨
          (inp[k]? = some '-' ∧ s'.spin (k : Int) = 0)) ∧
    read_spin s c0 inp ≠ ReadOutcome.undefined ∧
    ((∀ m c, m < s.N.toNat → inp[m]? = some c → c = '+' ∨ c = '-') →
      ∃ s' rest, read_spin s c0 inp = ReadOutcome.done s' rest) := by
  obtain ⟨hD, hT, hU⟩ := read_spin_loop_spec s.N.toNat 0 s c0 inp
    (fun h => by
      have : 0 < s.N.toNat := Nat.pos_of_ne_zero h
      push_cast
      omega) hws hlen
  have hD : ∀ s' rest, read_spin s c0 inp = ReadOutcome.done s' rest → _ := hD
  have hT : ∀ s' rest, read_spin s c0 inp = ReadOutcome.thrown s' rest → _ := hT
  have hU : read_spin s c0 inp ≠ ReadOutcome.undefined := hU
  refine ⟨⟨fun ⟨s', rest, h⟩ => hT s' rest h, ?_⟩, ?_, hU, ?_⟩
  · rintro ⟨m, c, hm, hc, hb1, hb2⟩
    cases hr : read_spin s c0 inp with
    | thrown s' rest => exact ⟨s', rest, rfl⟩
    | done s' rest =>
      obtain ⟨-, d3, -⟩ := hD s' rest hr
      rcases d3 m hm with ⟨h1, -⟩ | ⟨h1, -⟩
      · rw [hc] at h1
        exact absurd (Option.some.inj h1) hb1
      · rw [hc] at h1
        exact absurd (Option.some.inj h1) hb2
    | undefined => exact absurd hr hU
  · intro s' rest h k hk
    obtain ⟨-, d3, -⟩ := hD s' rest h
    simpa using d3 k hk
  · intro hgood
    cases hr : read_spin s c0 inp with
    | done s' rest => exact ⟨s', rest, rfl⟩
    | thrown s' rest =>
      obtain ⟨m, c, hm, hc, hb1, hb2⟩ := hT s' rest hr
      rcases hgood m c hm hc with h | h
      · exact absurd h hb1
      · exact absurd h hb2
    | undefined => exact absurd hr hU

/-- Witness for C16 (amended): `N = 4` and the input `+-+-`. -/
theorem read_spin_spec_witness :
    ∃ s' rest, read_spin allUp (Char.ofNat 0) ['+', '-', '+', '-']
        = ReadOutcome.done s' rest ∧ s'.spin 0 = 1 ∧ s'.spin 1 = 0 := by
  have h := read_spin_spec allUp (Char.ofNat 0) ['+', '-', '+', '-'] (by decide) (by decide)
  obtain ⟨s', rest, e⟩ := h.2.2.2 (by
    intro m c hm hc
    have hm : m < 4 := hm
    interval_cases m <;> simp at hc <;> simp [← hc])
  have h0 := h.2.1 s' rest e 0 (by decide)
  have h1 := h.2.1 s' rest e 1 (by decide)
  refine ⟨s', rest, e, ?_, ?_⟩
  · rcases h0 with ⟨-, h⟩ | ⟨hc, -⟩
    · exact h
    · simp at hc
  · rcases h1 with ⟨hc, -⟩ | ⟨-, h⟩
    · simp at hc
    · exact h

/-! ## The rate table when `tanh` saturates -/

theorem kmc_select_zero_total {K : Type} [LinearOrderedField K] (RAND_MAX : Int)
    (rate : Int → K) (s : Sys) (r1 r2 : Int) (htot : total_rate rate s.n_events = 0)
    (h0 : s.n_events 0 = 0) : kmc_select RAND_MAX rate s r1 r2 = none := by
  have hc : chosen_event_type rate s.n_events
      ((r1 : K) / (RAND_MAX : K) * total_rate rate s.n_events) = 0 := by
    show (if (r1 : K) / (RAND_MAX : K) * total_rate rate s.n_events
        ≤ 0 + rate 0 * ((s.n_events 0 : Int) : K) then (0 : Int) else _) = 0
    rw [if_pos]
    rw [htot, h0]
    simp
  unfold kmc_select
  simp only [hc, Option.bind_eq_bind]
  rw [rd_some (by decide) (by decide), h0]
  rfl

/-- C20 (the code at the failing input): take for `tanh` any function that, like
the `tanh` of doubles, returns exactly 1 at 20 and exactly -1 at -20.  Then after
`set_param(5, 0, 1)` the rates of the aligned types are `rate[0] = rate[9] = 0`
and `rate[4] = 1 = freq`; on the 2 x 2 all-up state (non-negative bucket sizes
summing to `N = 4`) `total_rate` is 0, and `kmc` fails for all `rand()` outputs:
the threshold is 0, the selection stops at the empty bucket 0, and
`rand() % 0` follows.  The function `saturating_tanh` is such a function. -/
theorem rates_vanish_when_tanh_saturates :
    (∀ (tanh : ℚ → ℚ) (rate0 : Int → ℚ), tanh 20 = 1 → tanh (-20) = -1 →
      init_event_rates tanh 5 0 1 rate0 0 = 0 ∧ init_event_rates tanh 5 0 1 rate0 9 = 0 ∧
      init_event_rates tanh 5 0 1 rate0 4 = 1 ∧
      total_rate (init_event_rates tanh 5 0 1 rate0) allUp.n_events = 0 ∧
      ∀ (log : ℚ → ℚ) (r1 r2 r3 : Int),
        kmc RAND_MAX_usual log (init_event_rates tanh 5 0 1 rate0) allUp r1 r2 r3 = none) ∧
    saturating_tanh 20 = 1 ∧ saturating_tanh (-20) = -1 ∧
    (∀ t, 0 ≤ t → t < 10 → 0 ≤ allUp.n_events t) ∧
    ∑ t ∈ Finset.range 10, allUp.n_events (t : Int) = 4 := by
  refine ⟨?_, by decide, by decide, allUp_countsNonneg, by decide⟩
  intro tanh rate0 hp hm
  have r0 : init_event_rates tanh 5 0 1 rate0 0 = 0 := by
    rw [init_event_rates_eq _ _ _ _ _ 0 (by decide) (by decide)]
    unfold rate_value betaE
    have : (1 : ℚ) / 2 * (-5 * ((2 - 4 * Int.tdiv 0 5 : Int) : ℚ)
        * ((2 * Int.tmod 0 5 - 4 : Int) : ℚ) + 0 * ((2 - 4 * Int.tdiv 0 5 : Int) : ℚ)) = 20 := by
      simp [Int.tdiv, Int.tmod]
      norm_num
    rw [this, hp]
    norm_num
  have r9 : init_event_rates tanh 5 0 1 rate0 9 = 0 := by
    rw [init_event_rates_eq _ _ _ _ _ 9 (by decide) (by decide)]
    unfold rate_value betaE
    have : (1 : ℚ) / 2 * (-5 * ((2 - 4 * Int.tdiv 9 5 : Int) : ℚ)
        * ((2 * Int.tmod 9 5 - 4 : Int) : ℚ) + 0 * ((2 - 4 * Int.tdiv 9 5 : Int) : ℚ)) = 20 := by
      simp [Int.tdiv, Int.tmod]
      norm_num
    rw [this, hp]
    norm_num
  have r4 : init_event_rates tanh 5 0 1 rate0 4 = 1 := by
    rw [init_event_rates_eq _ _ _ _ _ 4 (by decide) (by decide)]
    unfold rate_value betaE
    have : (1 : ℚ) / 2 * (-5 * ((2 - 4 * Int.tdiv 4 5 : Int) : ℚ)
        * ((2 * Int.tmod 4 5 - 4 : Int) : ℚ) + 0 * ((2 - 4 * Int.tdiv 4 5 : Int) : ℚ)) = -20 := by
      simp [Int.tdiv, Int.tmod]
      norm_num
    rw [this, hm]
    norm_num
  have htot : total_rate (init_event_rates tanh 5 0 1 rate0) allUp.n_events = 0 := by
    rw [total_rate_eq_sum]
    simp [Finset.sum_range_succ, allUp, r9]
  refine ⟨r0, r9, r4, htot, ?_⟩
  intro log r1 r2 r3
  unfold kmc
  simp only [Option.bind_eq_bind]
  rw [kmc_select_zero_total RAND_MAX_usual _ allUp r1 r2 htot rfl]
  rfl

end Ising
